import Mathlib

/-!
# Request pipeline of the Hono boilerplate: rate limiter, error boundary, response envelope

A shallow embedding of `src/middlewares/rateLimit.js`, `src/middlewares/errorHandler.js`,
`src/middlewares/requestId.js`, `src/middlewares/validate.js`, `src/middlewares/authJwt.js`,
`src/utils/response.js`, `src/utils/pagination.js`, `src/modules/user/user.schema.js`,
`src/modules/user/user.service.js` and `src/config/env.js`, followed by the properties proved
about them.

Conventions of the embedding

* JavaScript values that flow into response bodies are `JsVal`. A number is an integer, or
  one of `Infinity`, `-Infinity`, `NaN`; numbers computed from request text (`parseInt`,
  `Number`) are rounded to the nearest double as JavaScript does (`toDouble`); negative zero
  is identified with zero, which the source cannot tell apart.
* A middleware `async (c, next) => ...` is a function of the context it receives and of the
  continuation `next`; it yields the context as mutated so far together with the way the call
  settled (`Completion`): a returned value or a raised failure.
* `Date.now()` is an explicit argument `now` (milliseconds, an integer).
* The module-level `store` of the rate limiter is threaded explicitly; `next` has no access
  to it, as the `const store` is private to the module.
* `console.error` / `console.log` output is not modelled.
* Every raised failure is an `Error` object, as is everything the source throws. Inside a
  chain Hono's `compose` catches the `Error` a stage or handler raises, answers with the
  `onError` handler of the app and resolves the `next()` of the stage before it; `app.js`
  registers no `onError`, so the handler is Hono's default one (`dispatch`,
  `defaultOnError`). The middlewares themselves are functions of an arbitrary `next`.
* The repository of `UserService` is a parameter: a record of functions over a database
  state, whose calls resolve; the calls the service makes are logged in a ghost field.
  `Bun.password.hash` is a parameter as well, a function that resolves to the hash text.
-/

set_option exponentiation.threshold 4096

namespace HonoBoilerplate

/-! ## JavaScript values -/

/-- JavaScript values as they occur in response bodies and context variables. -/
inductive JsVal where
  | undefined : JsVal
  | null : JsVal
  | bool (b : Bool) : JsVal
  | num (n : Int) : JsVal
  | infinity (negative : Bool) : JsVal
  | nan : JsVal
  | str (s : String) : JsVal
  | arr (items : List JsVal) : JsVal
  | obj (fields : List (String × JsVal)) : JsVal

namespace JsVal

/-- JavaScript truthiness (`if (v)`, `v || w`). -/
def truthy : JsVal → Bool
  | undefined => false
  | null => false
  | bool b => b
  | num n => n != 0
  | infinity _ => true
  | nan => false
  | str s => s != ""
  | arr _ => true
  | obj _ => true

/-- The operator `a || b`. -/
def or (a b : JsVal) : JsVal := if a.truthy then a else b

/-- Own-property lookup in a list of fields (the last write to a key wins, keys are unique
in every object literal of the source). -/
def lookup (k : String) : List (String × JsVal) → Option JsVal
  | [] => none
  | (k', v) :: rest => if k' = k then some v else lookup k rest

/-- Property read `v[k]`: `none` when `v` is not an object or has no own property `k`. -/
def field (v : JsVal) (k : String) : Option JsVal :=
  match v with
  | obj fs => lookup k fs
  | _ => none

/-- Own-property test, `k in v` for a plain object `v`. -/
def hasField (v : JsVal) (k : String) : Bool := (v.field k).isSome

/-- Property assignment `v[k] = w` on a plain object: replaces in place or appends. -/
def assign (k : String) (w : JsVal) : List (String × JsVal) → List (String × JsVal)
  | [] => [(k, w)]
  | (k', v) :: rest => if k' = k then (k, w) :: rest else (k', v) :: assign k w rest

end JsVal

/-! ## Hono context -/

/-- HTTP header map; names are compared as the source spells them. -/
abbrev Headers := List (String × String)

/-- Reading a header, `headers.get(name)` / `c.req.header(name)`. -/
def Headers.get (h : Headers) (name : String) : Option String :=
  match h with
  | [] => none
  | (n, v) :: rest => if n = name then some v else Headers.get rest name

/-- Writing a header, `headers.set(name, value)`: replaces the value or appends the header. -/
def Headers.set (h : Headers) (name value : String) : Headers :=
  match h with
  | [] => [(name, value)]
  | (n, v) :: rest => if n = name then (name, value) :: rest else (n, v) :: Headers.set rest name value

/-- A response object: status, the value handed to `c.json`, and its headers. -/
structure Response where
  status : Int
  body : JsVal
  headers : Headers

/-- The per-request context `c`: inbound headers, the variables of `c.set`/`c.get`, and the
headers of the response under construction (`c.res.headers`); further the request path
(`c.req.path`), the query and path parameters (`c.req.query()`, `c.req.param()`), the value
`c.req.json()` resolves to (`none` when the body is not JSON and the call rejects), and the
status and body of the response installed as `c.res` (`none` while the context is not
finalized; the headers of `c.res` are `resHeaders`). -/
structure Context where
  reqHeaders : Headers := []
  vars : List (String × JsVal) := []
  resHeaders : Headers := []
  path : String := "/"
  query : List (String × String) := []
  params : List (String × String) := []
  reqJson : Option JsVal := none
  res : Option (Int × JsVal) := none

namespace Context

/-- Reading an inbound header, `c.req.header(name)`. -/
def header (c : Context) (name : String) : Option String := c.reqHeaders.get name

/-- Reading a context variable, `c.get(key)`; `undefined` when it was never set. -/
def get (c : Context) (key : String) : JsVal := (JsVal.lookup key c.vars).getD JsVal.undefined

/-- Writing a context variable, `c.set(key, value)`. -/
def set (c : Context) (key : String) (v : JsVal) : Context :=
  { c with vars := JsVal.assign key v c.vars }

/-- Writing a response header, `c.res.headers.set(name, value)`. -/
def setResHeader (c : Context) (name value : String) : Context :=
  { c with resHeaders := c.resHeaders.set name value }

/-- The response `c.json(body, status)` builds: Hono copies the headers already set on `c.res`
into the new response. `body` is the value handed to `c.json`; what goes over the wire is its
JSON text, see `JsVal.toJson`. The `Content-Type` header that Hono adds is left out. The
constructor of `Response` accepts every status the source writes as a constant (200, 201, 400,
401, 403, 404, 429, 500, 503); where the status is taken from a raised failure the check the
constructor makes is part of the model, see `Context.returnJson`. -/
def json (c : Context) (body : JsVal) (status : Int) : Response :=
  { status := status, body := body, headers := c.resHeaders }

/-- The response `c.text(text, status)` builds: as `c.json`, with the text as the body. -/
def text (c : Context) (text : String) (status : Int) : Response :=
  { status := status, body := JsVal.str text, headers := c.resHeaders }

end Context

/-! ## Failures and completions -/

/-- One element of a Zod issue path: an object key or an array index. -/
inductive PathSeg where
  | key (s : String) : PathSeg
  | index (n : Nat) : PathSeg
  deriving DecidableEq

/-- The string a path element contributes to `path.join('.')`. -/
def PathSeg.render : PathSeg → String
  | key s => s
  | index n => toString n

/-- A Zod issue, as far as the source reads it: `path` and `message`. -/
structure ZodIssue where
  path : List PathSeg
  message : String
  deriving DecidableEq

/-- The expression `e.path.join('.')`. -/
def ZodIssue.joinPath (e : ZodIssue) : String := String.intercalate "." (e.path.map PathSeg.render)

/-- The classes the source tests with `instanceof`. -/
inductive ErrorClass where
  | zodError | httpException | syntaxError | other
  deriving DecidableEq

/-- A raised failure: its class and the properties the source reads from it. `none` stands
for an absent (`undefined`) property. -/
structure JsError where
  cls : ErrorClass := ErrorClass.other
  message : String
  status : Option Int := none
  statusCode : Option Int := none
  code : Option String := none
  errors : List ZodIssue := []
  deriving DecidableEq

/-- How an `async` call settles: it returns a response or `undefined`, or it raises. -/
inductive Completion where
  | returned (res : Option Response) : Completion
  | threw (err : JsError) : Completion

/-- The continuation `next` (and any handler): it may mutate the context and settles. -/
abbrev Next := Context → Context × Completion

/-- The statement `await next();` at the end of a middleware body: the value `next` resolves
to is dropped and the middleware returns `undefined`; a failure propagates. -/
def awaitNext (r : Context × Completion) : Context × Completion :=
  match r with
  | (c, Completion.returned _) => (c, Completion.returned none)
  | (c, Completion.threw e) => (c, Completion.threw e)

/-! ## Environment (`src/config/env.js`) -/

/-- The fields of `env` that the pipeline reads. -/
structure Env where
  NODE_ENV : String
  RATE_LIMIT_MAX : Int
  RATE_LIMIT_WINDOW_MS : Int

/-- The helper `env.isDev`. -/
def Env.isDev (env : Env) : Bool := env.NODE_ENV == "development"

/-- The helper `env.isProd`. -/
def Env.isProd (env : Env) : Bool := env.NODE_ENV == "production"

/-! ## Rate limiter (`src/middlewares/rateLimit.js`) -/

/-- An entry of the in-memory store: `{ count, resetAt }`. -/
structure Entry where
  count : Int
  resetAt : Int
  deriving DecidableEq

/-- The module-level `store = new Map()`: client key to entry, in insertion order. -/
abbrev Store := List (String × Entry)

/-- The call `store.get(key)`. -/
def Store.get (s : Store) (key : String) : Option Entry :=
  match s with
  | [] => none
  | (k, e) :: rest => if k = key then some e else Store.get rest key

/-- The call `store.set(key, entry)`; also used for the in-place update `entry.count++`, which
changes the entry held under its key. -/
def Store.set (s : Store) (key : String) (entry : Entry) : Store :=
  match s with
  | [] => [(key, entry)]
  | (k, e) :: rest => if k = key then (key, entry) :: rest else (k, e) :: Store.set rest key entry

/-- The periodic cleanup: `store.delete(key)` for every entry with `value.resetAt < now`. -/
def sweep (s : Store) (now : Int) : Store :=
  s.filter (fun kv => !(decide (kv.2.resetAt < now)))

/-- White space and line terminators, the characters `String.prototype.trim` strips. -/
def isJsWhitespace (ch : Char) : Bool :=
  let n := ch.toNat
  n = 0x09 || n = 0x0A || n = 0x0B || n = 0x0C || n = 0x0D || n = 0x20 || n = 0xA0
    || n = 0x1680 || (0x2000 ≤ n && n ≤ 0x200A) || n = 0x2028 || n = 0x2029
    || n = 0x202F || n = 0x205F || n = 0x3000 || n = 0xFEFF

/-- The method `s.trim()`. -/
def jsTrim (s : String) : String :=
  String.mk ((s.data.dropWhile isJsWhitespace).reverse.dropWhile isJsWhitespace).reverse

/-- The expression `s.split(',')[0]`: the text before the first comma. -/
def firstCommaField (s : String) : String :=
  String.mk (s.data.takeWhile (fun ch => ch != ','))

/-- The client key:
`c.req.header('X-Forwarded-For')?.split(',')[0]?.trim() || c.req.header('X-Real-IP') || 'unknown'`. -/
def clientKey (c : Context) : String :=
  let forwarded := (c.header "X-Forwarded-For").map (fun h => jsTrim (firstCommaField h))
  match forwarded with
  | some ip =>
    if ip != "" then ip
    else
      match c.header "X-Real-IP" with
      | some real => if real != "" then real else "unknown"
      | none => "unknown"
  | none =>
    match c.header "X-Real-IP" with
    | some real => if real != "" then real else "unknown"
    | none => "unknown"

/-- The expression `Math.ceil(a / b)` on integers with `b > 0`. -/
def ceilDiv (a b : Int) : Int := -((-a) / b)

/-- The argument of `rateLimit(options = {})`; `none` is an absent property. -/
structure RateLimitOptions where
  max : Option Int := none
  windowMs : Option Int := none

/-- The constant `max = options.max ?? env.RATE_LIMIT_MAX`. -/
def RateLimitOptions.resolveMax (options : RateLimitOptions) (env : Env) : Int :=
  match options.max with
  | some m => m
  | none => env.RATE_LIMIT_MAX

/-- The constant `windowMs = options.windowMs || env.RATE_LIMIT_WINDOW_MS`. -/
def RateLimitOptions.resolveWindowMs (options : RateLimitOptions) (env : Env) : Int :=
  match options.windowMs with
  | some w => if w != 0 then w else env.RATE_LIMIT_WINDOW_MS
  | none => env.RATE_LIMIT_WINDOW_MS

/-- What one run of the rate-limit middleware leaves behind: the store, the context, the way
the call settled, and (a ghost field) the context that was handed to `next()`, `none` when
`next()` was not called. -/
structure Served where
  store : Store
  ctx : Context
  forwarded : Option Context
  completion : Completion

/-- The body sent with status 429. -/
def rateLimitBody (c : Context) : JsVal :=
  JsVal.obj [
    ("success", JsVal.bool false),
    ("error", JsVal.obj [
      ("message", JsVal.str "Too many requests, please try again later"),
      ("code", JsVal.str "RATE_LIMIT_EXCEEDED")]),
    ("requestId", c.get "requestId")]

/-- The tail of the middleware, from `// Set rate limit headers` on: it reads the entry back,
sets the three headers and awaits `next()`. -/
def rateLimitForward (max : Int) (ip : String) (next : Next) (store : Store) (c : Context) : Served :=
  match store.get ip with
  | none =>
    { store := store, ctx := c, forwarded := none,
      completion := Completion.threw
        { message := "undefined is not an object (evaluating currentEntry.count)" } }
  | some currentEntry =>
    let c1 := c.setResHeader "X-RateLimit-Limit" (toString max)
    let c2 := c1.setResHeader "X-RateLimit-Remaining" (toString (Max.max 0 (max - currentEntry.count)))
    let c3 := c2.setResHeader "X-RateLimit-Reset" (toString currentEntry.resetAt)
    let r := awaitNext (next c3)
    { store := store, ctx := r.1, forwarded := some c3, completion := r.2 }

/-- The middleware returned by `rateLimit(options)`, run at time `now` on the store `store`
and the context `c`. -/
def rateLimit (env : Env) (options : RateLimitOptions) (now : Int) (next : Next)
    (store : Store) (c : Context) : Served :=
  let max := options.resolveMax env
  let windowMs := options.resolveWindowMs env
  if max = 0 then
    let r := next c
    { store := store, ctx := r.1, forwarded := some c, completion := r.2 }
  else
    let ip := clientKey c
    match store.get ip with
    | none =>
      rateLimitForward max ip next (store.set ip { count := 1, resetAt := now + windowMs }) c
    | some entry =>
      if entry.resetAt < now then
        rateLimitForward max ip next (store.set ip { count := 1, resetAt := now + windowMs }) c
      else
        let entry1 : Entry := { entry with count := entry.count + 1 }
        let store1 := store.set ip entry1
        if entry1.count > max then
          let retryAfter := ceilDiv (entry1.resetAt - now) 1000
          let c1 := c.setResHeader "Retry-After" (toString retryAfter)
          let c2 := c1.setResHeader "X-RateLimit-Limit" (toString max)
          let c3 := c2.setResHeader "X-RateLimit-Remaining" "0"
          let c4 := c3.setResHeader "X-RateLimit-Reset" (toString entry1.resetAt)
          { store := store1, ctx := c4, forwarded := none,
            completion := Completion.returned (some (c4.json (rateLimitBody c4) 429)) }
        else
          rateLimitForward max ip next store1 c

/-- One request reaching the limiter: the time it is served, its context and its downstream. -/
structure Request where
  now : Int
  ctx : Context
  next : Next

/-- Serving a sequence of requests one after the other, each check running to completion
before the following one starts; the result pairs each request with what it left behind. -/
def serveAll (env : Env) (options : RateLimitOptions) : Store → List Request → List (Request × Served)
  | _, [] => []
  | store, r :: rest =>
    let out := rateLimit env options r.now r.next store r.ctx
    (r, out) :: serveAll env options out.store rest

/-- The store after serving a sequence of requests. -/
def finalStore (env : Env) (options : RateLimitOptions) : Store → List Request → Store
  | store, [] => store
  | store, r :: rest =>
    finalStore env options (rateLimit env options r.now r.next store r.ctx).store rest

/-- A check is allowed when the middleware called `next()`. -/
def Served.allowed (o : Served) : Bool := o.forwarded.isSome

/-- A check is denied when `next()` was not called and the middleware answered 429. -/
def Served.denied (o : Served) : Bool :=
  o.forwarded.isNone &&
    (match o.completion with
     | Completion.returned (some r) => r.status == 429
     | _ => false)

/-- Number of allowed checks of a run. -/
def allowedCount (outs : List (Request × Served)) : Nat :=
  outs.countP (fun p => p.2.allowed)

/-- Number of denied checks of a run. -/
def deniedCount (outs : List (Request × Served)) : Nat :=
  outs.countP (fun p => p.2.denied)

/-- Number of allowed checks of a run whose time lies in the closed interval `[lo, hi]`. -/
def allowedWithin (lo hi : Int) (outs : List (Request × Served)) : Nat :=
  outs.countP (fun p => p.2.allowed && decide (lo ≤ p.1.now) && decide (p.1.now ≤ hi))

/-- The context handed to `next()` by an allowed check: the three rate-limit headers are set
from the configured maximum and the current entry. -/
def limitHeaders (c : Context) (max : Int) (cur : Entry) : Context :=
  ((c.setResHeader "X-RateLimit-Limit" (toString max)).setResHeader
    "X-RateLimit-Remaining" (toString (Max.max 0 (max - cur.count)))).setResHeader
    "X-RateLimit-Reset" (toString cur.resetAt)

/-- The context a denied check leaves behind: four headers set on `c.res`. -/
def denyHeaders (c : Context) (max now : Int) (cur : Entry) : Context :=
  (((c.setResHeader "Retry-After" (toString (ceilDiv (cur.resetAt - now) 1000))).setResHeader
    "X-RateLimit-Limit" (toString max)).setResHeader
    "X-RateLimit-Remaining" "0").setResHeader
    "X-RateLimit-Reset" (toString cur.resetAt)

/-! ## Serialisation of bodies -/

mutual
/-- The value a client reads back from the JSON text of `v`, that is
`JSON.parse(JSON.stringify(v))`: properties whose value is `undefined` are left out of objects
and `undefined` array elements become `null`; a number that is not finite is written `null`. -/
def JsVal.toJson : JsVal → JsVal
  | JsVal.arr items => JsVal.arr (toJsonItems items)
  | JsVal.obj fields => JsVal.obj (toJsonFields fields)
  | JsVal.infinity _ => JsVal.null
  | JsVal.nan => JsVal.null
  | v => v
/-- Serialisation of the elements of an array. -/
def toJsonItems : List JsVal → List JsVal
  | [] => []
  | JsVal.undefined :: rest => JsVal.null :: toJsonItems rest
  | v :: rest => v.toJson :: toJsonItems rest
/-- Serialisation of the properties of an object. -/
def toJsonFields : List (String × JsVal) → List (String × JsVal)
  | [] => []
  | (_, JsVal.undefined) :: rest => toJsonFields rest
  | (k, v) :: rest => (k, v.toJson) :: toJsonFields rest
end

/-! ## Error boundary (`src/middlewares/errorHandler.js`) -/

/-- The operator `a || b` where `a` is a possibly absent number and `b` a number. -/
def orNum (a : Option Int) (b : Int) : Int :=
  match a with
  | some n => if n != 0 then n else b
  | none => b

/-- The operator `a || b` where `a` is a possibly absent string and `b` a string. -/
def orStr (a : Option String) (b : String) : String :=
  match a with
  | some s => if s != "" then s else b
  | none => b

/-- The `details` of a validation failure:
`err.errors.map((e) => ({ field: e.path.join('.'), message: e.message }))`. -/
def zodDetails (errors : List ZodIssue) : JsVal :=
  JsVal.arr (errors.map (fun e =>
    JsVal.obj [("field", JsVal.str e.joinPath), ("message", JsVal.str e.message)]))

/-- The failure `new Response(body, { status })` raises for a body that is not null, `none` when
the constructor accepts the status: a RangeError unless `200 ≤ status ≤ 599`, a TypeError for
a null-body status (204, 205, 304). The message is the runtime's; only the fact that the call
raises is used. -/
def responseInitError (status : Int) : Option JsError :=
  if status < 200 ∨ 599 < status then
    some { message := "RangeError: the status must be in the range 200 to 599" }
  else if status = 204 ∨ status = 205 ∨ status = 304 then
    some { message := "TypeError: a response with a null body status cannot have a body" }
  else none

/-- The statement `return c.json(body, status)` for a status computed at run time: the call
raises when the constructor of `Response` rejects the status, else the response is returned. -/
def Context.returnJson (c : Context) (body : JsVal) (status : Int) : Completion :=
  match responseInitError status with
  | some err => Completion.threw err
  | none => Completion.returned (some (c.json body status))

/-- The middleware returned by `errorHandler()`: `try { await next() } catch (err) { ... }`.
The `status` argument of `c.json` in the HTTPException branch is `err.status`; Hono answers
200 when that argument is `undefined`. In the last two branches the status comes from the
failure, and `c.json` raises inside the `catch` when `Response` does not accept it. -/
def errorHandler (env : Env) (next : Next) : Next := fun c =>
  match next c with
  | (c1, Completion.returned _) => (c1, Completion.returned none)
  | (c1, Completion.threw err) =>
    let requestId := c1.get "requestId"
    if err.cls = ErrorClass.zodError then
      (c1, Completion.returned (some (c1.json
        (JsVal.obj [
          ("success", JsVal.bool false),
          ("error", JsVal.obj [
            ("message", JsVal.str "Validation failed"),
            ("code", JsVal.str "VALIDATION_ERROR"),
            ("details", zodDetails err.errors)]),
          ("requestId", requestId)])
        400)))
    else if err.cls = ErrorClass.httpException then
      (c1, c1.returnJson
        (JsVal.obj [
          ("success", JsVal.bool false),
          ("error", JsVal.obj [
            ("message", JsVal.str err.message),
            ("code", JsVal.str "HTTP_ERROR")]),
          ("requestId", requestId)])
        (err.status.getD 200))
    else
      let status := orNum err.status (orNum err.statusCode 500)
      let message := if env.isProd && status == 500 then "Internal server error" else err.message
      (c1, c1.returnJson
        (JsVal.obj [
          ("success", JsVal.bool false),
          ("error", JsVal.obj [
            ("message", JsVal.str message),
            ("code", JsVal.str (orStr err.code "INTERNAL_ERROR"))]),
          ("requestId", requestId)])
        status)

/-! ## Response helpers (`src/utils/response.js`) -/

/-- The helper `success(c, data, meta = null, status = 200)`. -/
def success (c : Context) (data : JsVal) (meta : JsVal := JsVal.null) (status : Int := 200) :
    Response :=
  let response := [("success", JsVal.bool true), ("data", data)]
  let response := if meta.truthy then JsVal.assign "meta" meta response else response
  c.json (JsVal.obj response) status

/-- The helper `paginated(c, data, pagination)`. -/
def paginated (c : Context) (data pagination : JsVal) : Response :=
  c.json
    (JsVal.obj [
      ("success", JsVal.bool true),
      ("data", data),
      ("meta", JsVal.obj [("pagination", pagination)])])
    200

/-- The helper `error(c, message, code = 'ERROR', status = 400, details = null)`. -/
def error (c : Context) (message : String) (code : String := "ERROR") (status : Int := 400)
    (details : JsVal := JsVal.null) : Response :=
  let requestId := (c.get "requestId").or JsVal.null
  let errorFields := [("message", JsVal.str message), ("code", JsVal.str code)]
  let errorFields :=
    if details.truthy then JsVal.assign "details" details errorFields else errorFields
  c.json
    (JsVal.obj [
      ("success", JsVal.bool false),
      ("error", JsVal.obj errorFields),
      ("requestId", requestId)])
    status

/-- The helper `notFound(c, resource = 'Resource')`. -/
def notFound (c : Context) (resource : String := "Resource") : Response :=
  error c (resource ++ " not found") "NOT_FOUND" 404

/-- The helper `validationError(c, errors)`. -/
def validationError (c : Context) (errors : JsVal) : Response :=
  error c "Validation failed" "VALIDATION_ERROR" 400 errors

/-- The helper `unauthorized(c, message = 'Unauthorized')`. -/
def unauthorized (c : Context) (message : String := "Unauthorized") : Response :=
  error c message "UNAUTHORIZED" 401

/-- The helper `forbidden(c, message = 'Forbidden')`. -/
def forbidden (c : Context) (message : String := "Forbidden") : Response :=
  error c message "FORBIDDEN" 403

/-- The Success shape `{ success: true, data, ... }` without an `error` property. -/
def SuccessShape (body data : JsVal) : Prop :=
  body.field "success" = some (JsVal.bool true) ∧
  body.field "data" = some data ∧
  body.hasField "error" = false

/-- The Failure shape `{ success: false, error: { message, code, ... }, ... }` without a `data`
property. -/
def FailureShape (body : JsVal) (message code : String) : Prop :=
  body.field "success" = some (JsVal.bool false) ∧
  (body.field "error").bind (fun e => e.field "message") = some (JsVal.str message) ∧
  (body.field "error").bind (fun e => e.field "code") = some (JsVal.str code) ∧
  body.hasField "data" = false

/-- The property `error.details` of a body, `none` when it is absent. -/
def errorDetails (body : JsVal) : Option JsVal :=
  (body.field "error").bind (fun e => e.field "details")

/-! ## Sample values used to instantiate the theorems -/

/-- A development environment with the defaults of `env.js`. -/
def sampleEnv : Env :=
  { NODE_ENV := "development", RATE_LIMIT_MAX := 100, RATE_LIMIT_WINDOW_MS := 60000 }

/-- A production environment with the defaults of `env.js`. -/
def prodEnv : Env :=
  { NODE_ENV := "production", RATE_LIMIT_MAX := 100, RATE_LIMIT_WINDOW_MS := 60000 }

/-- A limiter configured with `{ max: 2, windowMs: 1000 }`. -/
def sampleOptions : RateLimitOptions := { max := some 2, windowMs := some 1000 }

/-- A downstream that answers nothing and does not touch the context. -/
def sampleNext : Next := fun c => (c, Completion.returned none)

/-- A request without client address headers (its key is `unknown`) served at time `now`. -/
def sampleRequest (now : Int) : Request := { now := now, ctx := {}, next := sampleNext }

/-! ## Composition of stages (Hono `compose`) -/

/-- A middleware or handler as registered with `app.use` / `app.get`: given the continuation
it yields the function run on the context. -/
abbrev Stage := Next → Next

/-- The assignment `c.res = response`: the response becomes the installed one and the headers
already present on the old `c.res` are copied onto it. -/
def Context.install (c : Context) (r : Response) : Context :=
  { c with
    res := some (r.status, r.body),
    resHeaders := c.resHeaders.foldl (fun h kv => Headers.set h kv.1 kv.2) r.headers }

/-- Hono's default `onError` handler, in force because `app.js` registers none: a failure that
has `getResponse` (an HTTPException) is answered with `err.getResponse()`, a response with the
status of the failure (500 unless one was given) and its message as text; every other failure
is logged and answered with `c.text('Internal Server Error', 500)`. -/
def defaultOnError (err : JsError) (c : Context) : Response :=
  if err.cls = ErrorClass.httpException then
    { status := err.status.getD 500, body := JsVal.str err.message, headers := [] }
  else c.text "Internal Server Error" 500

/-- One step of Hono's `compose`: the stage is run with the rest of the chain as `next`; a
response it returns is installed as `c.res` unless the context is finalized already, and the
step itself resolves without a value. An `Error` raised by the stage is caught by the step
(`catch (err) { if (err instanceof Error && onError) { res = await onError(err, context) } }`),
the response of the `onError` handler is installed as `c.res`, and the step resolves: the
`next()` of the stage before does not reject. -/
def dispatch (stage : Stage) (next : Next) : Next := fun c =>
  match stage next c with
  | (c1, Completion.returned (some r)) =>
    (if c1.res.isSome then c1 else c1.install r, Completion.returned none)
  | (c1, Completion.returned none) => (c1, Completion.returned none)
  | (c1, Completion.threw err) =>
    (c1.install (defaultOnError err c1), Completion.returned none)

/-- The response sent once the chain has settled: the installed `c.res` with its headers. -/
def finalResponse (c : Context) : Option Response :=
  c.res.map (fun sb => { status := sb.1, body := sb.2, headers := c.resHeaders })

/-! ## Correlation id (`src/middlewares/requestId.js`) -/

/-- The middleware returned by `requestId()`; `uuid` is the value `uuidv4()` yields when it is
called. -/
def requestId (uuid : String) (next : Next) : Next := fun c =>
  let id := orStr (c.header "X-Request-ID") uuid
  let c1 := c.set "requestId" (JsVal.str id)
  match next c1 with
  | (c2, Completion.returned _) =>
    (c2.setResHeader "X-Request-ID" id, Completion.returned none)
  | (c2, Completion.threw err) => (c2, Completion.threw err)

/-! ## Strings and numbers -/

/-- The method `s.startsWith(p)`. -/
def startsWith (s p : String) : Bool := p.data.isPrefixOf s.data

/-- The method `s.slice(n)` for `n ≥ 0`. -/
def sliceFrom (s : String) (n : Nat) : String := String.mk (s.data.drop n)

/-- The number a string of decimal digits denotes. -/
def digitsValue (cs : List Char) : Nat :=
  cs.foldl (fun acc ch => acc * 10 + (ch.toNat - 48)) 0

/-- A JavaScript number as `parseInt` and `Number` yield it from request text: an integer
(every finite value they yield is one), `Infinity`, `-Infinity` or `NaN`. -/
inductive JsNum where
  | finite (n : Int) : JsNum
  | posInf : JsNum
  | negInf : JsNum
  | nan : JsNum
  deriving DecidableEq

/-- A binary search for the number of low bits a double cannot keep: with `e` found so far,
the steps `2^(j+1)`, ..., 2, 1 are added one after the other as long as the quotient
`m / 2^e` keeps 53 bits. -/
def excessFrom : Nat → Nat → Nat → Nat
  | 0, m, e => if 2 ^ 52 ≤ m / 2 ^ (e + 1) then e + 1 else e
  | j + 1, m, e =>
    excessFrom j m (if 2 ^ 52 ≤ m / 2 ^ (e + 2 ^ (j + 1)) then e + 2 ^ (j + 1) else e)

/-- The number of bits of `m` beyond the 53 bits of the significand of a double: 0 for
`m < 2^53`, else the `e` with `2^52 ≤ m / 2^e < 2^53` (searched below 2048, far beyond the
range of finite doubles). -/
def excessBits (m : Nat) : Nat := excessFrom 10 m 0

/-- The natural number nearest to `m` that has at most 53 significant bits, ties going to the
even significand (IEEE 754 round-to-nearest-even). -/
def roundNat (m : Nat) : Nat :=
  let e := excessBits m
  let q := m / 2 ^ e
  let r := m % 2 ^ e
  if 2 * r < 2 ^ e then q * 2 ^ e
  else if 2 * r = 2 ^ e ∧ q % 2 = 0 then q * 2 ^ e
  else (q + 1) * 2 ^ e

/-- The Number value of the integer `n`: the nearest double, an infinity when the rounded
magnitude reaches `2^1024`. This is what `parseInt(s, 10)` and `Number(s)` yield for decimal
digits that denote `n`: the engines convert the digits with correct rounding. -/
def toDouble (n : Int) : JsNum :=
  let m := roundNat n.natAbs
  if 2 ^ 1024 ≤ m then (if n < 0 then JsNum.negInf else JsNum.posInf)
  else JsNum.finite (if n < 0 then -(m : Int) else (m : Int))

namespace JsNum

/-- JavaScript truthiness of a number: `0` and `NaN` are falsy. -/
def truthy : JsNum → Bool
  | finite n => n != 0
  | posInf => true
  | negInf => true
  | nan => false

/-- The operator `a || b` on numbers. -/
def orElse (a b : JsNum) : JsNum := if a.truthy then a else b

/-- The call `Math.max(a, b)`. -/
def max : JsNum → JsNum → JsNum
  | nan, _ => nan
  | _, nan => nan
  | posInf, _ => posInf
  | _, posInf => posInf
  | negInf, b => b
  | a, negInf => a
  | finite a, finite b => finite (Max.max a b)

/-- The call `Math.min(a, b)`. -/
def min : JsNum → JsNum → JsNum
  | nan, _ => nan
  | _, nan => nan
  | negInf, _ => negInf
  | _, negInf => negInf
  | posInf, b => b
  | a, posInf => a
  | finite a, finite b => finite (Min.min a b)

/-- The product of an infinity with the sign given by `positive` and the finite number `b`. -/
def infTimes (positive : Bool) (b : Int) : JsNum :=
  if b = 0 then nan
  else if (decide (0 < b)) = positive then posInf
  else negInf

/-- The operator `a - b`: the exact difference, rounded. -/
def sub : JsNum → JsNum → JsNum
  | nan, _ => nan
  | _, nan => nan
  | posInf, posInf => nan
  | negInf, negInf => nan
  | posInf, _ => posInf
  | negInf, _ => negInf
  | finite _, posInf => negInf
  | finite _, negInf => posInf
  | finite a, finite b => toDouble (a - b)

/-- The operator `a * b`: the exact product, rounded. -/
def mul : JsNum → JsNum → JsNum
  | nan, _ => nan
  | _, nan => nan
  | posInf, posInf => posInf
  | posInf, negInf => negInf
  | negInf, posInf => negInf
  | negInf, negInf => posInf
  | posInf, finite b => infTimes true b
  | negInf, finite b => infTimes false b
  | finite a, posInf => infTimes true a
  | finite a, negInf => infTimes false a
  | finite a, finite b => toDouble (a * b)

/-- The number as a JavaScript value. -/
def toJsVal : JsNum → JsVal
  | finite n => JsVal.num n
  | posInf => JsVal.infinity false
  | negInf => JsVal.infinity true
  | nan => JsVal.nan

end JsNum

/-- The optional sign read by `parseInt`: whether it is a minus, and the rest of the text. -/
def readSign (cs : List Char) : Bool × List Char :=
  match cs with
  | [] => (false, [])
  | ch :: rest =>
    if ch = '-' then (true, rest)
    else if ch = '+' then (false, rest)
    else (false, ch :: rest)

/-- The call `parseInt(s, 10)`: leading white space is skipped, an optional sign is read, then
the longest run of decimal digits; without a digit the result is `NaN`, else the Number value
of the integer read. An absent (`undefined`) argument is converted to the string `undefined`
first. -/
def parseInt (s : Option String) : JsNum :=
  let cs := ((s.getD "undefined").data).dropWhile isJsWhitespace
  let signed := readSign cs
  let ds := signed.2.takeWhile Char.isDigit
  if ds.isEmpty then JsNum.nan
  else toDouble (if signed.1 then -((digitsValue ds : Nat) : Int) else ((digitsValue ds : Nat) : Int))

/-! ## Pagination (`src/utils/pagination.js`) -/

/-- The query object, as far as `parsePagination` reads it; `none` is an absent parameter. -/
structure Query where
  page : Option String := none
  limit : Option String := none
  sort : Option String := none
  search : Option String := none

/-- The object `parsePagination` returns; `search = none` is `null`. -/
structure Pagination where
  page : JsNum
  limit : JsNum
  offset : JsNum
  sortField : String
  sortOrder : String
  search : Option String
  deriving DecidableEq

/-- The function `parsePagination(query)`. -/
def parsePagination (query : Query) : Pagination :=
  let page := JsNum.max (JsNum.finite 1) ((parseInt query.page).orElse (JsNum.finite 1))
  let limit := JsNum.min (JsNum.finite 100)
    (JsNum.max (JsNum.finite 1) ((parseInt query.limit).orElse (JsNum.finite 10)))
  let offset := (page.sub (JsNum.finite 1)).mul limit
  let sorting : String × String :=
    match query.sort with
    | some sort =>
      if sort != "" then
        if startsWith sort "-" then (sliceFrom sort 1, "desc") else (sort, "asc")
      else ("createdAt", "desc")
    | none => ("createdAt", "desc")
  let search : Option String :=
    match query.search with
    | some text => if text != "" then some text else none
    | none => none
  { page := page, limit := limit, offset := offset,
    sortField := sorting.1, sortOrder := sorting.2, search := search }

/-- The object `buildPaginationMeta` returns. -/
structure PaginationMeta where
  page : Int
  limit : Int
  total : Int
  totalPages : Int
  hasNext : Bool
  hasPrev : Bool
  deriving DecidableEq

/-- The function `buildPaginationMeta(total, page, limit)`; `Math.ceil(total / limit)` is taken
on integers with `limit > 0`. -/
def buildPaginationMeta (total page limit : Int) : PaginationMeta :=
  let totalPages := ceilDiv total limit
  { page := page, limit := limit, total := total, totalPages := totalPages,
    hasNext := decide (page < totalPages), hasPrev := decide (page > 1) }

/-! ## Validation (`src/middlewares/validate.js`, `src/modules/user/user.schema.js`) -/

/-- The result of `schema.safeParse(value)`: the parsed data, or the issues of the ZodError; a
failed parse reports at least one issue. -/
inductive SafeParse where
  | success (data : JsVal) : SafeParse
  | failure (first : ZodIssue) (rest : List ZodIssue) : SafeParse

/-- A Zod schema, seen through `safeParse`. -/
abbrev Schema := JsVal → SafeParse

/-- The argument of `validate(schemas)`; `none` is an absent property. -/
structure Schemas where
  body : Option Schema := none
  query : Option Schema := none
  params : Option Schema := none

/-- What one run of a route-level middleware leaves behind: the context, the way the call
settled, and (a ghost field) the context that was handed to `next()`, `none` when `next()`
was not called. -/
structure Ran where
  ctx : Context
  completion : Completion
  forwarded : Option Context

/-- The entries pushed for a failed section:
`result.error.errors.map((e) => ({ field: part + '.' + e.path.join('.'), message: e.message }))`. -/
def issueEntries (part : String) (issues : List ZodIssue) : List JsVal :=
  issues.map (fun e =>
    JsVal.obj [("field", JsVal.str (part ++ "." ++ e.joinPath)), ("message", JsVal.str e.message)])

/-- One of the three blocks `if (schemas.part) { ... }` of the middleware: the part is parsed
when a schema is given; a failure appends its entries to `errors`, a success stores the data
on the context under `key`. -/
def validateSection (part key : String) (schema : Option Schema) (input : JsVal)
    (state : Context × List JsVal) : Context × List JsVal :=
  match schema with
  | none => state
  | some sch =>
    match sch input with
    | SafeParse.failure first rest => (state.1, state.2 ++ issueEntries part (first :: rest))
    | SafeParse.success data => (state.1.set key data, state.2)

/-- A record of strings as a JavaScript object (`c.req.query()`, `c.req.param()`). -/
def recordObject (pairs : List (String × String)) : JsVal :=
  JsVal.obj (pairs.map (fun kv => (kv.1, JsVal.str kv.2)))

/-- The value of `await c.req.json().catch(() => ({}))`. -/
def bodyInput (c : Context) : JsVal := c.reqJson.getD (JsVal.obj [])

/-- The middleware returned by `validate(schemas)`. Inside the `try` only `next()` can raise:
`c.req.json()` has its own `catch` and `safeParse` does not raise. -/
def validate (schemas : Schemas) (next : Next) (c : Context) : Ran :=
  let s1 := validateSection "body" "validatedBody" schemas.body (bodyInput c) (c, [])
  let s2 := validateSection "query" "validatedQuery" schemas.query (recordObject c.query) s1
  let s3 := validateSection "params" "validatedParams" schemas.params (recordObject c.params) s2
  if s3.2.length > 0 then
    { ctx := s3.1, forwarded := none,
      completion := Completion.returned (some (validationError s3.1 (JsVal.arr s3.2))) }
  else
    match next s3.1 with
    | (c1, Completion.returned _) =>
      { ctx := c1, forwarded := some s3.1, completion := Completion.returned none }
    | (c1, Completion.threw err) =>
      if err.cls = ErrorClass.syntaxError then
        { ctx := c1, forwarded := some s3.1,
          completion := Completion.returned (some (validationError c1
            (JsVal.arr [JsVal.obj
              [("field", JsVal.str "body"), ("message", JsVal.str "Invalid JSON")]]))) }
      else
        { ctx := c1, forwarded := some s3.1, completion := Completion.threw err }

/-- The middleware as a stage of a chain. -/
def validateStage (schemas : Schemas) : Stage := fun next c =>
  ((validate schemas next c).ctx, (validate schemas next c).completion)

/-- Zod's name for the type of a value. -/
def zodTypeName : JsVal → String
  | JsVal.undefined => "undefined"
  | JsVal.null => "null"
  | JsVal.bool _ => "boolean"
  | JsVal.num _ => "number"
  | JsVal.infinity _ => "number"
  | JsVal.nan => "nan"
  | JsVal.str _ => "string"
  | JsVal.arr _ => "array"
  | JsVal.obj _ => "object"

/-- The message of Zod's issue for a value of the wrong type. -/
def invalidTypeMessage (expected : String) (v : JsVal) : String :=
  match v with
  | JsVal.undefined => "Required"
  | _ => "Expected " ++ expected ++ ", received " ++ zodTypeName v

/-- The test of the regular expression `/^\d+$/`: one or more characters, all decimal digits. -/
def matchesDigits (s : String) : Bool := !s.data.isEmpty && s.data.all Char.isDigit

/-- The schema
`idParamSchema = z.object({ id: z.string().regex(/^\d+$/, 'ID must be a number').transform(Number) })`;
`Number` of a string of digits is the Number value of the integer they denote. -/
def idParamSchema : Schema := fun input =>
  match input with
  | JsVal.obj fields =>
    match (JsVal.lookup "id" fields).getD JsVal.undefined with
    | JsVal.str s =>
      if matchesDigits s then
        SafeParse.success
          (JsVal.obj [("id", (toDouble ((digitsValue s.data : Nat) : Int)).toJsVal)])
      else
        SafeParse.failure { path := [PathSeg.key "id"], message := "ID must be a number" } []
    | v =>
      SafeParse.failure
        { path := [PathSeg.key "id"], message := invalidTypeMessage "string" v } []
  | v => SafeParse.failure { path := [], message := invalidTypeMessage "object" v } []

/-- The schema `updateUserSchema`: an object whose four properties `name`, `email`,
`password`, `isActive` are all `.optional()`. The validators applied to a property that is
present (`z.string().min(2).max(255)`, `z.string().email()`, ...) belong to Zod and are the
parameter `check`: the issues reported for a property and its value. -/
def updateUserSchema (check : String → JsVal → List ZodIssue) : Schema := fun input =>
  match input with
  | JsVal.obj fields =>
    let present : List (String × JsVal) :=
      ["name", "email", "password", "isActive"].filterMap (fun k =>
        match JsVal.lookup k fields with
        | none => none
        | some JsVal.undefined => none
        | some v => some (k, v))
    match present.flatMap (fun kv => check kv.1 kv.2) with
    | [] => SafeParse.success (JsVal.obj present)
    | first :: rest => SafeParse.failure first rest
  | v => SafeParse.failure { path := [], message := invalidTypeMessage "object" v } []

/-- The entries the claim describes for one section: none when the section has no schema or
parses, else one entry per issue. -/
def failedEntries (part : String) (schema : Option Schema) (input : JsVal) : List JsVal :=
  match schema with
  | none => []
  | some sch =>
    match sch input with
    | SafeParse.success _ => []
    | SafeParse.failure first rest => issueEntries part (first :: rest)

/-- A section fails when it has a schema and the schema rejects the input. -/
def sectionFails (schema : Option Schema) (input : JsVal) : Prop :=
  ∃ sch first rest, schema = some sch ∧ sch input = SafeParse.failure first rest

/-- A section passes with `data` when it has a schema and the schema parses the input to
`data`. -/
def sectionPasses (schema : Option Schema) (input data : JsVal) : Prop :=
  ∃ sch, schema = some sch ∧ sch input = SafeParse.success data

/-! ## Authentication (`src/middlewares/authJwt.js`) -/

/-- The collaborator `verifyToken(token)`: the decoded payload, or a raised failure. -/
abbrev Verifier := String → Except JsError JsVal

/-- What one run of the auth middleware leaves behind; the ghost fields record the context
handed to `next()` and the token handed to `verifyToken`, `none` when the call was not made. -/
structure AuthRan where
  ctx : Context
  completion : Completion
  forwarded : Option Context
  verified : Option String

/-- The middleware returned by `authJwt({ exclude })`, with `verifyToken` as a parameter.
Everything inside the `try`, `await next()` included, is covered by the `catch`. A payload of
`null` or `undefined` is stored as `user` and then makes `payload.sub` raise a TypeError
inside the `try`. -/
def authJwt (verifyToken : Verifier) (exclude : List String) (next : Next) (c : Context) :
    AuthRan :=
  if exclude.any (fun p => startsWith c.path p) then
    let r := next c
    { ctx := r.1, completion := r.2, forwarded := some c, verified := none }
  else
    match c.header "Authorization" with
    | none =>
      { ctx := c, forwarded := none, verified := none,
        completion := Completion.returned
          (some (unauthorized c "Missing or invalid authorization header")) }
    | some authHeader =>
      if authHeader == "" || !(startsWith authHeader "Bearer ") then
        { ctx := c, forwarded := none, verified := none,
          completion := Completion.returned
            (some (unauthorized c "Missing or invalid authorization header")) }
      else
        let token := sliceFrom authHeader 7
        match verifyToken token with
        | Except.error _ =>
          { ctx := c, forwarded := none, verified := some token,
            completion := Completion.returned
              (some (unauthorized c "Invalid or expired token")) }
        | Except.ok JsVal.undefined =>
          { ctx := c.set "user" JsVal.undefined, forwarded := none, verified := some token,
            completion := Completion.returned
              (some (unauthorized (c.set "user" JsVal.undefined) "Invalid or expired token")) }
        | Except.ok JsVal.null =>
          { ctx := c.set "user" JsVal.null, forwarded := none, verified := some token,
            completion := Completion.returned
              (some (unauthorized (c.set "user" JsVal.null) "Invalid or expired token")) }
        | Except.ok payload =>
          let c1 := c.set "user" payload
          let c2 := c1.set "userId"
            (((payload.field "sub").getD JsVal.undefined).or
              ((payload.field "id").getD JsVal.undefined))
          match next c2 with
          | (c3, Completion.returned _) =>
            { ctx := c3, forwarded := some c2, verified := some token,
              completion := Completion.returned none }
          | (c3, Completion.threw _) =>
            { ctx := c3, forwarded := some c2, verified := some token,
              completion := Completion.returned
                (some (unauthorized c3 "Invalid or expired token")) }

/-- The middleware as a stage of a chain. -/
def authStage (verifyToken : Verifier) (exclude : List String) : Stage := fun next c =>
  ((authJwt verifyToken exclude next c).ctx, (authJwt verifyToken exclude next c).completion)

/-! ## Chains and handlers used to state the claims -/

/-- The order of `app.js`: `app.use('*', errorHandler())`, then `app.use('*', requestId())`,
then the rest of the chain; `downstream` is the step that runs the stage after the
correlation-id stage, `dispatch stage rest`. -/
def tracedChain (env : Env) (uuid : String) (downstream : Next) : Next :=
  dispatch (errorHandler env) (dispatch (requestId uuid) downstream)

/-- A terminal handler as a stage: it does not call `next()`. -/
def handlerStage (handler : Next) : Stage := fun _ c => handler c

/-- The context after one section of `validate`: the parsed data is stored under `key` when
the section has a schema and parses. -/
def storeParsed (key : String) (schema : Option Schema) (input : JsVal) (c : Context) :
    Context :=
  match schema with
  | none => c
  | some sch =>
    match sch input with
    | SafeParse.success data => c.set key data
    | SafeParse.failure _ _ => c

/-- A handler that raises the failure of `UserService.getById` for an unknown id. -/
def notFoundHandler : Next := fun c =>
  (c, Completion.threw
    { message := "User not found", status := some 404, code := some "NOT_FOUND" })

/-- A handler that answers `success(c, { deleted: true })`. -/
def deletedHandler : Next := fun c =>
  (c, Completion.returned (some (success c (JsVal.obj [("deleted", JsVal.bool true)]))))

/-- A verifier that accepts every token and decodes it to the payload `{ sub: 7 }`. -/
def acceptingVerifier : Verifier := fun _ => Except.ok (JsVal.obj [("sub", JsVal.num 7)])

/-- A verifier that rejects every token. -/
def rejectingVerifier : Verifier := fun _ =>
  Except.error { message := "signature mismatch" }

/-- The entries the claim describes for a request: those of the body, then those of the
query, then those of the path parameters. -/
def validationEntries (schemas : Schemas) (c : Context) : List JsVal :=
  failedEntries "body" schemas.body (bodyInput c) ++
    failedEntries "query" schemas.query (recordObject c.query) ++
    failedEntries "params" schemas.params (recordObject c.params)

/-- The context handed to the handler when every section parses. -/
def validatedContext (schemas : Schemas) (c : Context) : Context :=
  storeParsed "validatedParams" schemas.params (recordObject c.params)
    (storeParsed "validatedQuery" schemas.query (recordObject c.query)
      (storeParsed "validatedBody" schemas.body (bodyInput c) c))

/-- A request whose `X-Forwarded-For` header names the client `10.0.0.1`, served at `now`. -/
def sampleForwardedRequest (now : Int) : Request :=
  { now := now, ctx := { reqHeaders := [("X-Forwarded-For", "10.0.0.1, 10.0.0.2")] },
    next := sampleNext }

/-! ## User service (`src/modules/user/user.service.js`) -/

/-- The repository handed to the constructor of `UserService`, over a database state `σ`.
`findById` and `findByEmail` read the state and resolve to a row or to `null`; `create`,
`update` and `delete` change the state and resolve to a value. -/
structure Repository (σ : Type) where
  findById : σ → Int → JsVal
  findByEmail : σ → JsVal → JsVal
  create : σ → JsVal → σ × JsVal
  update : σ → Int → JsVal → σ × JsVal
  delete : σ → Int → σ × JsVal

/-- A call the service makes to its repository, with the arguments passed. -/
inductive RepoCall where
  | findById (id : Int) : RepoCall
  | findByEmail (email : JsVal) : RepoCall
  | create (data : JsVal) : RepoCall
  | update (id : Int) (data : JsVal) : RepoCall
  | delete (id : Int) : RepoCall

/-- What a method of the service leaves behind: the database state, the calls it made to the
repository in order (a ghost field), and the value it returned or the failure it raised. -/
structure ServiceRun (σ : Type) where
  db : σ
  calls : List RepoCall
  result : Except JsError JsVal

/-- Property read `data[k]` on the plain object `data`; `undefined` for a missing property. -/
def prop (data : List (String × JsVal)) (k : String) : JsVal :=
  (JsVal.lookup k data).getD JsVal.undefined

/-- The test `v !== n` for a property read `v` (`none` when there is no such property) and a
number `n`. -/
def strictNeNum (v : Option JsVal) (n : Int) : Bool :=
  match v with
  | some (JsVal.num m) => m != n
  | _ => true

/-- The failure raised for an unknown id. -/
def notFoundError : JsError :=
  { message := "User not found", code := some "NOT_FOUND", status := some 404 }

/-- The failure raised for an email that is taken. -/
def duplicateEmailError : JsError :=
  { message := "Email already registered", code := some "DUPLICATE_EMAIL", status := some 409 }

/-- The method `getById(id)`. -/
def UserService.getById {σ : Type} (repository : Repository σ) (db : σ) (id : Int) :
    ServiceRun σ :=
  let user := repository.findById db id
  if !user.truthy then
    { db := db, calls := [RepoCall.findById id], result := Except.error notFoundError }
  else
    { db := db, calls := [RepoCall.findById id], result := Except.ok user }

/-- The method `create(data)`; `hash` stands for `Bun.password.hash(_, bcrypt options)`. -/
def UserService.create {σ : Type} (repository : Repository σ) (hash : JsVal → String)
    (db : σ) (data : List (String × JsVal)) : ServiceRun σ :=
  let existing := repository.findByEmail db (prop data "email")
  if existing.truthy then
    { db := db, calls := [RepoCall.findByEmail (prop data "email")],
      result := Except.error duplicateEmailError }
  else
    let hashedPassword := hash (prop data "password")
    let payload := JsVal.obj (JsVal.assign "password" (JsVal.str hashedPassword) data)
    let created := repository.create db payload
    { db := created.1,
      calls := [RepoCall.findByEmail (prop data "email"), RepoCall.create payload],
      result := Except.ok created.2 }

/-- The method `update(id, data)`. -/
def UserService.update {σ : Type} (repository : Repository σ) (hash : JsVal → String)
    (db : σ) (id : Int) (data : List (String × JsVal)) : ServiceRun σ :=
  let found := UserService.getById repository db id
  match found.result with
  | Except.error err => { db := found.db, calls := found.calls, result := Except.error err }
  | Except.ok _ =>
    let emailCheck : List RepoCall × Bool :=
      if (prop data "email").truthy then
        let existing := repository.findByEmail found.db (prop data "email")
        ([RepoCall.findByEmail (prop data "email")],
          existing.truthy && strictNeNum (existing.field "id") id)
      else ([], false)
    if emailCheck.2 then
      { db := found.db, calls := found.calls ++ emailCheck.1,
        result := Except.error duplicateEmailError }
    else
      let data1 :=
        if (prop data "password").truthy then
          JsVal.assign "password" (JsVal.str (hash (prop data "password"))) data
        else data
      let updated := repository.update found.db id (JsVal.obj data1)
      { db := updated.1,
        calls := found.calls ++ emailCheck.1 ++ [RepoCall.update id (JsVal.obj data1)],
        result := Except.ok updated.2 }

/-- The method `delete(id)`. -/
def UserService.delete {σ : Type} (repository : Repository σ) (db : σ) (id : Int) :
    ServiceRun σ :=
  let found := UserService.getById repository db id
  match found.result with
  | Except.error err => { db := found.db, calls := found.calls, result := Except.error err }
  | Except.ok _ =>
    let deleted := repository.delete found.db id
    { db := deleted.1, calls := found.calls ++ [RepoCall.delete id],
      result := Except.ok (JsVal.bool true) }

/-- The test `v === n` for a property read `v` and a number `n`. -/
def strictEqNum (v : Option JsVal) (n : Int) : Bool := !(strictNeNum v n)

/-- The test `v === w` for a property read `v` and a value `w` that is a string. -/
def strictEqStr (v : Option JsVal) (w : JsVal) : Bool :=
  match v, w with
  | some (JsVal.str a), JsVal.str b => a == b
  | _, _ => false

/-- A repository that keeps the rows in a list, used to run the service on examples: ids are
assigned in sequence, an update overwrites the fields given, a delete drops the row. -/
def memoryRepository : Repository (List (List (String × JsVal))) where
  findById := fun rows id =>
    match rows.find? (fun row => strictEqNum (JsVal.lookup "id" row) id) with
    | some row => JsVal.obj row
    | none => JsVal.null
  findByEmail := fun rows email =>
    match rows.find? (fun row => strictEqStr (JsVal.lookup "email" row) email) with
    | some row => JsVal.obj row
    | none => JsVal.null
  create := fun rows data =>
    match data with
    | JsVal.obj fields =>
      let row := JsVal.assign "id" (JsVal.num (rows.length + 1)) fields
      (rows ++ [row], JsVal.obj row)
    | _ => (rows, JsVal.undefined)
  update := fun rows id data =>
    match data with
    | JsVal.obj fields =>
      let rows1 := rows.map (fun row =>
        if strictEqNum (JsVal.lookup "id" row) id then
          fields.foldl (fun acc kv => JsVal.assign kv.1 kv.2 acc) row
        else row)
      (rows1,
        match rows1.find? (fun row => strictEqNum (JsVal.lookup "id" row) id) with
        | some row => JsVal.obj row
        | none => JsVal.null)
    | _ => (rows, JsVal.null)
  delete := fun rows id =>
    (rows.filter (fun row => !(strictEqNum (JsVal.lookup "id" row) id)),
      JsVal.bool (rows.any (fun row => strictEqNum (JsVal.lookup "id" row) id)))

/-- Two stored users. -/
def sampleRows : List (List (String × JsVal)) :=
  [[("id", JsVal.num 1), ("name", JsVal.str "Jane"), ("email", JsVal.str "jane@x.com")],
   [("id", JsVal.num 2), ("name", JsVal.str "John"), ("email", JsVal.str "john@x.com")]]

/-- A stand-in for the hasher on examples. -/
def sampleHash : JsVal → String := fun _ => "bcrypt-hash"

/-! ## The periodic sweep of the rate limiter -/

/-- A store is a `Map`: no key is held twice. -/
def Store.distinctKeys (s : Store) : Prop := (s.map Prod.fst).Nodup

/-- What a check lets the outside observe: the context it leaves behind (with the response
headers `X-RateLimit-Limit`, `X-RateLimit-Remaining`, `X-RateLimit-Reset`, `Retry-After`),
whether and with which context `next()` was called, and how the call settled. -/
def Served.outcome (o : Served) : Context × Option Context × Completion :=
  (o.ctx, o.forwarded, o.completion)

/-- The store `swept` agrees with `full` on every key, except for keys it lacks whose entry in
`full` had expired before `t`. -/
def sweptFrom (t : Int) (full swept : Store) : Prop :=
  ∀ key, swept.get key = full.get key ∨
    (swept.get key = none ∧ ∃ e, full.get key = some e ∧ e.resetAt < t)

/-- A store with one entry expired at time 10 and one still running. -/
def sampleStore : Store :=
  [("10.0.0.1", { count := 2, resetAt := 5 }), ("unknown", { count := 2, resetAt := 50 })]

/-! ## Basic facts about maps and headers -/

theorem Store.get_set_key (s : Store) (key : String) (e : Entry) :
    (s.set key e).get key = some e := by
  induction s with
  | nil => simp [Store.set, Store.get]
  | cons hd tl ih =>
    obtain ⟨k, v⟩ := hd
    by_cases h : k = key
    · simp [Store.set, Store.get, h]
    · simp [Store.set, Store.get, h, ih]

theorem Store.get_set_other_key (s : Store) (key other : String) (e : Entry) (h : other ≠ key) :
    (s.set key e).get other = s.get other := by
  induction s with
  | nil => simp [Store.set, Store.get, Ne.symm h]
  | cons hd tl ih =>
    obtain ⟨k, v⟩ := hd
    by_cases hk : k = key
    · subst hk
      simp [Store.set, Store.get, Ne.symm h]
    · by_cases ho : k = other
      · subst ho
        simp [Store.set, Store.get, hk]
      · simp [Store.set, Store.get, hk, ho, ih]

theorem Headers.get_set_name (h : Headers) (name value : String) :
    (h.set name value).get name = some value := by
  induction h with
  | nil => simp [Headers.set, Headers.get]
  | cons hd tl ih =>
    obtain ⟨n, v⟩ := hd
    by_cases hn : n = name
    · simp [Headers.set, Headers.get, hn]
    · simp [Headers.set, Headers.get, hn, ih]

theorem Headers.get_set_other_name (h : Headers) (name other value : String) (hne : other ≠ name) :
    (h.set name value).get other = h.get other := by
  induction h with
  | nil => simp [Headers.set, Headers.get, Ne.symm hne]
  | cons hd tl ih =>
    obtain ⟨n, v⟩ := hd
    by_cases hn : n = name
    · subst hn
      simp [Headers.set, Headers.get, Ne.symm hne]
    · by_cases ho : n = other
      · subst ho
        simp [Headers.set, Headers.get, hn]
      · simp [Headers.set, Headers.get, hn, ho, ih]

theorem Context.get_setResHeader (c : Context) (name value key : String) :
    (c.setResHeader name value).get key = c.get key := rfl

theorem lookup_assign_key (k : String) (w : JsVal) (l : List (String × JsVal)) :
    JsVal.lookup k (JsVal.assign k w l) = some w := by
  induction l with
  | nil => simp [JsVal.assign, JsVal.lookup]
  | cons hd tl ih =>
    obtain ⟨k1, v⟩ := hd
    by_cases h : k1 = k
    · simp [JsVal.assign, JsVal.lookup, h]
    · simp [JsVal.assign, JsVal.lookup, h, ih]

theorem lookup_assign_other_key (k other : String) (w : JsVal) (l : List (String × JsVal))
    (hne : other ≠ k) :
    JsVal.lookup other (JsVal.assign k w l) = JsVal.lookup other l := by
  induction l with
  | nil => simp [JsVal.assign, JsVal.lookup, Ne.symm hne]
  | cons hd tl ih =>
    obtain ⟨k1, v⟩ := hd
    by_cases h : k1 = k
    · subst h
      simp [JsVal.assign, JsVal.lookup, Ne.symm hne]
    · by_cases ho : k1 = other
      · subst ho
        simp [JsVal.assign, JsVal.lookup, h]
      · simp [JsVal.assign, JsVal.lookup, h, ho, ih]

theorem Context.get_set_var (c : Context) (key : String) (v : JsVal) :
    (c.set key v).get key = v := by
  simp [Context.get, Context.set, lookup_assign_key]

theorem Context.get_set_other_var (c : Context) (key other : String) (v : JsVal)
    (hne : other ≠ key) : (c.set key v).get other = c.get other := by
  simp [Context.get, Context.set, lookup_assign_other_key _ _ _ _ hne]

/-- On integers, `ceilDiv a 1000` is the ceiling of the quotient `a / 1000`. -/
theorem ceilDiv_eq_ceil (a : Int) : ceilDiv a 1000 = ⌈(a : ℚ) / 1000⌉ := by
  have h : ((-a : Int) : ℚ) / ((1000 : ℕ) : ℚ) = -((a : ℚ) / 1000) := by
    push_cast
    ring
  have hf := Rat.floor_intCast_div_natCast (-a) 1000
  rw [h, Int.floor_neg] at hf
  unfold ceilDiv
  have : (((1000 : ℕ) : Int)) = 1000 := by norm_num
  rw [this] at hf
  omega

/-! ## One check of the rate limiter -/

theorem limitHeaders_limit (c : Context) (max : Int) (cur : Entry) :
    (limitHeaders c max cur).resHeaders.get "X-RateLimit-Limit" = some (toString max) := by
  unfold limitHeaders Context.setResHeader
  simp only []
  rw [Headers.get_set_other_name _ _ _ _ (by decide), Headers.get_set_other_name _ _ _ _ (by decide),
    Headers.get_set_name]

theorem limitHeaders_remaining (c : Context) (max : Int) (cur : Entry) :
    (limitHeaders c max cur).resHeaders.get "X-RateLimit-Remaining"
      = some (toString (Max.max 0 (max - cur.count))) := by
  unfold limitHeaders Context.setResHeader
  simp only []
  rw [Headers.get_set_other_name _ _ _ _ (by decide), Headers.get_set_name]

theorem limitHeaders_reset (c : Context) (max : Int) (cur : Entry) :
    (limitHeaders c max cur).resHeaders.get "X-RateLimit-Reset" = some (toString cur.resetAt) := by
  unfold limitHeaders Context.setResHeader
  simp only []
  rw [Headers.get_set_name]

/-- Once the entry is in the store, the tail of the middleware forwards to `next()`. -/
theorem rateLimitForward_of_get (max : Int) (ip : String) (next : Next) (store : Store)
    (c : Context) (cur : Entry) (h : store.get ip = some cur) :
    rateLimitForward max ip next store c =
      { store := store, ctx := (awaitNext (next (limitHeaders c max cur))).1,
        forwarded := some (limitHeaders c max cur),
        completion := (awaitNext (next (limitHeaders c max cur))).2 } := by
  unfold rateLimitForward limitHeaders
  rw [h]

/-- A check that finds no entry, or an entry whose window has expired, starts a new window. -/
theorem rateLimit_newWindow (env : Env) (options : RateLimitOptions) (now : Int) (next : Next)
    (store : Store) (c : Context) (hmax : options.resolveMax env ≠ 0)
    (h : store.get (clientKey c) = none ∨
      ∃ e, store.get (clientKey c) = some e ∧ e.resetAt < now) :
    rateLimit env options now next store c =
      { store := store.set (clientKey c) { count := 1, resetAt := now + options.resolveWindowMs env },
        ctx := (awaitNext (next (limitHeaders c (options.resolveMax env)
          { count := 1, resetAt := now + options.resolveWindowMs env }))).1,
        forwarded := some (limitHeaders c (options.resolveMax env)
          { count := 1, resetAt := now + options.resolveWindowMs env }),
        completion := (awaitNext (next (limitHeaders c (options.resolveMax env)
          { count := 1, resetAt := now + options.resolveWindowMs env }))).2 } := by
  unfold rateLimit
  simp only [hmax, if_false]
  rcases h with h | ⟨e, h, hlt⟩
  · rw [h]
    exact rateLimitForward_of_get _ _ _ _ _ _ (Store.get_set_key _ _ _)
  · rw [h]
    simp only [hlt, if_true]
    exact rateLimitForward_of_get _ _ _ _ _ _ (Store.get_set_key _ _ _)

/-- A check inside the window whose incremented count stays within the maximum is forwarded. -/
theorem rateLimit_inWindow_allowed (env : Env) (options : RateLimitOptions) (now : Int)
    (next : Next) (store : Store) (c : Context) (e : Entry)
    (hmax : options.resolveMax env ≠ 0)
    (hget : store.get (clientKey c) = some e) (hwin : ¬ e.resetAt < now)
    (hle : e.count + 1 ≤ options.resolveMax env) :
    rateLimit env options now next store c =
      { store := store.set (clientKey c) { count := e.count + 1, resetAt := e.resetAt },
        ctx := (awaitNext (next (limitHeaders c (options.resolveMax env)
          { count := e.count + 1, resetAt := e.resetAt }))).1,
        forwarded := some (limitHeaders c (options.resolveMax env)
          { count := e.count + 1, resetAt := e.resetAt }),
        completion := (awaitNext (next (limitHeaders c (options.resolveMax env)
          { count := e.count + 1, resetAt := e.resetAt }))).2 } := by
  unfold rateLimit
  simp only [hmax, if_false]
  rw [hget]
  have hn : ¬ (e.count + 1 > options.resolveMax env) := by omega
  simp only [hwin, if_false, hn]
  exact rateLimitForward_of_get _ _ _ _ _ _ (Store.get_set_key _ _ _)

/-- A check inside the window whose incremented count exceeds the maximum is answered 429. -/
theorem rateLimit_inWindow_denied (env : Env) (options : RateLimitOptions) (now : Int)
    (next : Next) (store : Store) (c : Context) (e : Entry)
    (hmax : options.resolveMax env ≠ 0)
    (hget : store.get (clientKey c) = some e) (hwin : ¬ e.resetAt < now)
    (hgt : options.resolveMax env < e.count + 1) :
    rateLimit env options now next store c =
      { store := store.set (clientKey c) { count := e.count + 1, resetAt := e.resetAt },
        ctx := denyHeaders c (options.resolveMax env) now e,
        forwarded := none,
        completion := Completion.returned (some
          ((denyHeaders c (options.resolveMax env) now e).json
            (rateLimitBody (denyHeaders c (options.resolveMax env) now e)) 429)) } := by
  unfold rateLimit
  simp only [hmax, if_false]
  rw [hget]
  have hn : e.count + 1 > options.resolveMax env := by omega
  simp only [hwin, if_false, hn, if_true]
  rfl

/-- The entry under the client key after a check inside the window: the count is incremented,
whether the check was allowed or denied. -/
theorem rateLimit_inWindow_store (env : Env) (options : RateLimitOptions) (now : Int)
    (next : Next) (store : Store) (c : Context) (e : Entry)
    (hmax : options.resolveMax env ≠ 0)
    (hget : store.get (clientKey c) = some e) (hwin : ¬ e.resetAt < now) :
    (rateLimit env options now next store c).store.get (clientKey c)
      = some { count := e.count + 1, resetAt := e.resetAt } := by
  by_cases hle : e.count + 1 ≤ options.resolveMax env
  · rw [rateLimit_inWindow_allowed env options now next store c e hmax hget hwin hle]
    exact Store.get_set_key _ _ _
  · rw [rateLimit_inWindow_denied env options now next store c e hmax hget hwin (by omega)]
    exact Store.get_set_key _ _ _

/-- In a run that stays inside the window of the entry `e`, the check at position `i` finds
the entry with its count raised by `i`. -/
theorem serveAll_inWindow (env : Env) (options : RateLimitOptions) (key : String)
    (hmax : options.resolveMax env ≠ 0) :
    ∀ (reqs : List Request) (store : Store) (e : Entry),
      store.get key = some e →
      (∀ r ∈ reqs, clientKey r.ctx = key) →
      (∀ r ∈ reqs, r.now ≤ e.resetAt) →
      ∀ (i : Nat) (r : Request) (out : Served),
        (serveAll env options store reqs)[i]? = some (r, out) →
        ∃ st : Store, st.get key = some { count := e.count + i, resetAt := e.resetAt } ∧
          clientKey r.ctx = key ∧ r.now ≤ e.resetAt ∧
          out = rateLimit env options r.now r.next st r.ctx := by
  intro reqs
  induction reqs with
  | nil =>
    intro store e _ _ _ i r out h
    simp [serveAll] at h
  | cons r0 rest ih =>
    intro store e hget hkey hwin i r out h
    have hk0 : clientKey r0.ctx = key := hkey r0 (List.mem_cons_self _ _)
    have hw0 : r0.now ≤ e.resetAt := hwin r0 (List.mem_cons_self _ _)
    cases i with
    | zero =>
      simp only [serveAll, List.getElem?_cons_zero, Option.some.injEq, Prod.mk.injEq] at h
      obtain ⟨hr, hout⟩ := h
      subst hr
      refine ⟨store, ?_, hk0, hw0, hout.symm⟩
      simpa using hget
    | succ j =>
      simp only [serveAll, List.getElem?_cons_succ] at h
      have hstore : (rateLimit env options r0.now r0.next store r0.ctx).store.get key
          = some { count := e.count + 1, resetAt := e.resetAt } := by
        have := rateLimit_inWindow_store env options r0.now r0.next store r0.ctx e hmax
          (by rw [hk0]; exact hget) (by omega)
        rw [hk0] at this
        exact this
      obtain ⟨st, hst, hk, hw, ho⟩ := ih _ _ hstore
        (fun r hr => hkey r (List.mem_cons_of_mem _ hr))
        (fun r hr => hwin r (List.mem_cons_of_mem _ hr)) j r out h
      refine ⟨st, ?_, hk, hw, ho⟩
      rw [hst]
      simp only [Nat.cast_add, Nat.cast_one, Option.some.injEq, Entry.mk.injEq, and_true]
      omega

/-! ## Runs of checks for one client key -/

/-- Every request of a run gets its result. -/
theorem serveAll_length (env : Env) (options : RateLimitOptions) :
    ∀ (reqs : List Request) (store : Store),
      (serveAll env options store reqs).length = reqs.length := by
  intro reqs
  induction reqs with
  | nil => intro store; rfl
  | cons r rest ih =>
    intro store
    simp only [serveAll, List.length_cons, ih]

theorem allowedWithin_cons (env : Env) (options : RateLimitOptions) (lo hi : Int)
    (store : Store) (r : Request) (rest : List Request) :
    allowedWithin lo hi (serveAll env options store (r :: rest)) =
      allowedWithin lo hi
        (serveAll env options (rateLimit env options r.now r.next store r.ctx).store rest) +
      (if ((rateLimit env options r.now r.next store r.ctx).allowed && decide (lo ≤ r.now)
          && decide (r.now ≤ hi)) = true then 1 else 0) := by
  simp only [serveAll, allowedWithin, List.countP_cons]

/-- Inside the window a check is allowed exactly when the incremented count is within `max`. -/
theorem rateLimit_inWindow_allowed_iff (env : Env) (options : RateLimitOptions) (now : Int)
    (next : Next) (store : Store) (c : Context) (e : Entry)
    (hmax : options.resolveMax env ≠ 0)
    (hget : store.get (clientKey c) = some e) (hwin : ¬ e.resetAt < now) :
    (rateLimit env options now next store c).allowed = true ↔
      e.count + 1 ≤ options.resolveMax env := by
  by_cases hle : e.count + 1 ≤ options.resolveMax env
  · rw [rateLimit_inWindow_allowed env options now next store c e hmax hget hwin hle]
    simp [Served.allowed, hle]
  · rw [rateLimit_inWindow_denied env options now next store c e hmax hget hwin (by omega)]
    simp [Served.allowed, hle]

/-- Inside the window a check is denied exactly when the incremented count exceeds `max`. -/
theorem rateLimit_inWindow_denied_iff (env : Env) (options : RateLimitOptions) (now : Int)
    (next : Next) (store : Store) (c : Context) (e : Entry)
    (hmax : options.resolveMax env ≠ 0)
    (hget : store.get (clientKey c) = some e) (hwin : ¬ e.resetAt < now) :
    (rateLimit env options now next store c).denied = true ↔
      options.resolveMax env < e.count + 1 := by
  by_cases hle : e.count + 1 ≤ options.resolveMax env
  · rw [rateLimit_inWindow_allowed env options now next store c e hmax hget hwin hle]
    simp only [Served.denied, Option.isNone_some, Bool.false_and, Bool.false_eq_true, false_iff]
    omega
  · rw [rateLimit_inWindow_denied env options now next store c e hmax hget hwin (by omega)]
    simp only [Served.denied, Option.isNone_none, Bool.true_and, Context.json]
    constructor
    · intro _; omega
    · intro _; decide

/-- The entry under the client key after a check that starts a new window. -/
theorem rateLimit_newWindow_store (env : Env) (options : RateLimitOptions) (now : Int)
    (next : Next) (store : Store) (c : Context) (hmax : options.resolveMax env ≠ 0)
    (h : store.get (clientKey c) = none ∨
      ∃ e, store.get (clientKey c) = some e ∧ e.resetAt < now) :
    (rateLimit env options now next store c).store.get (clientKey c)
      = some { count := 1, resetAt := now + options.resolveWindowMs env } ∧
    (rateLimit env options now next store c).allowed = true := by
  rw [rateLimit_newWindow env options now next store c hmax h]
  exact ⟨Store.get_set_key _ _ _, rfl⟩

/-- Checks served after the interval `[lo, hi]` do not count towards it. -/
theorem allowedWithin_after (env : Env) (options : RateLimitOptions) (lo hi : Int) :
    ∀ (reqs : List Request) (store : Store), (∀ r ∈ reqs, hi < r.now) →
      allowedWithin lo hi (serveAll env options store reqs) = 0 := by
  intro reqs
  induction reqs with
  | nil => intro store _; simp [serveAll, allowedWithin]
  | cons r rest ih =>
    intro store h
    rw [allowedWithin_cons, ih _ (fun x hx => h x (List.mem_cons_of_mem _ hx))]
    have hr : ¬ r.now ≤ hi := by
      have := h r (List.mem_cons_self _ _)
      omega
    simp [hr]

/-- While the current window covers the rest of the interval (`hi ≤ resetAt`), the allowed
checks inside the interval are bounded by what is left of the maximum. -/
theorem allowedWithin_sameWindow (env : Env) (options : RateLimitOptions) (key : String)
    (lo hi : Int) (hmax : options.resolveMax env ≠ 0) :
    ∀ (reqs : List Request) (store : Store) (e : Entry),
      store.get key = some e → hi ≤ e.resetAt →
      reqs.Pairwise (fun a b => a.now ≤ b.now) →
      (∀ r ∈ reqs, clientKey r.ctx = key) →
      (allowedWithin lo hi (serveAll env options store reqs) : Int)
        ≤ Max.max 0 (options.resolveMax env - e.count) := by
  intro reqs
  induction reqs with
  | nil => intro store e _ _ _ _; simp [serveAll, allowedWithin]
  | cons r rest ih =>
    intro store e hget hhi hsorted hkey
    have hk : clientKey r.ctx = key := hkey r (List.mem_cons_self _ _)
    have hget1 : store.get (clientKey r.ctx) = some e := by rw [hk]; exact hget
    obtain ⟨hhead, htail⟩ := List.pairwise_cons.mp hsorted
    rw [allowedWithin_cons]
    by_cases hexp : e.resetAt < r.now
    · have hrest := allowedWithin_after env options lo hi rest
        (rateLimit env options r.now r.next store r.ctx).store
        (fun x hx => by have := hhead x hx; omega)
      have hr : ¬ r.now ≤ hi := by omega
      rw [hrest]
      simp [hr]
    · have hstore := rateLimit_inWindow_store env options r.now r.next store r.ctx e hmax
        hget1 hexp
      rw [hk] at hstore
      have hrest := ih _ _ hstore hhi htail (fun x hx => hkey x (List.mem_cons_of_mem _ hx))
      have hiff := rateLimit_inWindow_allowed_iff env options r.now r.next store r.ctx e hmax
        hget1 hexp
      simp only at hrest
      by_cases hle : e.count + 1 ≤ options.resolveMax env
      · have h1 : ((if ((rateLimit env options r.now r.next store r.ctx).allowed
            && decide (lo ≤ r.now) && decide (r.now ≤ hi)) = true then 1 else 0 : Nat) : Int)
            ≤ 1 := by
          split <;> simp
        push_cast
        rw [max_eq_right (by omega)] at hrest
        rw [max_eq_right (by omega)]
        push_cast at h1
        omega
      · have hna : (rateLimit env options r.now r.next store r.ctx).allowed = false := by
          cases hb : (rateLimit env options r.now r.next store r.ctx).allowed
          · rfl
          · exact absurd (hiff.mp hb) hle
        rw [hna]
        simp only [Bool.false_and, Bool.false_eq_true, if_false, add_zero]
        rw [max_eq_left (by omega)] at hrest
        rw [max_eq_left (by omega)]
        exact hrest

/-- Once the run has entered the interval (all remaining times are at least `lo`), the
allowed checks inside the interval are bounded by what is left of the current window plus
one further window. -/
theorem allowedWithin_fromLo (env : Env) (options : RateLimitOptions) (key : String)
    (lo hi : Int) (hmax : 0 < options.resolveMax env)
    (hlen : hi ≤ lo + options.resolveWindowMs env) :
    ∀ (reqs : List Request) (store : Store),
      reqs.Pairwise (fun a b => a.now ≤ b.now) →
      (∀ r ∈ reqs, clientKey r.ctx = key) →
      (∀ r ∈ reqs, lo ≤ r.now) →
      (store.get key = none →
        (allowedWithin lo hi (serveAll env options store reqs) : Int)
          ≤ options.resolveMax env) ∧
      (∀ e, store.get key = some e →
        (allowedWithin lo hi (serveAll env options store reqs) : Int)
          ≤ Max.max 0 (options.resolveMax env - e.count) + options.resolveMax env) := by
  have hmax0 : options.resolveMax env ≠ 0 := by omega
  intro reqs
  induction reqs with
  | nil =>
    intro store _ _ _
    refine ⟨fun _ => ?_, fun e _ => ?_⟩
    · simp only [serveAll, allowedWithin, List.countP_nil, Nat.cast_zero]
      omega
    · simp only [serveAll, allowedWithin, List.countP_nil, Nat.cast_zero]
      have := le_max_left (0 : Int) (options.resolveMax env - e.count)
      omega
  | cons r rest ih =>
    intro store hsorted hkey hlo
    have hk : clientKey r.ctx = key := hkey r (List.mem_cons_self _ _)
    have hlo0 : lo ≤ r.now := hlo r (List.mem_cons_self _ _)
    obtain ⟨_, htail⟩ := List.pairwise_cons.mp hsorted
    have hkeyt : ∀ x ∈ rest, clientKey x.ctx = key :=
      fun x hx => hkey x (List.mem_cons_of_mem _ hx)
    have h1 : ((if ((rateLimit env options r.now r.next store r.ctx).allowed
        && decide (lo ≤ r.now) && decide (r.now ≤ hi)) = true then 1 else 0 : Nat) : Int)
        ≤ 1 := by
      split <;> simp
    -- a check that starts a new window: the rest of the interval lies inside that window
    have hnew : (store.get (clientKey r.ctx) = none ∨
        ∃ e, store.get (clientKey r.ctx) = some e ∧ e.resetAt < r.now) →
        (allowedWithin lo hi (serveAll env options store (r :: rest)) : Int)
          ≤ options.resolveMax env := by
      intro h
      obtain ⟨hstore, _⟩ := rateLimit_newWindow_store env options r.now r.next store r.ctx
        hmax0 h
      rw [hk] at hstore
      have hrest := allowedWithin_sameWindow env options key lo hi hmax0 rest _ _ hstore
        (by simp only; omega) htail hkeyt
      simp only at hrest
      rw [max_eq_right (by omega)] at hrest
      rw [allowedWithin_cons]
      push_cast
      push_cast at h1
      omega
    refine ⟨fun hnone => hnew (Or.inl (by rw [hk]; exact hnone)), fun e hget => ?_⟩
    have hget1 : store.get (clientKey r.ctx) = some e := by rw [hk]; exact hget
    by_cases hexp : e.resetAt < r.now
    · have := hnew (Or.inr ⟨e, hget1, hexp⟩)
      have := le_max_left (0 : Int) (options.resolveMax env - e.count)
      omega
    · have hstore := rateLimit_inWindow_store env options r.now r.next store r.ctx e hmax0
        hget1 hexp
      rw [hk] at hstore
      have hrest := (ih _ htail hkeyt (fun x hx => hlo x (List.mem_cons_of_mem _ hx))).2 _ hstore
      have hiff := rateLimit_inWindow_allowed_iff env options r.now r.next store r.ctx e hmax0
        hget1 hexp
      simp only at hrest
      rw [allowedWithin_cons]
      by_cases hle : e.count + 1 ≤ options.resolveMax env
      · rw [max_eq_right (by omega)] at hrest
        rw [max_eq_right (by omega)]
        push_cast
        push_cast at h1
        omega
      · have hna : (rateLimit env options r.now r.next store r.ctx).allowed = false := by
          cases hb : (rateLimit env options r.now r.next store r.ctx).allowed
          · rfl
          · exact absurd (hiff.mp hb) hle
        rw [hna]
        simp only [Bool.false_and, Bool.false_eq_true, if_false, add_zero]
        rw [max_eq_left (by omega)] at hrest
        rw [max_eq_left (by omega)]
        exact hrest

/-- The burst bound: for one client key served at non-decreasing times, from a store whose
entry for the key (if any) has a count of at least 1, the allowed checks inside an interval no
longer than the window number at most `2 * max - 1`. -/
theorem allowedWithin_le (env : Env) (options : RateLimitOptions) (key : String)
    (lo hi : Int) (hmax : 0 < options.resolveMax env)
    (hlen : hi - lo ≤ options.resolveWindowMs env) :
    ∀ (reqs : List Request) (store : Store),
      reqs.Pairwise (fun a b => a.now ≤ b.now) →
      (∀ r ∈ reqs, clientKey r.ctx = key) →
      (∀ e, store.get key = some e → 1 ≤ e.count) →
      (allowedWithin lo hi (serveAll env options store reqs) : Int)
        ≤ 2 * options.resolveMax env - 1 := by
  have hmax0 : options.resolveMax env ≠ 0 := by omega
  intro reqs
  induction reqs with
  | nil =>
    intro store _ _ _
    simp only [serveAll, allowedWithin, List.countP_nil, Nat.cast_zero]
    omega
  | cons r rest ih =>
    intro store hsorted hkey hcount
    have hk : clientKey r.ctx = key := hkey r (List.mem_cons_self _ _)
    obtain ⟨hhead, htail⟩ := List.pairwise_cons.mp hsorted
    by_cases hlo : lo ≤ r.now
    · have hall : ∀ x ∈ r :: rest, lo ≤ x.now := by
        intro x hx
        rcases List.mem_cons.mp hx with h | h
        · rw [h]; exact hlo
        · have := hhead x h
          omega
      obtain ⟨hn, hs⟩ := allowedWithin_fromLo env options key lo hi hmax (by omega)
        (r :: rest) store hsorted hkey hall
      cases hg : store.get key with
      | none =>
        have := hn hg
        omega
      | some e =>
        have h1 := hs e hg
        have h2 := hcount e hg
        have h3 : Max.max 0 (options.resolveMax env - e.count) ≤ options.resolveMax env - 1 :=
          max_le (by omega) (by omega)
        omega
    · have hkeyt : ∀ x ∈ rest, clientKey x.ctx = key :=
        fun x hx => hkey x (List.mem_cons_of_mem _ hx)
      have hcount1 : ∀ e, (rateLimit env options r.now r.next store r.ctx).store.get key
          = some e → 1 ≤ e.count := by
        intro e1 he1
        cases hg : store.get key with
        | none =>
          obtain ⟨hstore, _⟩ := rateLimit_newWindow_store env options r.now r.next store r.ctx
            hmax0 (Or.inl (by rw [hk]; exact hg))
          rw [hk, he1] at hstore
          simp only [Option.some.injEq] at hstore
          rw [hstore]
        | some e =>
          by_cases hexp : e.resetAt < r.now
          · obtain ⟨hstore, _⟩ := rateLimit_newWindow_store env options r.now r.next store
              r.ctx hmax0 (Or.inr ⟨e, by rw [hk]; exact hg, hexp⟩)
            rw [hk, he1] at hstore
            simp only [Option.some.injEq] at hstore
            rw [hstore]
          · have hstore := rateLimit_inWindow_store env options r.now r.next store r.ctx e
              hmax0 (by rw [hk]; exact hg) hexp
            rw [hk, he1] at hstore
            simp only [Option.some.injEq] at hstore
            have := hcount e hg
            rw [hstore]
            simp only
            omega
      have hrest := ih _ htail hkeyt hcount1
      rw [allowedWithin_cons]
      simp only [hlo, decide_False, Bool.and_false, Bool.false_and, Bool.false_eq_true,
        if_false, add_zero]
      exact hrest

/-- In a run that stays inside the window of the entry `e`: the allowed checks number at
most what is left of the maximum, every check is either allowed or denied, and the stored
count grows by the number of checks. -/
theorem serveAll_inWindow_counts (env : Env) (options : RateLimitOptions) (key : String)
    (hmax : options.resolveMax env ≠ 0) :
    ∀ (reqs : List Request) (store : Store) (e : Entry),
      store.get key = some e →
      (∀ r ∈ reqs, clientKey r.ctx = key) →
      (∀ r ∈ reqs, r.now ≤ e.resetAt) →
      (allowedCount (serveAll env options store reqs) : Int)
        ≤ Max.max 0 (options.resolveMax env - e.count) ∧
      allowedCount (serveAll env options store reqs)
        + deniedCount (serveAll env options store reqs) = reqs.length ∧
      (finalStore env options store reqs).get key
        = some { count := e.count + reqs.length, resetAt := e.resetAt } := by
  intro reqs
  induction reqs with
  | nil =>
    intro store e hget _ _
    refine ⟨?_, ?_, ?_⟩
    · simp [serveAll, allowedCount]
    · simp [serveAll, allowedCount, deniedCount]
    · simpa [finalStore] using hget
  | cons r rest ih =>
    intro store e hget hkey hwin
    have hk : clientKey r.ctx = key := hkey r (List.mem_cons_self _ _)
    have hget1 : store.get (clientKey r.ctx) = some e := by rw [hk]; exact hget
    have hw : ¬ e.resetAt < r.now := by
      have := hwin r (List.mem_cons_self _ _)
      omega
    have hstore := rateLimit_inWindow_store env options r.now r.next store r.ctx e hmax hget1 hw
    rw [hk] at hstore
    obtain ⟨ha, hsum, hfin⟩ := ih _ _ hstore
      (fun x hx => hkey x (List.mem_cons_of_mem _ hx))
      (fun x hx => hwin x (List.mem_cons_of_mem _ hx))
    have hai := rateLimit_inWindow_allowed_iff env options r.now r.next store r.ctx e hmax
      hget1 hw
    have hdi := rateLimit_inWindow_denied_iff env options r.now r.next store r.ctx e hmax
      hget1 hw
    simp only at ha hfin
    simp only [serveAll, allowedCount, deniedCount, List.countP_cons, finalStore,
      List.length_cons] at ha hsum hfin ⊢
    by_cases hle : e.count + 1 ≤ options.resolveMax env
    · have hat : (rateLimit env options r.now r.next store r.ctx).allowed = true := hai.mpr hle
      have hdf : (rateLimit env options r.now r.next store r.ctx).denied = false := by
        cases hb : (rateLimit env options r.now r.next store r.ctx).denied
        · rfl
        · have := hdi.mp hb
          omega
      rw [hat, hdf]
      simp only [if_true, Bool.false_eq_true, if_false, add_zero]
      refine ⟨?_, by omega, ?_⟩
      · rw [max_eq_right (by omega)] at ha
        rw [max_eq_right (by omega)]
        push_cast
        omega
      · rw [hfin]
        simp only [Option.some.injEq, Entry.mk.injEq, and_true]
        push_cast
        omega
    · have haf : (rateLimit env options r.now r.next store r.ctx).allowed = false := by
        cases hb : (rateLimit env options r.now r.next store r.ctx).allowed
        · rfl
        · exact absurd (hai.mp hb) hle
      have hdt : (rateLimit env options r.now r.next store r.ctx).denied = true :=
        hdi.mpr (by omega)
      rw [haf, hdt]
      simp only [if_true, Bool.false_eq_true, if_false, add_zero]
      refine ⟨?_, by omega, ?_⟩
      · rw [max_eq_left (by omega)] at ha
        rw [max_eq_left (by omega)]
        exact ha
      · rw [hfin]
        simp only [Option.some.injEq, Entry.mk.injEq, and_true]
        push_cast
        omega

/-- Checks for one key, all issued within one window length of each other and served one
after the other in any order, starting without an entry: at most `max` are allowed, the
others are denied, and the stored count equals the number of checks. -/
theorem serveAll_oneWindow (env : Env) (options : RateLimitOptions) (key : String)
    (hmax : 0 < options.resolveMax env) (store : Store) (reqs : List Request)
    (hfresh : store.get key = none)
    (hkey : ∀ r ∈ reqs, clientKey r.ctx = key)
    (hwin : ∀ a ∈ reqs, ∀ b ∈ reqs, b.now ≤ a.now + options.resolveWindowMs env)
    (hne : reqs ≠ []) :
    (allowedCount (serveAll env options store reqs) : Int) ≤ options.resolveMax env ∧
    (reqs.length : Int) - options.resolveMax env
      ≤ (deniedCount (serveAll env options store reqs) : Int) ∧
    ∃ e, (finalStore env options store reqs).get key = some e ∧
      e.count = (reqs.length : Int) := by
  have hmax0 : options.resolveMax env ≠ 0 := by omega
  cases reqs with
  | nil => exact absurd rfl hne
  | cons r rest =>
    have hk : clientKey r.ctx = key := hkey r (List.mem_cons_self _ _)
    obtain ⟨hstore, hat⟩ := rateLimit_newWindow_store env options r.now r.next store r.ctx
      hmax0 (Or.inl (by rw [hk]; exact hfresh))
    rw [hk] at hstore
    obtain ⟨ha, hsum, hfin⟩ := serveAll_inWindow_counts env options key hmax0 rest _ _ hstore
      (fun x hx => hkey x (List.mem_cons_of_mem _ hx))
      (fun x hx => hwin r (List.mem_cons_self _ _) x (List.mem_cons_of_mem _ hx))
    have hdf : (rateLimit env options r.now r.next store r.ctx).denied = false := by
      have hsome : (rateLimit env options r.now r.next store r.ctx).forwarded.isSome = true := hat
      simp [Served.denied, Option.isNone_iff_eq_none, Option.isSome_iff_exists.mp hsome]
      intro hnone
      rw [hnone] at hsome
      simp at hsome
    simp only at ha hfin
    rw [max_eq_right (by omega)] at ha
    simp only [serveAll, allowedCount, deniedCount, List.countP_cons, finalStore,
      List.length_cons] at ha hsum hfin ⊢
    rw [hat, hdf]
    simp only [if_true, Bool.false_eq_true, if_false, add_zero]
    refine ⟨by push_cast; omega, by push_cast; omega, _, hfin, ?_⟩
    push_cast
    omega

/-! ## Claims about single checks -/

/-- C1. With `max > 0`, starting from a store without an entry for the client key, in a run
of checks for that key whose times all fall inside the first window (none is later than the
`resetAt` fixed by the first check), the check at position `i` (counting from 0) with
`i + 1 ≤ max` is allowed and hands `X-RateLimit-Remaining = max - (i + 1)` to the next stage,
and every check with `i + 1 > max`, in particular the `(max+1)`-th, is denied with status 429
without calling the next stage. Neither the order of the times nor `windowMs > 0` is needed. -/
theorem rateLimit_first_window (env : Env) (options : RateLimitOptions) (store : Store)
    (key : String) (first : Request) (rest : List Request)
    (hmax : 0 < options.resolveMax env)
    (hfresh : store.get key = none)
    (hkey : ∀ r ∈ first :: rest, clientKey r.ctx = key)
    (hwin : ∀ r ∈ rest, r.now ≤ first.now + options.resolveWindowMs env)
    (i : Nat) (r : Request) (out : Served)
    (hi : (serveAll env options store (first :: rest))[i]? = some (r, out)) :
    ((i : Int) + 1 ≤ options.resolveMax env →
      out.allowed = true ∧
      ∃ c1, out.forwarded = some c1 ∧
        c1.resHeaders.get "X-RateLimit-Remaining"
          = some (toString (options.resolveMax env - ((i : Int) + 1))) ∧
        (out.ctx, out.completion) = awaitNext (r.next c1)) ∧
    (options.resolveMax env < (i : Int) + 1 →
      out.allowed = false ∧ out.denied = true) := by
  have hmax0 : options.resolveMax env ≠ 0 := by omega
  have hk0 : clientKey first.ctx = key := hkey first (List.mem_cons_self _ _)
  cases i with
  | zero =>
    simp only [serveAll, List.getElem?_cons_zero, Option.some.injEq, Prod.mk.injEq] at hi
    obtain ⟨hr, hout⟩ := hi
    subst hr
    rw [rateLimit_newWindow env options first.now first.next store first.ctx hmax0
      (Or.inl (by rw [hk0]; exact hfresh))] at hout
    subst hout
    refine ⟨fun _ => ⟨rfl, _, rfl, ?_, rfl⟩, fun h => ?_⟩
    · rw [limitHeaders_remaining]
      simp only [Nat.cast_zero, zero_add]
      rw [max_eq_right (by omega)]
    · simp only [Nat.cast_zero, zero_add] at h
      omega
  | succ j =>
    simp only [serveAll, List.getElem?_cons_succ] at hi
    have hstore : (rateLimit env options first.now first.next store first.ctx).store.get key
        = some { count := 1, resetAt := first.now + options.resolveWindowMs env } := by
      rw [rateLimit_newWindow env options first.now first.next store first.ctx hmax0
        (Or.inl (by rw [hk0]; exact hfresh)), hk0]
      exact Store.get_set_key _ _ _
    obtain ⟨st, hst, hk, hw, ho⟩ := serveAll_inWindow env options key hmax0 rest _ _ hstore
      (fun r hr => hkey r (List.mem_cons_of_mem _ hr)) hwin j r out hi
    simp only at hst hw
    have hnw : ¬ (first.now + options.resolveWindowMs env < r.now) := by omega
    refine ⟨fun hle => ?_, fun hgt => ?_⟩
    · have hle2 : (1 + (j : Int)) + 1 ≤ options.resolveMax env := by push_cast at hle; omega
      rw [rateLimit_inWindow_allowed env options r.now r.next st r.ctx _ hmax0
        (by rw [hk]; exact hst) hnw hle2] at ho
      subst ho
      refine ⟨rfl, _, rfl, ?_, rfl⟩
      rw [limitHeaders_remaining]
      simp only
      rw [max_eq_right (by omega)]
      congr 2
      push_cast
      ring
    · have hgt2 : options.resolveMax env < (1 + (j : Int)) + 1 := by push_cast at hgt; omega
      rw [rateLimit_inWindow_denied env options r.now r.next st r.ctx _ hmax0
        (by rw [hk]; exact hst) hnw hgt2] at ho
      subst ho
      exact ⟨rfl, rfl⟩

theorem rateLimit_first_window_witness :
    (rateLimit sampleEnv sampleOptions 20 sampleNext
      [("unknown", { count := 2, resetAt := 1000 })] {}).denied = true :=
  ((rateLimit_first_window sampleEnv sampleOptions [] "unknown" (sampleRequest 0)
    [sampleRequest 10, sampleRequest 20] (by decide) rfl
    (by intro r hr; simp at hr; rcases hr with h | h | h <;> (subst h; rfl))
    (by intro r hr; simp at hr; rcases hr with h | h <;> (subst h; decide))
    2 (sampleRequest 20) _ rfl).2 (by decide)).2

/-- C2. With `max > 0`, when the store holds an entry for the client key (whatever its count)
and `now` is later than that entry's `resetAt`, the check replaces the entry by
`{ count: 1, resetAt: now + windowMs }`, calls the next stage, and hands it
`X-RateLimit-Remaining = max - 1`. -/
theorem rateLimit_resets_after_window (env : Env) (options : RateLimitOptions) (now : Int)
    (next : Next) (store : Store) (c : Context) (entry : Entry)
    (hmax : 0 < options.resolveMax env)
    (hget : store.get (clientKey c) = some entry)
    (hexp : entry.resetAt < now) :
    (rateLimit env options now next store c).store.get (clientKey c)
        = some { count := 1, resetAt := now + options.resolveWindowMs env } ∧
    (rateLimit env options now next store c).allowed = true ∧
    ∃ c1, (rateLimit env options now next store c).forwarded = some c1 ∧
      c1.resHeaders.get "X-RateLimit-Remaining"
        = some (toString (options.resolveMax env - 1)) ∧
      ((rateLimit env options now next store c).ctx,
        (rateLimit env options now next store c).completion) = awaitNext (next c1) := by
  rw [rateLimit_newWindow env options now next store c (by omega) (Or.inr ⟨entry, hget, hexp⟩)]
  refine ⟨Store.get_set_key _ _ _, rfl, _, rfl, ?_, rfl⟩
  rw [limitHeaders_remaining]
  simp only
  rw [max_eq_right (by omega)]

theorem rateLimit_resets_after_window_witness :
    (rateLimit sampleEnv sampleOptions 2000 sampleNext
      [("unknown", { count := 7, resetAt := 1000 })] {}).store.get (clientKey {})
        = some { count := 1, resetAt := 2000 + sampleOptions.resolveWindowMs sampleEnv } :=
  (rateLimit_resets_after_window sampleEnv sampleOptions 2000 sampleNext
    [("unknown", { count := 7, resetAt := 1000 })] {} { count := 7, resetAt := 1000 }
    (by decide) rfl (by decide)).1

/-- C3. With the limiter enabled (`max` is not 0), a check that finds an entry for the client
key whose window has not expired and whose incremented count exceeds `max` does not call the
next stage (its result does not depend on it) and answers status 429 with error code
`RATE_LIMIT_EXCEEDED`, `Retry-After = ceil((resetAt - now) / 1000)`,
`X-RateLimit-Remaining = 0`, `X-RateLimit-Limit = max` and `X-RateLimit-Reset = resetAt`. -/
theorem rateLimit_denied_response (env : Env) (options : RateLimitOptions) (now : Int)
    (next : Next) (store : Store) (c : Context) (entry : Entry)
    (hmax : options.resolveMax env ≠ 0)
    (hget : store.get (clientKey c) = some entry)
    (hwin : ¬ entry.resetAt < now)
    (hgt : options.resolveMax env < entry.count + 1) :
    (rateLimit env options now next store c).forwarded = none ∧
    (∀ other : Next,
      rateLimit env options now other store c = rateLimit env options now next store c) ∧
    ∃ res, (rateLimit env options now next store c).completion
        = Completion.returned (some res) ∧
      res.status = 429 ∧
      res.body.field "success" = some (JsVal.bool false) ∧
      (res.body.field "error").bind (fun e => e.field "code")
        = some (JsVal.str "RATE_LIMIT_EXCEEDED") ∧
      res.headers.get "Retry-After"
        = some (toString ⌈((entry.resetAt - now : Int) : ℚ) / 1000⌉) ∧
      res.headers.get "X-RateLimit-Remaining" = some "0" ∧
      res.headers.get "X-RateLimit-Limit" = some (toString (options.resolveMax env)) ∧
      res.headers.get "X-RateLimit-Reset" = some (toString entry.resetAt) := by
  refine ⟨?_, ?_, ?_⟩
  · rw [rateLimit_inWindow_denied env options now next store c entry hmax hget hwin hgt]
  · intro other
    rw [rateLimit_inWindow_denied env options now next store c entry hmax hget hwin hgt,
      rateLimit_inWindow_denied env options now other store c entry hmax hget hwin hgt]
  · rw [rateLimit_inWindow_denied env options now next store c entry hmax hget hwin hgt]
    refine ⟨_, rfl, rfl, rfl, rfl, ?_, ?_, ?_, ?_⟩
    · unfold Context.json denyHeaders Context.setResHeader
      simp only []
      rw [Headers.get_set_other_name _ _ _ _ (by decide), Headers.get_set_other_name _ _ _ _ (by decide),
        Headers.get_set_other_name _ _ _ _ (by decide), Headers.get_set_name, ceilDiv_eq_ceil]
    · unfold Context.json denyHeaders Context.setResHeader
      simp only []
      rw [Headers.get_set_other_name _ _ _ _ (by decide), Headers.get_set_name]
    · unfold Context.json denyHeaders Context.setResHeader
      simp only []
      rw [Headers.get_set_other_name _ _ _ _ (by decide), Headers.get_set_other_name _ _ _ _ (by decide),
        Headers.get_set_name]
    · unfold Context.json denyHeaders Context.setResHeader
      simp only []
      rw [Headers.get_set_name]

theorem rateLimit_denied_response_witness :
    (rateLimit sampleEnv sampleOptions 500 sampleNext
      [("unknown", { count := 2, resetAt := 1000 })] {}).forwarded = none :=
  (rateLimit_denied_response sampleEnv sampleOptions 500 sampleNext
    [("unknown", { count := 2, resetAt := 1000 })] {} { count := 2, resetAt := 1000 }
    (by decide) rfl (by decide) (by decide)).1

/-- C6. When the configured maximum is 0, every check, for every key, time and store, calls
the next stage on the unchanged context, settles as the next stage does, and leaves the store
exactly as it was. -/
theorem rateLimit_disabled (env : Env) (options : RateLimitOptions) (now : Int)
    (next : Next) (store : Store) (c : Context)
    (hzero : options.resolveMax env = 0) :
    (rateLimit env options now next store c).store = store ∧
    (rateLimit env options now next store c).forwarded = some c ∧
    ((rateLimit env options now next store c).ctx,
      (rateLimit env options now next store c).completion) = next c := by
  have h : rateLimit env options now next store c =
      { store := store, ctx := (next c).1, forwarded := some c, completion := (next c).2 } := by
    unfold rateLimit
    simp only [hzero, if_true]
  rw [h]
  exact ⟨rfl, rfl, rfl⟩

theorem rateLimit_disabled_witness :
    (rateLimit sampleEnv { max := some 0 } 500 sampleNext
      [("unknown", { count := 2, resetAt := 1000 })] {}).store
        = [("unknown", { count := 2, resetAt := 1000 })] :=
  (rateLimit_disabled sampleEnv { max := some 0 } 500 sampleNext
    [("unknown", { count := 2, resetAt := 1000 })] {} rfl).1

/-! ## Claims about runs of checks -/

/-- C4 (as amended). For `max > 0` and every sequence of checks for one client key served at
non-decreasing times, starting from a store whose entry for the key, if any, has a count of
at least 1 (every entry the limiter writes has), the number of allowed checks whose times lie
in an interval `[lo, hi]` with `hi - lo ≤ windowMs` is at most `2 * max - 1`; in particular it
never exceeds, and never reaches, twice the maximum. -/
theorem rateLimit_burst_bound (env : Env) (options : RateLimitOptions) (store : Store)
    (key : String) (reqs : List Request) (lo hi : Int)
    (hmax : 0 < options.resolveMax env)
    (hstore : ∀ e, store.get key = some e → 1 ≤ e.count)
    (hkey : ∀ r ∈ reqs, clientKey r.ctx = key)
    (hsorted : reqs.Pairwise (fun a b => a.now ≤ b.now))
    (hlen : hi - lo ≤ options.resolveWindowMs env) :
    (allowedWithin lo hi (serveAll env options store reqs) : Int)
      ≤ 2 * options.resolveMax env - 1 :=
  allowedWithin_le env options key lo hi hmax hlen reqs store hsorted hkey hstore

theorem rateLimit_burst_bound_witness :
    (allowedWithin 1000 1001 (serveAll sampleEnv sampleOptions []
      [sampleRequest 0, sampleRequest 1000, sampleRequest 1001, sampleRequest 1001]) : Int)
      ≤ 2 * sampleOptions.resolveMax sampleEnv - 1 :=
  rateLimit_burst_bound sampleEnv sampleOptions [] "unknown"
    [sampleRequest 0, sampleRequest 1000, sampleRequest 1001, sampleRequest 1001] 1000 1001
    (by decide)
    (by intro e h; simp [Store.get] at h)
    (by intro r hr; simp at hr; rcases hr with h | h | h <;> (subst h; rfl))
    (by simp [sampleRequest])
    (by decide)

/-- The bound `2 * max - 1` is attained: with `max = 2` and `windowMs = 1000`, checks at times
0, 1000, 1001, 1001 give three allowed checks inside `[1000, 1001]`. -/
theorem rateLimit_burst_attained :
    allowedWithin 1000 1001 (serveAll sampleEnv sampleOptions []
      [sampleRequest 0, sampleRequest 1000, sampleRequest 1001, sampleRequest 1001]) = 3 := by
  decide

/-- C4 (the claim fails here). With `max = 1` and `windowMs = 1000`, starting from the empty
store, no sequence of checks for one key at non-decreasing times has `2 * max = 2` allowed
checks inside an interval of length at most `windowMs`: twice the maximum is not reached. -/
theorem rateLimit_burst_twice_max_unreachable :
    ¬ ∃ (reqs : List Request) (lo hi : Int),
      hi - lo ≤ 1000 ∧
      reqs.Pairwise (fun a b => a.now ≤ b.now) ∧
      (∀ r ∈ reqs, clientKey r.ctx = "unknown") ∧
      allowedWithin lo hi
        (serveAll sampleEnv { max := some 1, windowMs := some 1000 } [] reqs) = 2 * 1 := by
  rintro ⟨reqs, lo, hi, hlen, hsorted, hkey, hcount⟩
  have h := allowedWithin_le sampleEnv { max := some 1, windowMs := some 1000 } "unknown" lo hi
    (by decide) hlen reqs [] hsorted hkey (by intro e h; simp [Store.get] at h)
  rw [hcount] at h
  have h1 : RateLimitOptions.resolveMax { max := some 1, windowMs := some 1000 } sampleEnv = 1 :=
    rfl
  rw [h1] at h
  omega

/-- C5. Checks for one key are read-modify-write steps without an intervening `await`, so
concurrent checks are served one after the other in some order. For `max > 0` and `n > max`
checks for the same key, issued within one window length of each other and starting without
an entry for the key, every order of serving them yields at most `max` allowed and at least
`n - max` denied checks, and the stored count ends equal to `n`. -/
theorem rateLimit_serialised_no_lost_updates (env : Env) (options : RateLimitOptions)
    (store : Store) (key : String) (reqs order : List Request)
    (hmax : 0 < options.resolveMax env)
    (hfresh : store.get key = none)
    (hkey : ∀ r ∈ reqs, clientKey r.ctx = key)
    (hwin : ∀ a ∈ reqs, ∀ b ∈ reqs, b.now ≤ a.now + options.resolveWindowMs env)
    (hn : options.resolveMax env < (reqs.length : Int))
    (horder : order.Perm reqs) :
    (allowedCount (serveAll env options store order) : Int) ≤ options.resolveMax env ∧
    (reqs.length : Int) - options.resolveMax env
      ≤ (deniedCount (serveAll env options store order) : Int) ∧
    ∃ e, (finalStore env options store order).get key = some e ∧
      e.count = (reqs.length : Int) := by
  have hlen : order.length = reqs.length := horder.length_eq
  have hne : order ≠ [] := by
    intro h
    rw [h] at hlen
    simp only [List.length_nil] at hlen
    rw [← hlen] at hn
    simp only [Nat.cast_zero] at hn
    omega
  have h := serveAll_oneWindow env options key hmax store order hfresh
    (fun r hr => hkey r (horder.mem_iff.mp hr))
    (fun a ha b hb => hwin a (horder.mem_iff.mp ha) b (horder.mem_iff.mp hb)) hne
  rw [hlen] at h
  exact h

theorem rateLimit_serialised_no_lost_updates_witness :
    (allowedCount (serveAll sampleEnv sampleOptions []
      [sampleRequest 9, sampleRequest 0, sampleRequest 5]) : Int)
      ≤ sampleOptions.resolveMax sampleEnv :=
  (rateLimit_serialised_no_lost_updates sampleEnv sampleOptions [] "unknown"
    [sampleRequest 0, sampleRequest 5, sampleRequest 9]
    [sampleRequest 9, sampleRequest 0, sampleRequest 5]
    (by decide) rfl
    (by intro r hr; simp at hr; rcases hr with h | h | h <;> (subst h; rfl))
    (by
      intro a ha b hb
      simp at ha hb
      rcases ha with h | h | h <;> rcases hb with h2 | h2 | h2 <;> (subst h; subst h2; decide))
    (by decide)
    ((List.Perm.swap (sampleRequest 0) (sampleRequest 9) [sampleRequest 5]).trans
      ((List.Perm.swap (sampleRequest 5) (sampleRequest 9) []).cons (sampleRequest 0)))).1

/-! ## Claims about the error boundary -/

/-- A status that the constructor of `Response` accepts makes `return c.json(...)` return. -/
theorem returnJson_of_accepted (c : Context) (body : JsVal) (status : Int)
    (hlo : 200 ≤ status) (hhi : status ≤ 599)
    (h204 : status ≠ 204) (h205 : status ≠ 205) (h304 : status ≠ 304) :
    c.returnJson body status = Completion.returned (some (c.json body status)) := by
  have h1 : ¬ (status < 200 ∨ 599 < status) := by omega
  have h2 : ¬ (status = 204 ∨ status = 205 ∨ status = 304) := by omega
  unfold Context.returnJson responseInitError
  simp only [h1, h2, if_false]

/-- A status outside 200..599 makes `return c.json(...)` raise. -/
theorem returnJson_of_out_of_range (c : Context) (body : JsVal) (status : Int)
    (h : status < 200 ∨ 599 < status) :
    ∃ raised, c.returnJson body status = Completion.threw raised := by
  unfold Context.returnJson responseInitError
  simp only [h, if_true]
  exact ⟨_, rfl⟩

/-- The last branch of the boundary: a failure that is neither a ZodError nor an
HTTPException. -/
theorem errorHandler_of_other (env : Env) (next : Next) (c c1 : Context) (err : JsError)
    (hthrow : next c = (c1, Completion.threw err))
    (hzod : err.cls ≠ ErrorClass.zodError)
    (hhttp : err.cls ≠ ErrorClass.httpException) :
    errorHandler env next c =
      (c1, c1.returnJson
        (JsVal.obj [
          ("success", JsVal.bool false),
          ("error", JsVal.obj [
            ("message", JsVal.str
              (if env.isProd && orNum err.status (orNum err.statusCode 500) == 500
                then "Internal server error" else err.message)),
            ("code", JsVal.str (orStr err.code "INTERNAL_ERROR"))]),
          ("requestId", c1.get "requestId")])
        (orNum err.status (orNum err.statusCode 500))) := by
  unfold errorHandler
  simp only [hthrow, hzod, hhttp, if_false]

/-- C7 (the claim fails here). A failure that carries the status 42 (or 204) and a code makes
`c.json` raise inside the `catch` of the boundary, because `Response` accepts neither a status
outside 200..599 nor a body together with a null-body status: the boundary returns no
envelope, it raises. -/
theorem errorHandler_status_not_accepted :
    (∃ raised,
      errorHandler sampleEnv
          (fun c => (c, Completion.threw
            { message := "odd", status := some 42, code := some "ODD" })) {}
        = ({}, Completion.threw raised)) ∧
    (∀ res,
      errorHandler sampleEnv
          (fun c => (c, Completion.threw
            { message := "odd", status := some 42, code := some "ODD" })) {}
        ≠ ({}, Completion.returned (some res))) ∧
    (∃ raised,
      errorHandler sampleEnv
          (fun c => (c, Completion.threw
            { message := "gone", status := some 204, code := some "GONE" })) {}
        = ({}, Completion.threw raised)) := by
  refine ⟨⟨_, rfl⟩, ?_, ⟨_, rfl⟩⟩
  intro res h
  have h2 := congrArg Prod.snd h
  have h3 : errorHandler sampleEnv
      (fun c => (c, Completion.threw
        { message := "odd", status := some 42, code := some "ODD" })) {}
      = ({}, Completion.threw
          { message := "RangeError: the status must be in the range 200 to 599" }) := rfl
  rw [h3] at h2
  cases h2

/-- C7 (as amended). When the downstream raises a failure that is neither a ZodError nor an
HTTPException and that carries a status `s` and a code `k` (carried in the sense of the
source's `||` defaults: `k` is not the empty string), where `s` is a status a response with a
body can have (`200 ≤ s ≤ 599`, not 204, 205 or 304; e.g. 404 / NOT_FOUND), the boundary
returns a Failure envelope with status `s` and `error.code = k`, and with `error.message`
equal to the failure's own message whenever `s` is not 500. -/
theorem errorHandler_domain_failure (env : Env) (next : Next) (c c1 : Context) (err : JsError)
    (s : Int) (k : String)
    (hthrow : next c = (c1, Completion.threw err))
    (hzod : err.cls ≠ ErrorClass.zodError)
    (hhttp : err.cls ≠ ErrorClass.httpException)
    (hs : err.status = some s) (hlo : 200 ≤ s) (hhi : s ≤ 599)
    (h204 : s ≠ 204) (h205 : s ≠ 205) (h304 : s ≠ 304)
    (hk : err.code = some k) (hk0 : k ≠ "") :
    ∃ res, errorHandler env next c = (c1, Completion.returned (some res)) ∧
      res.status = s ∧
      res.body.field "success" = some (JsVal.bool false) ∧
      (res.body.field "error").bind (fun e => e.field "code") = some (JsVal.str k) ∧
      (s ≠ 500 →
        (res.body.field "error").bind (fun e => e.field "message")
          = some (JsVal.str err.message)) := by
  have hs0 : s ≠ 0 := by omega
  have hstatus : orNum err.status (orNum err.statusCode 500) = s := by
    simp [orNum, hs, hs0]
  have hcode : orStr err.code "INTERNAL_ERROR" = k := by
    simp [orStr, hk, hk0]
  rw [errorHandler_of_other env next c c1 err hthrow hzod hhttp, hstatus, hcode,
    returnJson_of_accepted _ _ s hlo hhi h204 h205 h304]
  refine ⟨_, rfl, rfl, rfl, rfl, ?_⟩
  intro h500
  have : (s == 500) = false := by simpa using h500
  simp [Context.json, JsVal.field, JsVal.lookup, this]

theorem errorHandler_domain_failure_witness :
    ∃ res, errorHandler prodEnv
        (fun c => (c, Completion.threw
          { message := "User not found", status := some 404, code := some "NOT_FOUND" }))
        {} = ({}, Completion.returned (some res)) ∧
      res.status = 404 ∧
      res.body.field "success" = some (JsVal.bool false) ∧
      (res.body.field "error").bind (fun e => e.field "code")
        = some (JsVal.str "NOT_FOUND") ∧
      ((404 : Int) ≠ 500 →
        (res.body.field "error").bind (fun e => e.field "message")
          = some (JsVal.str "User not found")) :=
  errorHandler_domain_failure prodEnv
    (fun c => (c, Completion.threw
      { message := "User not found", status := some 404, code := some "NOT_FOUND" }))
    {} {} { message := "User not found", status := some 404, code := some "NOT_FOUND" }
    404 "NOT_FOUND" rfl (by decide) (by decide) rfl (by decide) (by decide) (by decide)
    (by decide) (by decide) rfl (by decide)

/-- C8. When the downstream raises a failure that is neither a ZodError nor an HTTPException
and has no `status`, no `statusCode` and no `code`, the boundary returns status 500 with
`error.code = INTERNAL_ERROR`; `error.message` is the failure's own message when `NODE_ENV` is
not `production` and is `Internal server error` when it is. -/
theorem errorHandler_unclassified (env : Env) (next : Next) (c c1 : Context) (err : JsError)
    (hthrow : next c = (c1, Completion.threw err))
    (hzod : err.cls ≠ ErrorClass.zodError)
    (hhttp : err.cls ≠ ErrorClass.httpException)
    (hs : err.status = none) (hsc : err.statusCode = none) (hk : err.code = none) :
    ∃ res, errorHandler env next c = (c1, Completion.returned (some res)) ∧
      res.status = 500 ∧
      res.body.field "success" = some (JsVal.bool false) ∧
      (res.body.field "error").bind (fun e => e.field "code")
        = some (JsVal.str "INTERNAL_ERROR") ∧
      (env.NODE_ENV ≠ "production" →
        (res.body.field "error").bind (fun e => e.field "message")
          = some (JsVal.str err.message)) ∧
      (env.NODE_ENV = "production" →
        (res.body.field "error").bind (fun e => e.field "message")
          = some (JsVal.str "Internal server error")) := by
  have hstatus : orNum err.status (orNum err.statusCode 500) = 500 := by
    simp [orNum, hs, hsc]
  have hcode : orStr err.code "INTERNAL_ERROR" = "INTERNAL_ERROR" := by
    simp [orStr, hk]
  rw [errorHandler_of_other env next c c1 err hthrow hzod hhttp, hstatus, hcode,
    returnJson_of_accepted _ _ 500 (by decide) (by decide) (by decide) (by decide)
      (by decide)]
  refine ⟨_, rfl, rfl, rfl, rfl, ?_, ?_⟩
  · intro hdev
    have : env.isProd = false := by simpa [Env.isProd] using hdev
    simp [Context.json, JsVal.field, JsVal.lookup, this]
  · intro hprod
    have : env.isProd = true := by simpa [Env.isProd] using hprod
    simp [Context.json, JsVal.field, JsVal.lookup, this]

theorem errorHandler_unclassified_witness :
    ∃ res, errorHandler prodEnv (fun c => (c, Completion.threw { message := "boom" })) {}
        = ({}, Completion.returned (some res)) ∧
      res.status = 500 ∧
      res.body.field "success" = some (JsVal.bool false) ∧
      (res.body.field "error").bind (fun e => e.field "code")
        = some (JsVal.str "INTERNAL_ERROR") ∧
      (prodEnv.NODE_ENV ≠ "production" →
        (res.body.field "error").bind (fun e => e.field "message")
          = some (JsVal.str "boom")) ∧
      (prodEnv.NODE_ENV = "production" →
        (res.body.field "error").bind (fun e => e.field "message")
          = some (JsVal.str "Internal server error")) :=
  errorHandler_unclassified prodEnv (fun c => (c, Completion.threw { message := "boom" }))
    {} {} { message := "boom" } rfl (by decide) (by decide) rfl rfl rfl

/-- The response `return c.json(...)` returns, whenever it returns one. -/
theorem returnJson_returned (c : Context) (body : JsVal) (status : Int) (res : Response)
    (h : c.returnJson body status = Completion.returned (some res)) :
    res = c.json body status := by
  unfold Context.returnJson at h
  cases hi : responseInitError status with
  | some raised =>
    rw [hi] at h
    cases h
  | none =>
    rw [hi] at h
    simp only [Completion.returned.injEq, Option.some.injEq] at h
    exact h.symm

/-- Every Failure envelope the boundary returns carries, as `requestId`, the value `c.get`
yields when the failure is caught (the stored id, or `undefined` when none was stored), and
the headers of `c.res`. -/
theorem errorHandler_requestId (env : Env) (next : Next) (c c1 : Context) (err : JsError)
    (res : Response)
    (hthrow : next c = (c1, Completion.threw err))
    (hres : (errorHandler env next c).2 = Completion.returned (some res)) :
    res.body.field "requestId" = some (c1.get "requestId") ∧
    res.headers = c1.resHeaders := by
  unfold errorHandler at hres
  simp only [hthrow] at hres
  by_cases hzod : err.cls = ErrorClass.zodError
  · simp only [hzod, if_true, Completion.returned.injEq, Option.some.injEq] at hres
    rw [← hres]
    exact ⟨rfl, rfl⟩
  · by_cases hhttp : err.cls = ErrorClass.httpException
    · simp only [hhttp, if_true] at hres
      simp only [show ¬ (ErrorClass.httpException = ErrorClass.zodError) by decide,
        if_false] at hres
      rw [returnJson_returned _ _ _ _ hres]
      exact ⟨rfl, rfl⟩
    · simp only [hzod, hhttp, if_false] at hres
      rw [returnJson_returned _ _ _ _ hres]
      exact ⟨rfl, rfl⟩

/-- The helper `error` carries the stored id, or `null` for any falsy value of the variable. -/
theorem error_requestId (c : Context) (message code : String) (status : Int) (details : JsVal) :
    (error c message code status details).body.field "requestId"
      = some (if (c.get "requestId").truthy then c.get "requestId" else JsVal.null) := by
  simp [error, Context.json, JsVal.field, JsVal.lookup, JsVal.or]

/-- C9 (the code at the failing input). On a context on which no correlation id was stored,
the helper `error` emits `requestId: null`, but the error boundary and the rate limiter put
`undefined` into the body, so the emitted JSON has no `requestId` field at all. -/
theorem failure_envelope_requestId_unassigned :
    (error {} "Not allowed").body.field "requestId" = some JsVal.null ∧
    (∃ res, errorHandler sampleEnv (fun c => (c, Completion.threw { message := "boom" })) {}
        = ({}, Completion.returned (some res)) ∧
      res.body.field "requestId" = some JsVal.undefined ∧
      res.body.toJson.hasField "requestId" = false) ∧
    (∃ res, (rateLimit sampleEnv sampleOptions 500 sampleNext
        [("unknown", { count := 2, resetAt := 1000 })] {}).completion
        = Completion.returned (some res) ∧
      res.body.field "requestId" = some JsVal.undefined ∧
      res.body.toJson.hasField "requestId" = false) :=
  ⟨rfl, ⟨_, rfl, rfl, rfl⟩, ⟨_, rfl, rfl, rfl⟩⟩

/-! ## Claims about the response helpers -/

/-- C10 (the claim fails here). Non-null but falsy extras are left out: `error` called with
`details = 0` (or `""`, or `false`) builds a body without `error.details`, and `success`
called with `meta = false` builds a body without `meta`. -/
theorem response_falsy_extras_omitted :
    JsVal.num 0 ≠ JsVal.null ∧
    errorDetails (error {} "Bad input" "BAD_INPUT" 400 (JsVal.num 0)).body = none ∧
    JsVal.str "" ≠ JsVal.null ∧
    errorDetails (error {} "Bad input" "BAD_INPUT" 400 (JsVal.str "")).body = none ∧
    JsVal.bool false ≠ JsVal.null ∧
    (success {} (JsVal.str "x") (JsVal.bool false)).body.hasField "meta" = false := by
  refine ⟨by simp, rfl, by simp, rfl, by simp, rfl⟩

/-- C10 (as amended). Every body built by the response helpers has exactly one of the two
envelope shapes. `success` and `paginated` give `success = true` with the `data` property and
no `error` property; `success` adds `meta` exactly when the supplied meta is truthy, and
`paginated` always adds `meta = { pagination }`. `error` and the helpers built on it give
`success = false` with `error.message` and `error.code` and no `data` property, and
`error.details` is present exactly when the supplied details are truthy. -/
theorem response_shapes (c : Context) (data meta pagination details errors : JsVal)
    (status : Int) (message code resource : String) :
    (SuccessShape (success c data meta status).body data ∧
      (success c data meta status).body.field "meta"
        = (if meta.truthy then some meta else none)) ∧
    (SuccessShape (paginated c data pagination).body data ∧
      (paginated c data pagination).body.field "meta"
        = some (JsVal.obj [("pagination", pagination)])) ∧
    (FailureShape (error c message code status details).body message code ∧
      errorDetails (error c message code status details).body
        = (if details.truthy then some details else none)) ∧
    (FailureShape (notFound c resource).body (resource ++ " not found") "NOT_FOUND" ∧
      errorDetails (notFound c resource).body = none) ∧
    (FailureShape (validationError c errors).body "Validation failed" "VALIDATION_ERROR" ∧
      errorDetails (validationError c errors).body
        = (if errors.truthy then some errors else none)) ∧
    (FailureShape (unauthorized c message).body message "UNAUTHORIZED" ∧
      errorDetails (unauthorized c message).body = none) ∧
    (FailureShape (forbidden c message).body message "FORBIDDEN" ∧
      errorDetails (forbidden c message).body = none) := by
  have herr : ∀ (m k : String) (st : Int) (d : JsVal),
      FailureShape (error c m k st d).body m k ∧
      errorDetails (error c m k st d).body = (if d.truthy then some d else none) := by
    intro m k st d
    cases hd : d.truthy <;>
      simp [FailureShape, errorDetails, error, Context.json, JsVal.field, JsVal.hasField,
        JsVal.lookup, JsVal.assign, hd]
  refine ⟨?_, ?_, herr message code status details, ?_, ?_, ?_, ?_⟩
  · cases hm : meta.truthy <;>
      simp [SuccessShape, success, Context.json, JsVal.field, JsVal.hasField, JsVal.lookup,
        JsVal.assign, hm]
  · simp [SuccessShape, paginated, Context.json, JsVal.field, JsVal.hasField, JsVal.lookup]
  · have := herr (resource ++ " not found") "NOT_FOUND" 404 JsVal.null
    simpa [notFound, JsVal.truthy] using this
  · exact herr "Validation failed" "VALIDATION_ERROR" 400 errors
  · have := herr message "UNAUTHORIZED" 401 JsVal.null
    simpa [unauthorized, JsVal.truthy] using this
  · have := herr message "FORBIDDEN" 403 JsVal.null
    simpa [forbidden, JsVal.truthy] using this

/-! ## Decimal strings -/

theorem digitsValue_append_one (l : List Char) (ch : Char) :
    digitsValue (l ++ [ch]) = digitsValue l * 10 + (ch.toNat - 48) := by
  simp [digitsValue, List.foldl_append]

/-- The characters `Nat.digitChar` yields for the digits 0 to 9. -/
theorem digitChar_facts : ∀ d, d < 10 →
    (Nat.digitChar d).isDigit = true ∧ (Nat.digitChar d).toNat - 48 = d ∧
    isJsWhitespace (Nat.digitChar d) = false ∧ Nat.digitChar d ≠ '-' ∧
    Nat.digitChar d ≠ '+' := by
  decide

/-- The digits written by `Nat.toDigitsCore` read back as the number. -/
theorem toDigitsCore_reads_back : ∀ (fuel n : Nat) (ds : List Char), n < fuel →
    ∃ pre, Nat.toDigitsCore 10 fuel n ds = pre ++ ds ∧ pre ≠ [] ∧
      (∀ ch ∈ pre, ∃ d, d < 10 ∧ ch = Nat.digitChar d) ∧ digitsValue pre = n := by
  intro fuel
  induction fuel with
  | zero => intro n ds h; omega
  | succ fuel ih =>
    intro n ds h
    unfold Nat.toDigitsCore
    by_cases h0 : n / 10 = 0
    · simp only [h0, if_true]
      refine ⟨[Nat.digitChar (n % 10)], rfl, by simp, ?_, ?_⟩
      · intro ch hch
        simp only [List.mem_singleton] at hch
        exact ⟨n % 10, Nat.mod_lt _ (by decide), hch⟩
      · have hd := (digitChar_facts (n % 10) (Nat.mod_lt _ (by decide))).2.1
        simp only [digitsValue, List.foldl_cons, List.foldl_nil, zero_mul, zero_add]
        rw [hd]
        omega
    · simp only [h0, if_false]
      obtain ⟨pre, hpre, _, hall, hval⟩ := ih (n / 10) (Nat.digitChar (n % 10) :: ds) (by omega)
      refine ⟨pre ++ [Nat.digitChar (n % 10)], ?_, by simp, ?_, ?_⟩
      · rw [hpre]
        simp
      · intro ch hch
        rcases List.mem_append.mp hch with h1 | h1
        · exact hall ch h1
        · simp only [List.mem_singleton] at h1
          exact ⟨n % 10, Nat.mod_lt _ (by decide), h1⟩
      · have hd := (digitChar_facts (n % 10) (Nat.mod_lt _ (by decide))).2.1
        rw [digitsValue_append_one, hval, hd]
        omega

/-- The decimal string of a natural number: non-empty, all digits, and it denotes the number. -/
theorem natToString_digits (n : Nat) :
    (toString n).data ≠ [] ∧
    (∀ ch ∈ (toString n).data, ∃ d, d < 10 ∧ ch = Nat.digitChar d) ∧
    digitsValue (toString n).data = n := by
  obtain ⟨pre, hpre, hne, hall, hval⟩ := toDigitsCore_reads_back (n + 1) n [] (by omega)
  have hdata : (toString n).data = pre := by
    show (Nat.repr n).data = pre
    simp only [Nat.repr, Nat.toDigits, List.asString, hpre, List.append_nil]
  rw [hdata]
  exact ⟨hne, hall, hval⟩

/-! ## Rounding to the nearest double -/

theorem div_pow_lt_of_lt (m k : Nat) (hm : m < 2 ^ 53) (hk : 1 ≤ k) : m / 2 ^ k < 2 ^ 52 := by
  have h2 : 2 ^ 1 ≤ 2 ^ k := Nat.pow_le_pow_right (by decide) hk
  have h3 : m / 2 ^ k ≤ m / 2 ^ 1 := Nat.div_le_div_left h2 (by decide)
  have h4 : m / 2 ^ 1 < 2 ^ 52 := by
    rw [Nat.div_lt_iff_lt_mul (by decide)]
    calc m < 2 ^ 53 := hm
      _ = 2 ^ 52 * 2 ^ 1 := by norm_num
  omega

theorem excessFrom_of_small (m : Nat) (hm : m < 2 ^ 53) : ∀ j, excessFrom j m 0 = 0 := by
  intro j
  induction j with
  | zero =>
    have h := div_pow_lt_of_lt m (0 + 1) hm (by omega)
    simp only [excessFrom]
    rw [if_neg (by omega)]
  | succ j ih =>
    have h := div_pow_lt_of_lt m (0 + 2 ^ (j + 1)) hm (by
      have : 0 < 2 ^ (j + 1) := Nat.pow_pos (by decide)
      omega)
    simp only [excessFrom]
    rw [if_neg (by omega)]
    exact ih

theorem excessFrom_floor (m : Nat) : ∀ j e, 2 ^ 52 ≤ m / 2 ^ e →
    2 ^ 52 ≤ m / 2 ^ (excessFrom j m e) := by
  intro j
  induction j with
  | zero =>
    intro e he
    simp only [excessFrom]
    split
    · assumption
    · exact he
  | succ j ih =>
    intro e he
    simp only [excessFrom]
    apply ih
    split
    · assumption
    · exact he

theorem excessFrom_pos (m : Nat) (hm : 2 ^ 53 ≤ m) : ∀ j e, 1 ≤ excessFrom j m e := by
  intro j
  induction j with
  | zero =>
    intro e
    simp only [excessFrom]
    split
    · omega
    · rename_i h
      by_cases he : e = 0
      · subst he
        exfalso
        apply h
        show 2 ^ 52 ≤ m / 2 ^ 1
        rw [Nat.le_div_iff_mul_le (by decide)]
        calc 2 ^ 52 * 2 ^ 1 = 2 ^ 53 := by norm_num
          _ ≤ m := hm
      · omega
  | succ j ih =>
    intro e
    simp only [excessFrom]
    exact ih _

/-- With enough range the search ends on a quotient below `2^53`. -/
theorem excessFrom_ceil (m : Nat) : ∀ j e, m / 2 ^ (e + 2 ^ (j + 1)) < 2 ^ 52 →
    m / 2 ^ (excessFrom j m e) < 2 ^ 53 := by
  have hfinal : ∀ e, m / 2 ^ (e + 1) < 2 ^ 52 → m / 2 ^ e < 2 ^ 53 := by
    intro e h
    rw [pow_succ, ← Nat.div_div_eq_div_mul] at h
    have h53 : (2 : Nat) ^ 53 = 2 ^ 52 * 2 := by norm_num
    omega
  intro j
  induction j with
  | zero =>
    intro e he
    simp only [excessFrom]
    split
    · apply hfinal
      have : e + 1 + 1 = e + 2 ^ (0 + 1) := by norm_num
      rw [this]
      exact he
    · rename_i h
      exact hfinal e (by omega)
  | succ j ih =>
    intro e he
    simp only [excessFrom]
    apply ih
    split
    · have : e + 2 ^ (j + 1) + 2 ^ (j + 1) = e + 2 ^ (j + 1 + 1) := by
        rw [pow_succ 2 (j + 1)]
        omega
      rw [this]
      exact he
    · rename_i h
      omega

theorem roundNat_of_lt (m : Nat) (hm : m < 2 ^ 53) : roundNat m = m := by
  have he : excessBits m = 0 := excessFrom_of_small m hm 10
  unfold roundNat
  simp [he, Nat.mod_one]

theorem roundNat_of_le (m : Nat) (hm : m ≤ 2 ^ 53) : roundNat m = m := by
  rcases Nat.lt_or_ge m (2 ^ 53) with h | h
  · exact roundNat_of_lt m h
  · have : m = 2 ^ 53 := Nat.le_antisymm hm h
    subst this
    decide

theorem roundNat_of_ge (m : Nat) (hm : 2 ^ 53 ≤ m) : 2 ^ 53 ≤ roundNat m := by
  have he : 1 ≤ excessBits m := excessFrom_pos m hm 10 0
  have hq : 2 ^ 52 ≤ m / 2 ^ excessBits m :=
    excessFrom_floor m 10 0 (by
      simp only [pow_zero, Nat.div_one]
      calc 2 ^ 52 ≤ 2 ^ 53 := by norm_num
        _ ≤ m := hm)
  have hpow : 2 ^ 1 ≤ 2 ^ excessBits m := Nat.pow_le_pow_right (by decide) he
  have hbase : 2 ^ 53 ≤ m / 2 ^ excessBits m * 2 ^ excessBits m := by
    calc 2 ^ 53 = 2 ^ 52 * 2 ^ 1 := by norm_num
      _ ≤ m / 2 ^ excessBits m * 2 ^ excessBits m := Nat.mul_le_mul hq hpow
  have hup : m / 2 ^ excessBits m * 2 ^ excessBits m
      ≤ (m / 2 ^ excessBits m + 1) * 2 ^ excessBits m :=
    Nat.mul_le_mul_right _ (Nat.le_succ _)
  unfold roundNat
  simp only []
  split
  · exact hbase
  · split
    · exact hbase
    · exact le_trans hbase hup

/-- Rounding does not leave the range of the significand exactly representable. -/
theorem toDouble_of_natAbs_le (n : Int) (hn : n.natAbs ≤ 2 ^ 53) :
    toDouble n = JsNum.finite n := by
  have hr := roundNat_of_le n.natAbs hn
  have hlt : ¬ (2 ^ 1024 ≤ n.natAbs) := by
    have : (2 : Nat) ^ 53 < 2 ^ 1024 := Nat.pow_lt_pow_right (by decide) (by decide)
    omega
  unfold toDouble
  simp only [hr, hlt, if_false]
  by_cases hneg : n < 0
  · simp only [hneg, if_true]
    rw [Int.ofNat_natAbs_of_nonpos (le_of_lt hneg)]
    simp
  · simp only [hneg, if_false]
    rw [Int.natAbs_of_nonneg (by omega)]

theorem toDouble_of_nonneg (n : Int) (hn : 0 ≤ n) :
    toDouble n = JsNum.posInf ∨ ∃ m, toDouble n = JsNum.finite m ∧ 0 ≤ m := by
  have hneg : ¬ n < 0 := by omega
  unfold toDouble
  simp only [hneg, if_false]
  split
  · exact Or.inl rfl
  · exact Or.inr ⟨_, rfl, Int.natCast_nonneg _⟩

theorem toDouble_of_large (n : Int) (hn : 2 ^ 53 ≤ n) :
    toDouble n = JsNum.posInf ∨ ∃ m, toDouble n = JsNum.finite m ∧ 2 ^ 53 ≤ m := by
  have hneg : ¬ n < 0 := by
    have : (0 : Int) < 2 ^ 53 := by norm_num
    omega
  have habs : 2 ^ 53 ≤ n.natAbs := by
    have h := Int.natAbs_of_nonneg (show 0 ≤ n by omega)
    have : ((2 ^ 53 : Nat) : Int) ≤ (n.natAbs : Int) := by
      rw [h]
      exact_mod_cast hn
    exact_mod_cast this
  have hr := roundNat_of_ge n.natAbs habs
  unfold toDouble
  simp only [hneg, if_false]
  split
  · exact Or.inl rfl
  · refine Or.inr ⟨_, rfl, ?_⟩
    exact_mod_cast hr

theorem toDouble_of_large_neg (n : Int) (hn : n ≤ -(2 ^ 53)) :
    toDouble n = JsNum.negInf ∨ ∃ m, toDouble n = JsNum.finite m ∧ m ≤ -(2 ^ 53) := by
  have hpos : (0 : Int) < 2 ^ 53 := by norm_num
  have hneg : n < 0 := by omega
  have habs : 2 ^ 53 ≤ n.natAbs := by
    have h := Int.ofNat_natAbs_of_nonpos (le_of_lt hneg)
    have : ((2 ^ 53 : Nat) : Int) ≤ (n.natAbs : Int) := by
      rw [h]
      push_cast
      omega
    exact_mod_cast this
  have hr := roundNat_of_ge n.natAbs habs
  unfold toDouble
  simp only [hneg, if_true]
  split
  · exact Or.inl rfl
  · refine Or.inr ⟨_, rfl, ?_⟩
    have : ((2 ^ 53 : Nat) : Int) ≤ ((roundNat n.natAbs : Nat) : Int) := by exact_mod_cast hr
    push_cast at this
    omega

/-- Between `2^53` and `2^2100` the search finds the exponent that leaves 53 bits. -/
theorem excessBits_spec (m : Nat) (hlo : 2 ^ 53 ≤ m) (hhi : m < 2 ^ 2100) :
    2 ^ 52 ≤ m / 2 ^ excessBits m ∧ m / 2 ^ excessBits m < 2 ^ 53 := by
  constructor
  · apply excessFrom_floor m 10 0
    simp only [pow_zero, Nat.div_one]
    calc 2 ^ 52 ≤ 2 ^ 53 := by norm_num
      _ ≤ m := hlo
  · apply excessFrom_ceil m 10 0
    rw [Nat.div_lt_iff_lt_mul (Nat.pow_pos (by decide))]
    calc m < 2 ^ 2100 := hhi
      _ = 2 ^ 52 * 2 ^ (0 + 2 ^ (10 + 1)) := by norm_num

/-- Sample roundings: the first integer a double cannot hold goes to its even neighbour, as do
ties in general; twenty digits keep about sixteen; `10^309` is beyond the finite doubles. -/
theorem toDouble_samples :
    toDouble 9007199254740993 = JsNum.finite 9007199254740992 ∧
    toDouble 9007199254740995 = JsNum.finite 9007199254740996 ∧
    toDouble (-9007199254740993) = JsNum.finite (-9007199254740992) ∧
    toDouble 12345678901234567890 = JsNum.finite 12345678901234567168 ∧
    toDouble ((10 ^ 309 : Nat) : Int) = JsNum.posInf ∧
    toDouble ((2 ^ 1024 - 2 ^ 970 - 1 : Nat) : Int)
      = JsNum.finite (((2 ^ 53 - 1) * 2 ^ 971 : Nat) : Int) ∧
    toDouble ((2 ^ 1024 - 2 ^ 970 : Nat) : Int) = JsNum.posInf := by
  decide

theorem JsNum.max_finite (a b : Int) :
    JsNum.max (JsNum.finite a) (JsNum.finite b) = JsNum.finite (Max.max a b) := rfl

theorem JsNum.min_finite (a b : Int) :
    JsNum.min (JsNum.finite a) (JsNum.finite b) = JsNum.finite (Min.min a b) := rfl

theorem JsNum.orElse_finite (n : Int) (b : JsNum) :
    (JsNum.finite n).orElse b = if n = 0 then b else JsNum.finite n := by
  by_cases h : n = 0
  · simp [JsNum.orElse, JsNum.truthy, h]
  · simp [JsNum.orElse, JsNum.truthy, h]

/-! ## Decimal strings read by `parseInt` -/

/-- Reading a non-empty string of decimal digits, with or without a minus sign. -/
theorem parseInt_digits (pre : List Char) (hne : pre ≠ [])
    (hall : ∀ ch ∈ pre, ∃ d, d < 10 ∧ ch = Nat.digitChar d) :
    parseInt (some (String.mk pre)) = toDouble ((digitsValue pre : Nat) : Int) ∧
    parseInt (some (String.mk ('-' :: pre))) = toDouble (-((digitsValue pre : Nat) : Int)) := by
  have hdig : ∀ ch ∈ pre, ch.isDigit = true := by
    intro ch hch
    obtain ⟨d, hd, rfl⟩ := hall ch hch
    exact (digitChar_facts d hd).1
  have htake : pre.takeWhile Char.isDigit = pre :=
    List.takeWhile_eq_self_iff.mpr hdig
  have hemp : pre.isEmpty = false := by
    cases pre with
    | nil => exact absurd rfl hne
    | cons _ _ => rfl
  constructor
  · cases hpre : pre with
    | nil => exact absurd hpre hne
    | cons ch tl =>
      obtain ⟨d, hd, hch⟩ := hall ch (by rw [hpre]; exact List.mem_cons_self _ _)
      obtain ⟨_, _, hws, hminus, hplus⟩ := digitChar_facts d hd
      rw [← hch] at hws hminus hplus
      rw [hpre] at htake hemp
      unfold parseInt
      simp only [Option.getD_some]
      rw [List.dropWhile_cons_of_neg (by simp [hws])]
      simp only [readSign, hminus, hplus, if_false, htake, hemp, Bool.false_eq_true]
  · unfold parseInt
    simp only [Option.getD_some]
    rw [List.dropWhile_cons_of_neg (by decide)]
    simp only [readSign, if_true, htake, hemp, Bool.false_eq_true, if_false]

/-- Reading the decimal string of an integer gives the Number value of the integer. -/
theorem parseInt_toString (n : Int) : parseInt (some (toString n)) = toDouble n := by
  cases n with
  | ofNat m =>
    obtain ⟨hne, hall, hval⟩ := natToString_digits m
    have h := (parseInt_digits (toString m).data hne hall).1
    rw [hval] at h
    exact h
  | negSucc m =>
    obtain ⟨hne, hall, hval⟩ := natToString_digits (m + 1)
    have h := (parseInt_digits (toString (m + 1)).data hne hall).2
    rw [hval] at h
    have hs : toString (Int.negSucc m) = String.mk ('-' :: (toString (m + 1)).data) := by
      show "-" ++ toString (m + 1) = _
      rfl
    rw [hs, h]
    rfl

/-! ## Claims about pagination -/

/-- For a positive divisor, `ceilDiv a b` is the ceiling of the quotient `a / b`. -/
theorem ceilDiv_eq_ceil_of_pos (a b : Int) (hb : 0 < b) :
    ceilDiv a b = ⌈(a : ℚ) / (b : ℚ)⌉ := by
  obtain ⟨d, rfl⟩ := Int.eq_ofNat_of_zero_le (le_of_lt hb)
  have h : ((-a : Int) : ℚ) / ((d : ℕ) : ℚ) = -((a : ℚ) / ((d : ℕ) : ℚ)) := by
    push_cast
    ring
  have hf := Rat.floor_intCast_div_natCast (-a) d
  rw [h, Int.floor_neg] at hf
  unfold ceilDiv
  push_cast
  omega

/-- The three numbers of `parsePagination`, as the source computes them. -/
theorem parsePagination_fields (query : Query) :
    (parsePagination query).page
      = JsNum.max (JsNum.finite 1) ((parseInt query.page).orElse (JsNum.finite 1)) ∧
    (parsePagination query).limit
      = JsNum.min (JsNum.finite 100)
          (JsNum.max (JsNum.finite 1) ((parseInt query.limit).orElse (JsNum.finite 10))) ∧
    (parsePagination query).offset
      = ((parsePagination query).page.sub (JsNum.finite 1)).mul (parsePagination query).limit :=
  ⟨rfl, rfl, rfl⟩

/-- The expression `Math.max(1, x || 1)` is an integer that is at least 1, or `Infinity`. -/
theorem page_form (x : JsNum) :
    (∃ p, JsNum.max (JsNum.finite 1) (x.orElse (JsNum.finite 1)) = JsNum.finite p ∧ 1 ≤ p) ∨
    JsNum.max (JsNum.finite 1) (x.orElse (JsNum.finite 1)) = JsNum.posInf := by
  cases x with
  | finite n =>
    left
    rw [JsNum.orElse_finite]
    by_cases h : n = 0
    · simp only [h, if_true]
      exact ⟨1, rfl, le_refl _⟩
    · simp only [h, if_false]
      exact ⟨Max.max 1 n, rfl, le_max_left _ _⟩
  | posInf => exact Or.inr rfl
  | negInf => exact Or.inl ⟨1, rfl, le_refl _⟩
  | nan => exact Or.inl ⟨1, rfl, le_refl _⟩

/-- The expression `Math.min(100, Math.max(1, x || 10))` is an integer from 1 to 100. -/
theorem limit_form (x : JsNum) :
    ∃ l, JsNum.min (JsNum.finite 100)
        (JsNum.max (JsNum.finite 1) (x.orElse (JsNum.finite 10))) = JsNum.finite l ∧
      1 ≤ l ∧ l ≤ 100 := by
  cases x with
  | finite n =>
    rw [JsNum.orElse_finite]
    by_cases h : n = 0
    · simp only [h, if_true]
      exact ⟨10, rfl, by decide, by decide⟩
    · simp only [h, if_false]
      exact ⟨Min.min 100 (Max.max 1 n), rfl, le_min (by decide) (le_max_left _ _),
        min_le_left _ _⟩
  | posInf => exact ⟨100, rfl, by decide, by decide⟩
  | negInf => exact ⟨1, rfl, by decide, by decide⟩
  | nan => exact ⟨10, rfl, by decide, by decide⟩

/-- The limit computed from the Number value of an integer `n`: the default for 0, else `n`
clamped to `[1, 100]`; rounding does not show, as 1 and 100 are far inside the exact range. -/
theorem limit_of_integer (n : Int) :
    JsNum.min (JsNum.finite 100)
        (JsNum.max (JsNum.finite 1) ((toDouble n).orElse (JsNum.finite 10)))
      = JsNum.finite (if n = 0 then 10 else Min.min 100 (Max.max 1 n)) := by
  have h53 : (2 : Int) ^ 53 = 9007199254740992 := by norm_num
  have h53n : (2 : Nat) ^ 53 = 9007199254740992 := by norm_num
  by_cases h0 : n = 0
  · subst h0
    decide
  · simp only [h0, if_false]
    by_cases hsmall : n.natAbs ≤ 2 ^ 53
    · rw [toDouble_of_natAbs_le n hsmall, JsNum.orElse_finite]
      simp only [h0, if_false]
      rfl
    · rcases le_or_lt 0 n with hpos | hneg
      · have hbig : (2 : Int) ^ 53 ≤ n := by omega
        rcases toDouble_of_large n hbig with h | ⟨m, h, hm⟩
        · rw [h]
          show JsNum.finite 100 = _
          congr 1
          omega
        · rw [h, JsNum.orElse_finite]
          have hm0 : m ≠ 0 := by omega
          simp only [hm0, if_false]
          show JsNum.finite (Min.min 100 (Max.max 1 m)) = _
          congr 1
          omega
      · have hbig : n ≤ -(2 : Int) ^ 53 := by omega
        rcases toDouble_of_large_neg n hbig with h | ⟨m, h, hm⟩
        · rw [h]
          show JsNum.finite 1 = _
          congr 1
          omega
        · rw [h, JsNum.orElse_finite]
          have hm0 : m ≠ 0 := by omega
          simp only [hm0, if_false]
          show JsNum.finite (Min.min 100 (Max.max 1 m)) = _
          congr 1
          omega

/-- The page computed from the Number value of an integer `p`: `max(1, p)` up to `2^53`, the
nearest double from there on. -/
theorem page_of_integer (p : Int) :
    (p ≤ 2 ^ 53 →
      JsNum.max (JsNum.finite 1) ((toDouble p).orElse (JsNum.finite 1))
        = JsNum.finite (Max.max 1 p)) ∧
    (2 ^ 53 ≤ p →
      JsNum.max (JsNum.finite 1) ((toDouble p).orElse (JsNum.finite 1)) = toDouble p) := by
  have h53 : (2 : Int) ^ 53 = 9007199254740992 := by norm_num
  have h53n : (2 : Nat) ^ 53 = 9007199254740992 := by norm_num
  constructor
  · intro hp
    by_cases hsmall : p.natAbs ≤ 2 ^ 53
    · rw [toDouble_of_natAbs_le p hsmall, JsNum.orElse_finite]
      by_cases h0 : p = 0
      · subst h0
        rfl
      · simp only [h0, if_false]
        rfl
    · have hbig : p ≤ -(2 : Int) ^ 53 := by omega
      rcases toDouble_of_large_neg p hbig with h | ⟨m, h, hm⟩
      · rw [h]
        show JsNum.finite 1 = _
        congr 1
        omega
      · rw [h, JsNum.orElse_finite]
        have hm0 : m ≠ 0 := by omega
        simp only [hm0, if_false]
        show JsNum.finite (Max.max 1 m) = _
        congr 1
        omega
  · intro hp
    rcases toDouble_of_large p hp with h | ⟨m, h, hm⟩
    · rw [h]
      rfl
    · rw [h, JsNum.orElse_finite]
      have hm0 : m ≠ 0 := by omega
      simp only [hm0, if_false]
      show JsNum.finite (Max.max 1 m) = _
      congr 1
      omega

/-- The offset is exact as long as the product `(page - 1) * limit` stays within `2^53`. -/
theorem offset_exact (p l : Int) (hp : 1 ≤ p) (hl : 1 ≤ l) (hprod : (p - 1) * l ≤ 2 ^ 53) :
    ((JsNum.finite p).sub (JsNum.finite 1)).mul (JsNum.finite l)
      = JsNum.finite ((p - 1) * l) := by
  have hle : p - 1 ≤ (p - 1) * l := le_mul_of_one_le_right (by omega) hl
  have h1 : (p - 1).natAbs ≤ 2 ^ 53 := by
    have : ((p - 1).natAbs : Int) ≤ ((2 ^ 53 : Nat) : Int) := by
      rw [Int.natAbs_of_nonneg (by omega)]
      push_cast
      omega
    exact_mod_cast this
  have h2 : ((p - 1) * l).natAbs ≤ 2 ^ 53 := by
    have : (((p - 1) * l).natAbs : Int) ≤ ((2 ^ 53 : Nat) : Int) := by
      rw [Int.natAbs_of_nonneg (by omega)]
      push_cast
      omega
    exact_mod_cast this
  show (toDouble (p - 1)).mul (JsNum.finite l) = _
  rw [toDouble_of_natAbs_le _ h1]
  show toDouble ((p - 1) * l) = _
  exact toDouble_of_natAbs_le _ h2

/-- The offset is an integer that is at least 0, or `Infinity`; and it is at least `2^53` as
soon as the exact product `(page - 1) * limit` is. -/
theorem offset_form (p l : Int) (hp : 1 ≤ p) (hl : 1 ≤ l) :
    (((JsNum.finite p).sub (JsNum.finite 1)).mul (JsNum.finite l) = JsNum.posInf ∨
      ∃ o, ((JsNum.finite p).sub (JsNum.finite 1)).mul (JsNum.finite l) = JsNum.finite o ∧
        0 ≤ o) ∧
    (2 ^ 53 ≤ (p - 1) * l →
      ((JsNum.finite p).sub (JsNum.finite 1)).mul (JsNum.finite l) = JsNum.posInf ∨
      ∃ o, ((JsNum.finite p).sub (JsNum.finite 1)).mul (JsNum.finite l) = JsNum.finite o ∧
        2 ^ 53 ≤ o) := by
  have h53 : (2 : Int) ^ 53 = 9007199254740992 := by norm_num
  have hl0 : l ≠ 0 := by omega
  have hinf : JsNum.posInf.mul (JsNum.finite l) = JsNum.posInf := by
    show JsNum.infTimes true l = JsNum.posInf
    have hlpos : decide (0 < l) = true := by
      rw [decide_eq_true_iff]
      omega
    simp [JsNum.infTimes, hl0, hlpos]
  have hsub : (JsNum.finite p).sub (JsNum.finite 1) = toDouble (p - 1) := rfl
  constructor
  · rw [hsub]
    rcases toDouble_of_nonneg (p - 1) (by omega) with h | ⟨a, h, ha⟩
    · rw [h, hinf]
      exact Or.inl rfl
    · rw [h]
      show toDouble (a * l) = JsNum.posInf ∨ ∃ o, toDouble (a * l) = JsNum.finite o ∧ 0 ≤ o
      exact toDouble_of_nonneg _ (mul_nonneg ha (by omega))
  · intro hbig
    rw [hsub]
    by_cases hsmall : (p - 1).natAbs ≤ 2 ^ 53
    · rw [toDouble_of_natAbs_le _ hsmall]
      show toDouble ((p - 1) * l) = JsNum.posInf ∨
        ∃ o, toDouble ((p - 1) * l) = JsNum.finite o ∧ 2 ^ 53 ≤ o
      exact toDouble_of_large _ hbig
    · have hp53 : (2 : Int) ^ 53 ≤ p - 1 := by
        have h53n : (2 : Nat) ^ 53 = 9007199254740992 := by norm_num
        omega
      rcases toDouble_of_large (p - 1) hp53 with h | ⟨a, h, ha⟩
      · rw [h, hinf]
        exact Or.inl rfl
      · rw [h]
        show toDouble (a * l) = JsNum.posInf ∨
          ∃ o, toDouble (a * l) = JsNum.finite o ∧ 2 ^ 53 ≤ o
        apply toDouble_of_large
        have : a ≤ a * l := le_mul_of_one_le_right (by omega) hl
        omega

/-- C18 (the claim fails here). A limit of `0`, the decimal string of the integer 0, is
answered with the default 10 and not with 0 clamped to `[1, 100]`, which is 1. -/
theorem parsePagination_limit_zero :
    (parsePagination { limit := some (toString (0 : Int)) }).limit = JsNum.finite 10 ∧
    Min.min 100 (Max.max 1 (0 : Int)) = 1 ∧
    (parsePagination { limit := some (toString (0 : Int)) }).limit
      ≠ JsNum.finite (Min.min 100 (Max.max 1 (0 : Int))) := by
  decide

/-- A page beyond `2^53` is not returned as it was written: `parseInt` yields a double, and
9007199254740993 is not one. -/
theorem parsePagination_page_rounded :
    (parsePagination { page := some (toString (9007199254740993 : Int)) }).page
      = JsNum.finite 9007199254740992 ∧
    Max.max 1 (9007199254740993 : Int) = 9007199254740993 ∧
    (parsePagination { page := some (toString (9007199254740993 : Int)) }).page
      ≠ JsNum.finite (Max.max 1 (9007199254740993 : Int)) := by
  decide

/-- C18 (as amended). When the limit parameter is the decimal string of an integer `n`,
`parsePagination` returns `min(100, max(1, n))` for `n ≠ 0` and the default 10 for `n = 0`;
when the page parameter is the decimal string of an integer `p` it returns `max(1, p)` for
`p ≤ 2^53` and the Number value of `p` (the nearest double, `Infinity` from about
`1.8 * 10^308` on) for larger `p`. -/
theorem parsePagination_decimal (query : Query) :
    (∀ n : Int, query.limit = some (toString n) →
      (parsePagination query).limit
        = JsNum.finite (if n = 0 then 10 else Min.min 100 (Max.max 1 n))) ∧
    (∀ p : Int, query.page = some (toString p) →
      (p ≤ 2 ^ 53 → (parsePagination query).page = JsNum.finite (Max.max 1 p)) ∧
      (2 ^ 53 ≤ p → (parsePagination query).page = toDouble p)) := by
  obtain ⟨hpage, hlimit, _⟩ := parsePagination_fields query
  constructor
  · intro n hn
    rw [hlimit, hn, parseInt_toString]
    exact limit_of_integer n
  · intro p hp
    rw [hpage, hp, parseInt_toString]
    exact page_of_integer p

theorem parsePagination_decimal_witness :
    (parsePagination { limit := some "250", page := some "-4" }).limit
      = JsNum.finite (if (250 : Int) = 0 then 10 else Min.min 100 (Max.max 1 250)) ∧
    (parsePagination { limit := some "250", page := some "-4" }).page
      = JsNum.finite (Max.max 1 (-4)) :=
  ⟨(parsePagination_decimal { limit := some "250", page := some "-4" }).1 250 (by decide),
   ((parsePagination_decimal { limit := some "250", page := some "-4" }).2 (-4)
      (by decide)).1 (by decide)⟩

set_option maxRecDepth 20000 in
/-- C19 (the claim fails here). A page of 310 digits is returned as `Infinity`, with the offset
`Infinity`: neither is an integer. And for the page 9007199254740994 with limit 3 the offset
returned is 27021597764222976, while `(page - 1) * limit` is 27021597764222979: the
difference `page - 1` is not a double and is rounded before it is multiplied. -/
theorem parsePagination_beyond_doubles :
    (parsePagination { page := some (String.mk ('1' :: List.replicate 309 '0')) }).page
      = JsNum.posInf ∧
    (parsePagination { page := some (String.mk ('1' :: List.replicate 309 '0')) }).offset
      = JsNum.posInf ∧
    (parsePagination { page := some "9007199254740994", limit := some "3" }).page
      = JsNum.finite 9007199254740994 ∧
    (parsePagination { page := some "9007199254740994", limit := some "3" }).limit
      = JsNum.finite 3 ∧
    (parsePagination { page := some "9007199254740994", limit := some "3" }).offset
      = JsNum.finite 27021597764222976 ∧
    ((9007199254740994 : Int) - 1) * 3 = 27021597764222979 := by
  decide

/-- C19 (as amended). For every query, `parsePagination` returns a limit that is an integer
with `1 ≤ limit ≤ 100`, a page that is an integer with `page ≥ 1` or is `Infinity`, and an
offset that is an integer with `offset ≥ 0` or is `Infinity`; whenever the page is an integer
and `(page - 1) * limit` is at most `2^53` the offset is exactly that product; the page is 1
and the limit is 10 when the parameter is missing or `parseInt` finds no number in it. -/
theorem parsePagination_bounds (query : Query) :
    ((∃ p, (parsePagination query).page = JsNum.finite p ∧ 1 ≤ p) ∨
      (parsePagination query).page = JsNum.posInf) ∧
    (∃ l, (parsePagination query).limit = JsNum.finite l ∧ 1 ≤ l ∧ l ≤ 100) ∧
    ((∃ o, (parsePagination query).offset = JsNum.finite o ∧ 0 ≤ o) ∨
      (parsePagination query).offset = JsNum.posInf) ∧
    (∀ p l, (parsePagination query).page = JsNum.finite p →
      (parsePagination query).limit = JsNum.finite l → (p - 1) * l ≤ 2 ^ 53 →
      (parsePagination query).offset = JsNum.finite ((p - 1) * l)) ∧
    (query.page = none ∨ parseInt query.page = JsNum.nan →
      (parsePagination query).page = JsNum.finite 1) ∧
    (query.limit = none ∨ parseInt query.limit = JsNum.nan →
      (parsePagination query).limit = JsNum.finite 10) := by
  obtain ⟨hpage, hlimit, hoffset⟩ := parsePagination_fields query
  have hnone : parseInt none = JsNum.nan := by decide
  have hpf := page_form (parseInt query.page)
  rw [← hpage] at hpf
  obtain ⟨l, hl, hl1, hl100⟩ := limit_form (parseInt query.limit)
  rw [← hlimit] at hl
  refine ⟨hpf, ⟨l, hl, hl1, hl100⟩, ?_, ?_, ?_, ?_⟩
  · rw [hoffset, hl]
    rcases hpf with ⟨p, hp, hp1⟩ | hinf
    · rw [hp]
      rcases (offset_form p l hp1 hl1).1 with h | h
      · exact Or.inr h
      · exact Or.inl h
    · rw [hinf]
      right
      show JsNum.infTimes true l = JsNum.posInf
      have hl0 : l ≠ 0 := by omega
      have hlpos : decide (0 < l) = true := by
        rw [decide_eq_true_iff]
        omega
      simp [JsNum.infTimes, hl0, hlpos]
  · intro p l2 hp hl2 hprod
    have hll : l2 = l := by
      rw [hl] at hl2
      exact (JsNum.finite.inj hl2).symm
    subst hll
    have hp1 : 1 ≤ p := by
      rcases hpf with ⟨p2, hp2, hp21⟩ | hinf
      · rw [hp] at hp2
        rw [JsNum.finite.inj hp2]
        exact hp21
      · rw [hp] at hinf
        cases hinf
    rw [hoffset, hp, hl]
    exact offset_exact p l2 hp1 hl1 hprod
  · intro h
    have hp : parseInt query.page = JsNum.nan := by
      rcases h with h | h
      · rw [h]; exact hnone
      · exact h
    rw [hpage, hp]
    rfl
  · intro h
    have hp : parseInt query.limit = JsNum.nan := by
      rcases h with h | h
      · rw [h]; exact hnone
      · exact h
    rw [hlimit, hp]
    rfl

theorem parsePagination_bounds_witness :
    (parsePagination { page := some "3", limit := some "20" }).offset = JsNum.finite 40 :=
  (parsePagination_bounds { page := some "3", limit := some "20" }).2.2.2.1 3 20
    (by decide) (by decide) (by decide)

/-- C20. For `limit ≥ 1` (and every total and page, in particular `total ≥ 0` and
`page ≥ 1`), `buildPaginationMeta` returns page, limit and total unchanged,
`totalPages = ceil(total / limit)`, which is 0 when `total = 0`, `hasNext = (page < totalPages)`
and `hasPrev = (page > 1)`. -/
theorem buildPaginationMeta_spec (total page limit : Int) (hlimit : 1 ≤ limit) :
    (buildPaginationMeta total page limit).page = page ∧
    (buildPaginationMeta total page limit).limit = limit ∧
    (buildPaginationMeta total page limit).total = total ∧
    (buildPaginationMeta total page limit).totalPages = ⌈(total : ℚ) / (limit : ℚ)⌉ ∧
    (total = 0 → (buildPaginationMeta total page limit).totalPages = 0) ∧
    (buildPaginationMeta total page limit).hasNext
      = decide (page < ⌈(total : ℚ) / (limit : ℚ)⌉) ∧
    (buildPaginationMeta total page limit).hasPrev = decide (page > 1) := by
  have hc := ceilDiv_eq_ceil_of_pos total limit (by omega)
  refine ⟨rfl, rfl, rfl, hc, ?_, ?_, rfl⟩
  · intro h0
    show ceilDiv total limit = 0
    rw [h0]
    simp [ceilDiv]
  · show decide (page < ceilDiv total limit) = _
    rw [hc]

theorem buildPaginationMeta_spec_witness :
    (buildPaginationMeta 21 2 10).totalPages = ⌈((21 : Int) : ℚ) / ((10 : Int) : ℚ)⌉ :=
  (buildPaginationMeta_spec 21 2 10 (by decide)).2.2.2.1

/-! ## Claims about the correlation id -/

/-- A stage that settles without a value leaves the step without a value. -/
theorem dispatch_of_returned_none (stage : Stage) (next : Next) (c c1 : Context)
    (h : stage next c = (c1, Completion.returned none)) :
    dispatch stage next c = (c1, Completion.returned none) := by
  unfold dispatch
  simp only [h]

/-- A failure raised by a stage is answered by the default `onError` handler, whose response
is installed, and the step resolves. -/
theorem dispatch_of_threw (stage : Stage) (next : Next) (c c1 : Context) (err : JsError)
    (h : stage next c = (c1, Completion.threw err)) :
    dispatch stage next c = (c1.install (defaultOnError err c1), Completion.returned none) := by
  unfold dispatch
  simp only [h]

/-- A response returned by a stage is installed when the context is not finalized. -/
theorem dispatch_of_returned_some (stage : Stage) (next : Next) (c c1 : Context)
    (r : Response) (h : stage next c = (c1, Completion.returned (some r)))
    (hres : c1.res = none) :
    dispatch stage next c = (c1.install r, Completion.returned none) := by
  unfold dispatch
  simp only [h, hres, Option.isSome_none, Bool.false_eq_true, if_false]

/-- A step of the chain never rejects: whatever the stage does, `next()` resolves. -/
theorem dispatch_settles (stage : Stage) (next : Next) (c : Context) :
    (dispatch stage next c).2 = Completion.returned none := by
  unfold dispatch
  cases h : stage next c with
  | mk c1 done =>
    cases done with
    | returned r =>
      cases r with
      | none => rfl
      | some r => rfl
    | threw err => rfl

/-- When the rest of the chain settles without raising, the stage has stored the id before
calling it and writes the id to the `X-Request-ID` header afterwards. -/
theorem requestId_of_returned (uuid : String) (next : Next) (c c2 : Context)
    (r : Option Response)
    (h : next (c.set "requestId" (JsVal.str (orStr (c.header "X-Request-ID") uuid)))
      = (c2, Completion.returned r)) :
    requestId uuid next c
      = (c2.setResHeader "X-Request-ID" (orStr (c.header "X-Request-ID") uuid),
          Completion.returned none) := by
  unfold requestId
  simp only [h]

/-- When `next()` rejects, the stage is left through the exception and the header is not
written. Inside a chain this does not happen, see `dispatch_settles`. -/
theorem requestId_of_threw (uuid : String) (next : Next) (c c2 : Context) (err : JsError)
    (h : next (c.set "requestId" (JsVal.str (orStr (c.header "X-Request-ID") uuid)))
      = (c2, Completion.threw err)) :
    requestId uuid next c = (c2, Completion.threw err) := by
  unfold requestId
  simp only [h]

/-- In a chain, the correlation-id stage runs the rest of the chain on the context that holds
the id and then writes the header. -/
theorem requestId_in_chain (uuid : String) (stage : Stage) (rest : Next) (c : Context) :
    requestId uuid (dispatch stage rest) c
      = ((dispatch stage rest
            (c.set "requestId" (JsVal.str (orStr (c.header "X-Request-ID") uuid)))).1.setResHeader
          "X-Request-ID" (orStr (c.header "X-Request-ID") uuid),
          Completion.returned none) := by
  have hs := dispatch_settles stage rest
    (c.set "requestId" (JsVal.str (orStr (c.header "X-Request-ID") uuid)))
  exact requestId_of_returned uuid _ c _ none (Prod.ext rfl hs)

/-- The chain of `app.js` around a further stage: the error boundary sees `next()` resolve and
the outcome is that of the correlation-id stage. -/
theorem tracedChain_in_chain (env : Env) (uuid : String) (stage : Stage) (rest : Next)
    (c : Context) :
    tracedChain env uuid (dispatch stage rest) c
      = ((dispatch stage rest
            (c.set "requestId" (JsVal.str (orStr (c.header "X-Request-ID") uuid)))).1.setResHeader
          "X-Request-ID" (orStr (c.header "X-Request-ID") uuid),
          Completion.returned none) := by
  have h1 := dispatch_of_returned_none (requestId uuid) (dispatch stage rest) c _
    (requestId_in_chain uuid stage rest c)
  have h2 : errorHandler env (dispatch (requestId uuid) (dispatch stage rest)) c
      = ((dispatch stage rest
            (c.set "requestId" (JsVal.str (orStr (c.header "X-Request-ID") uuid)))).1.setResHeader
          "X-Request-ID" (orStr (c.header "X-Request-ID") uuid),
          Completion.returned none) := by
    unfold errorHandler
    simp only [h1]
  exact dispatch_of_returned_none (errorHandler env) _ c _ h2

/-- The final response carries the headers written on `c.res`. -/
theorem finalResponse_header (c : Context) (name value : String) (res : Response)
    (h : finalResponse (c.setResHeader name value) = some res) :
    res.headers.get name = some value := by
  unfold finalResponse Context.setResHeader at h
  cases hres : c.res with
  | none =>
    simp [hres] at h
  | some sb =>
    simp only [hres, Option.map_some', Option.some.injEq] at h
    rw [← h]
    exact Headers.get_set_name _ _ _

/-- The final response after a header was written: status and body of the installed one. -/
theorem finalResponse_setResHeader (c : Context) (name value : String) :
    finalResponse (c.setResHeader name value)
      = (finalResponse c).map (fun res =>
          { res with headers := Headers.set c.resHeaders name value }) := by
  unfold finalResponse Context.setResHeader
  cases c.res with
  | none => rfl
  | some sb => rfl

/-- C11. With the chain error boundary, correlation-id stage, downstream (any further stage in
front of any rest of the chain), every request ends with the chain settled and every final
response carries the header `X-Request-ID` equal to the id the correlation-id stage stored on
the context handed downstream. This covers the ways a response is produced: a response the
downstream stage returns on a context that is not finalized (a handler that answers, a stage
that short-circuits with a Failure envelope) is the final response, with the header; a failure
the downstream stage raises is answered by the `onError` handler of the app (the default one,
since `compose` does not let the failure reach the `catch` of the boundary), and that response
is the final one, with the header. -/
theorem tracedChain_header (env : Env) (uuid : String) (stage : Stage) (rest : Next)
    (c : Context) :
    ∃ out, tracedChain env uuid (dispatch stage rest) c = (out, Completion.returned none) ∧
      (c.set "requestId" (JsVal.str (orStr (c.header "X-Request-ID") uuid))).get "requestId"
        = JsVal.str (orStr (c.header "X-Request-ID") uuid) ∧
      out.resHeaders.get "X-Request-ID" = some (orStr (c.header "X-Request-ID") uuid) ∧
      (∀ res, finalResponse out = some res →
        res.headers.get "X-Request-ID" = some (orStr (c.header "X-Request-ID") uuid)) ∧
      (∀ c1 r,
        stage rest (c.set "requestId" (JsVal.str (orStr (c.header "X-Request-ID") uuid)))
          = (c1, Completion.returned (some r)) → c1.res = none →
        ∃ res, finalResponse out = some res ∧ res.status = r.status ∧ res.body = r.body ∧
          res.headers.get "X-Request-ID" = some (orStr (c.header "X-Request-ID") uuid)) ∧
      (∀ c1 err,
        stage rest (c.set "requestId" (JsVal.str (orStr (c.header "X-Request-ID") uuid)))
          = (c1, Completion.threw err) →
        ∃ res, finalResponse out = some res ∧
          res.status = (defaultOnError err c1).status ∧
          res.body = (defaultOnError err c1).body ∧
          res.headers.get "X-Request-ID" = some (orStr (c.header "X-Request-ID") uuid)) := by
  refine ⟨_, tracedChain_in_chain env uuid stage rest c, Context.get_set_var _ _ _,
    Headers.get_set_name _ _ _, ?_, ?_, ?_⟩
  · intro res hres
    exact finalResponse_header _ _ _ res hres
  · intro c1 r hstage hfresh
    rw [dispatch_of_returned_some stage rest _ c1 r hstage hfresh]
    refine ⟨_, rfl, rfl, rfl, ?_⟩
    exact Headers.get_set_name _ _ _
  · intro c1 err hstage
    rw [dispatch_of_threw stage rest _ c1 err hstage]
    refine ⟨_, rfl, rfl, rfl, ?_⟩
    exact Headers.get_set_name _ _ _

theorem tracedChain_header_witness :
    ∃ res, finalResponse (tracedChain sampleEnv "3f8a"
        (dispatch (handlerStage notFoundHandler) sampleNext) {}).1 = some res ∧
      res.status = 500 ∧
      res.body = JsVal.str "Internal Server Error" ∧
      res.headers.get "X-Request-ID" = some "3f8a" := by
  obtain ⟨out, hout, _, _, _, _, hthrew⟩ :=
    tracedChain_header sampleEnv "3f8a" (handlerStage notFoundHandler) sampleNext {}
  obtain ⟨res, hres, hstatus, hbody, hheader⟩ := hthrew _ _ rfl
  rw [hout]
  exact ⟨res, hres, hstatus, hbody, hheader⟩

/-- The three ways of C11 on examples: a handler that answers, a validation stage that
short-circuits with a 400 envelope, and a handler that raises the NOT_FOUND failure of an
unknown user id. Each final response has the header; the last one is the 500 text of the
default `onError` handler, not a 404 envelope of the error boundary. -/
theorem tracedChain_examples :
    (∃ out, tracedChain sampleEnv "3f8a" (dispatch (handlerStage deletedHandler) sampleNext) {}
        = (out, Completion.returned none) ∧
      out.get "requestId" = JsVal.str "3f8a" ∧
      (finalResponse out).map (fun res => res.status) = some 200 ∧
      (finalResponse out).map (fun res => res.headers.get "X-Request-ID")
        = some (some "3f8a")) ∧
    (∃ out, tracedChain sampleEnv "3f8a"
        (dispatch (validateStage { params := some idParamSchema })
          (dispatch (handlerStage deletedHandler) sampleNext))
        { params := [("id", "abc")] } = (out, Completion.returned none) ∧
      (finalResponse out).map (fun res => res.status) = some 400 ∧
      (finalResponse out).map (fun res => res.headers.get "X-Request-ID")
        = some (some "3f8a")) ∧
    (∃ out, tracedChain sampleEnv "3f8a" (dispatch (handlerStage notFoundHandler) sampleNext) {}
        = (out, Completion.returned none) ∧
      out.get "requestId" = JsVal.str "3f8a" ∧
      (finalResponse out).map (fun res => res.status) = some 500 ∧
      (finalResponse out).map (fun res => res.body)
        = some (JsVal.str "Internal Server Error") ∧
      (finalResponse out).map (fun res => res.headers.get "X-Request-ID")
        = some (some "3f8a")) :=
  ⟨⟨_, rfl, rfl, rfl, rfl⟩, ⟨_, rfl, rfl, rfl⟩, ⟨_, rfl, rfl, rfl, rfl, rfl⟩⟩

/-- C12. For a request whose inbound `X-Request-ID` header is present and not empty, the
correlation-id stage stores exactly that value on the context it hands to the next stage and,
the next stage of a chain always settling, writes it to the response header `X-Request-ID`;
for a request without the header, or with an empty one, it does the same with the identifier
`uuidv4()` yields (which is not empty whenever the library returns a non-empty one). The same
holds for a direct call with any `next` that settles without raising. -/
theorem requestId_echo (uuid : String) (stage : Stage) (rest : Next) (c : Context) :
    (∀ h : String, c.header "X-Request-ID" = some h → h ≠ "" →
      (c.set "requestId" (JsVal.str h)).get "requestId" = JsVal.str h ∧
      requestId uuid (dispatch stage rest) c
        = ((dispatch stage rest (c.set "requestId" (JsVal.str h))).1.setResHeader
            "X-Request-ID" h, Completion.returned none) ∧
      (requestId uuid (dispatch stage rest) c).1.resHeaders.get "X-Request-ID" = some h ∧
      (∀ (next : Next) (c2 : Context) (r : Option Response),
        next (c.set "requestId" (JsVal.str h)) = (c2, Completion.returned r) →
        requestId uuid next c = (c2.setResHeader "X-Request-ID" h, Completion.returned none))) ∧
    ((c.header "X-Request-ID" = none ∨ c.header "X-Request-ID" = some "") →
      (c.set "requestId" (JsVal.str uuid)).get "requestId" = JsVal.str uuid ∧
      requestId uuid (dispatch stage rest) c
        = ((dispatch stage rest (c.set "requestId" (JsVal.str uuid))).1.setResHeader
            "X-Request-ID" uuid, Completion.returned none) ∧
      (requestId uuid (dispatch stage rest) c).1.resHeaders.get "X-Request-ID" = some uuid ∧
      (uuid ≠ "" → orStr (c.header "X-Request-ID") uuid ≠ "") ∧
      (∀ (next : Next) (c2 : Context) (r : Option Response),
        next (c.set "requestId" (JsVal.str uuid)) = (c2, Completion.returned r) →
        requestId uuid next c
          = (c2.setResHeader "X-Request-ID" uuid, Completion.returned none))) := by
  have hchain := requestId_in_chain uuid stage rest c
  constructor
  · intro h hh hne
    have hid : orStr (c.header "X-Request-ID") uuid = h := by
      simp [orStr, hh, hne]
    rw [hid] at hchain
    refine ⟨Context.get_set_var _ _ _, hchain, ?_, ?_⟩
    · rw [hchain]
      exact Headers.get_set_name _ _ _
    · intro next c2 r hnext
      have := requestId_of_returned uuid next c c2 r (by rw [hid]; exact hnext)
      rw [hid] at this
      exact this
  · intro hh
    have hid : orStr (c.header "X-Request-ID") uuid = uuid := by
      rcases hh with hh | hh
      · simp [orStr, hh]
      · simp [orStr, hh]
    rw [hid] at hchain
    refine ⟨Context.get_set_var _ _ _, hchain, ?_, ?_, ?_⟩
    · rw [hchain]
      exact Headers.get_set_name _ _ _
    · intro hu
      rw [hid]
      exact hu
    · intro next c2 r hnext
      have := requestId_of_returned uuid next c c2 r (by rw [hid]; exact hnext)
      rw [hid] at this
      exact this

theorem requestId_echo_witness :
    (requestId "3f8a" (dispatch (handlerStage notFoundHandler) sampleNext)
      { reqHeaders := [("X-Request-ID", "abc")] }).1.resHeaders.get "X-Request-ID"
      = some "abc" :=
  ((requestId_echo "3f8a" (handlerStage notFoundHandler) sampleNext
    { reqHeaders := [("X-Request-ID", "abc")] }).1 "abc" rfl (by decide)).2.2.1

/-! ## Claims about validation -/

/-- The body, status and headers of what the helper `error` builds. -/
theorem error_response (c : Context) (message code : String) (status : Int) (details : JsVal) :
    (error c message code status details).status = status ∧
    FailureShape (error c message code status details).body message code ∧
    errorDetails (error c message code status details).body
      = (if details.truthy then some details else none) := by
  cases hd : details.truthy <;>
    simp [FailureShape, errorDetails, error, Context.json, JsVal.field, JsVal.hasField,
      JsVal.lookup, JsVal.assign, hd]

/-- One block of the middleware appends the entries of the section and stores its data. -/
theorem validateSection_eq (part key : String) (schema : Option Schema) (input : JsVal)
    (state : Context × List JsVal) :
    validateSection part key schema input state
      = (storeParsed key schema input state.1, state.2 ++ failedEntries part schema input) := by
  unfold validateSection storeParsed failedEntries
  cases schema with
  | none => simp
  | some sch =>
    cases h : sch input with
    | success data => simp [h]
    | failure first rest => simp [h]

theorem failedEntries_ne_nil_iff (part : String) (schema : Option Schema) (input : JsVal) :
    failedEntries part schema input ≠ [] ↔ sectionFails schema input := by
  unfold failedEntries sectionFails
  cases schema with
  | none => simp
  | some sch =>
    cases h : sch input with
    | success data => simp [h]
    | failure first rest => simp [h, issueEntries]

theorem storeParsed_get_key (key : String) (schema : Option Schema) (input data : JsVal)
    (c : Context) (h : sectionPasses schema input data) :
    (storeParsed key schema input c).get key = data := by
  obtain ⟨sch, hs, hp⟩ := h
  unfold storeParsed
  rw [hs]
  simp only [hp]
  exact Context.get_set_var _ _ _

theorem storeParsed_get_other_key (key other : String) (schema : Option Schema)
    (input : JsVal) (c : Context) (hne : other ≠ key) :
    (storeParsed key schema input c).get other = c.get other := by
  unfold storeParsed
  cases schema with
  | none => rfl
  | some sch =>
    cases h : sch input with
    | success data =>
      simp only [h]
      exact Context.get_set_other_var _ _ _ _ hne
    | failure first rest => simp only [h]

/-- The state in which the middleware reaches `if (errors.length > 0)`. -/
theorem validate_state (schemas : Schemas) (c : Context) :
    validateSection "params" "validatedParams" schemas.params (recordObject c.params)
      (validateSection "query" "validatedQuery" schemas.query (recordObject c.query)
        (validateSection "body" "validatedBody" schemas.body (bodyInput c) (c, [])))
      = (validatedContext schemas c, validationEntries schemas c) := by
  simp only [validateSection_eq, validatedContext, validationEntries, List.nil_append]

/-- With at least one entry the middleware answers without calling `next()`. -/
theorem validate_of_entries (schemas : Schemas) (next : Next) (c : Context)
    (h : validationEntries schemas c ≠ []) :
    validate schemas next c =
      { ctx := validatedContext schemas c, forwarded := none,
        completion := Completion.returned (some
          (validationError (validatedContext schemas c)
            (JsVal.arr (validationEntries schemas c)))) } := by
  unfold validate
  simp only [validate_state]
  have hlen : (validationEntries schemas c).length > 0 := List.length_pos.mpr h
  simp only [hlen, if_true]

/-- Without entries the middleware calls `next()` on the context holding the parsed data. -/
theorem validate_of_no_entries (schemas : Schemas) (next : Next) (c : Context)
    (h : validationEntries schemas c = []) :
    (validate schemas next c).forwarded = some (validatedContext schemas c) := by
  unfold validate
  simp only [validate_state, h, List.length_nil, gt_iff_lt, lt_self_iff_false, if_false]
  split
  · rfl
  · split <;> rfl

/-- C13. The validation stage parses every section that has a schema (body, then query, then
path parameters) and collects the entries of all failing sections, one per issue with
`field = "<section>." ++ path.join(".")` and the message of the issue. It answers status 400
with code VALIDATION_ERROR without calling the handler exactly when at least one section
fails, and `error.details` is then the concatenation of the entries in that order; when no
section fails it calls the handler on a context that holds the parsed value of every section
under `validatedBody`, `validatedQuery`, `validatedParams`. -/
theorem validate_sections (schemas : Schemas) (next : Next) (c : Context) :
    (validationEntries schemas c ≠ [] ↔
      (sectionFails schemas.body (bodyInput c) ∨
        sectionFails schemas.query (recordObject c.query) ∨
        sectionFails schemas.params (recordObject c.params))) ∧
    (validationEntries schemas c ≠ [] →
      (validate schemas next c).forwarded = none ∧
      ∃ res, (validate schemas next c).completion = Completion.returned (some res) ∧
        res.status = 400 ∧
        FailureShape res.body "Validation failed" "VALIDATION_ERROR" ∧
        errorDetails res.body = some (JsVal.arr (validationEntries schemas c))) ∧
    (validationEntries schemas c = [] →
      ∃ c1, (validate schemas next c).forwarded = some c1 ∧
        (∀ data, sectionPasses schemas.body (bodyInput c) data →
          c1.get "validatedBody" = data) ∧
        (∀ data, sectionPasses schemas.query (recordObject c.query) data →
          c1.get "validatedQuery" = data) ∧
        (∀ data, sectionPasses schemas.params (recordObject c.params) data →
          c1.get "validatedParams" = data)) := by
  refine ⟨?_, ?_, ?_⟩
  · unfold validationEntries
    rw [← failedEntries_ne_nil_iff "body", ← failedEntries_ne_nil_iff "query",
      ← failedEntries_ne_nil_iff "params"]
    simp only [ne_eq, List.append_eq_nil, not_and_or, or_assoc]
  · intro h
    rw [validate_of_entries schemas next c h]
    refine ⟨rfl, _, rfl, ?_⟩
    obtain ⟨hst, hshape, hdet⟩ := error_response (validatedContext schemas c)
      "Validation failed" "VALIDATION_ERROR" 400 (JsVal.arr (validationEntries schemas c))
    exact ⟨hst, hshape, by simpa [JsVal.truthy] using hdet⟩
  · intro h
    refine ⟨_, validate_of_no_entries schemas next c h, ?_, ?_, ?_⟩
    · intro data hp
      unfold validatedContext
      rw [storeParsed_get_other_key _ _ _ _ _ (by decide),
        storeParsed_get_other_key _ _ _ _ _ (by decide)]
      exact storeParsed_get_key _ _ _ _ _ hp
    · intro data hp
      unfold validatedContext
      rw [storeParsed_get_other_key _ _ _ _ _ (by decide)]
      exact storeParsed_get_key _ _ _ _ _ hp
    · intro data hp
      unfold validatedContext
      exact storeParsed_get_key _ _ _ _ _ hp

/-- C14 (the code at the failing input). A body that is not JSON makes `c.req.json()` reject,
and the `.catch(() => ({}))` on that call turns it into the empty object before the schema
sees it. With `updateUserSchema`, whose properties are all optional, the empty object parses:
no 400 is returned, the handler is called, and `validatedBody` is `{}`. -/
theorem validate_unparsable_body_reaches_handler (check : String → JsVal → List ZodIssue)
    (next : Next) :
    (validate { body := some (updateUserSchema check) } next { reqJson := none }).forwarded
      = some (({ reqJson := none } : Context).set "validatedBody" (JsVal.obj [])) ∧
    (validate { body := some (updateUserSchema check) } deletedHandler
      { reqJson := none }).completion = Completion.returned none :=
  ⟨by
    unfold validate
    simp only [validateSection, bodyInput, updateUserSchema, Option.getD_none, JsVal.lookup,
      List.filterMap_cons, List.filterMap_nil, List.flatMap_nil, List.length_nil, gt_iff_lt,
      lt_self_iff_false, if_false]
    split
    · rfl
    · split <;> rfl,
   rfl⟩

/-- The entries and the stored data of a route guarded by `validate({ params: idParamSchema })`. -/
theorem idParam_entries (c : Context) (id : String) (hparams : c.params = [("id", id)]) :
    validationEntries { params := some idParamSchema } c
      = (if matchesDigits id then []
         else [JsVal.obj [("field", JsVal.str "params.id"),
            ("message", JsVal.str "ID must be a number")]]) ∧
    (matchesDigits id = true →
      validatedContext { params := some idParamSchema } c
        = c.set "validatedParams"
            (JsVal.obj [("id", (toDouble ((digitsValue id.data : Nat) : Int)).toJsVal)])) := by
  constructor
  · unfold validationEntries failedEntries
    simp only [hparams, recordObject, List.map_cons, List.map_nil, idParamSchema,
      JsVal.lookup, if_true, Option.getD_some, List.append_nil, List.nil_append]
    cases hm : matchesDigits id
    · simp only [Bool.false_eq_true, if_false]
      rfl
    · simp only [if_true]
  · intro hm
    unfold validatedContext storeParsed
    simp only [hparams, recordObject, List.map_cons, List.map_nil, idParamSchema,
      JsVal.lookup, if_true, Option.getD_some, hm]

set_option maxRecDepth 20000 in
/-- C15 (the claim fails here). The id `12345678901234567890` is all digits, the handler is
called, and the validated params hold the id 12345678901234567168: `Number` yields the nearest
double, not the number the digits denote. An id of 310 digits is held as `Infinity`. -/
theorem validate_idParam_rounded :
    (∃ c1, (validate { params := some idParamSchema } sampleNext
        { params := [("id", "12345678901234567890")] }).forwarded = some c1 ∧
      c1.get "validatedParams" = JsVal.obj [("id", JsVal.num 12345678901234567168)]) ∧
    digitsValue "12345678901234567890".data = 12345678901234567890 ∧
    (12345678901234567168 : Int) ≠ 12345678901234567890 ∧
    (∃ c1, (validate { params := some idParamSchema } sampleNext
        { params := [("id", String.mk ('1' :: List.replicate 309 '0'))] }).forwarded = some c1 ∧
      c1.get "validatedParams" = JsVal.obj [("id", JsVal.infinity false)]) :=
  ⟨⟨_, rfl, rfl⟩, by decide, by decide, ⟨_, rfl, rfl⟩⟩

/-- C15 (as amended). On a route guarded by `validate({ params: idParamSchema })` the handler
is called if and only if the path parameter `id` is a non-empty string of decimal digits; the
validated params then hold `id` as `Number(id)`: the number these digits denote when it is at
most `2^53` (for the decimal string of `n ≤ 2^53`, the number `n`), and in general the double
nearest to it. For every other `id` the stage answers status 400 with code VALIDATION_ERROR
and the entry for field `params.id` without calling the handler. -/
theorem validate_idParam (next : Next) (c : Context) (id : String)
    (hparams : c.params = [("id", id)]) :
    (matchesDigits id = true ↔ id.data ≠ [] ∧ ∀ ch ∈ id.data, ch.isDigit = true) ∧
    ((validate { params := some idParamSchema } next c).forwarded.isSome = true ↔
      matchesDigits id = true) ∧
    (matchesDigits id = true →
      ∃ c1, (validate { params := some idParamSchema } next c).forwarded = some c1 ∧
        c1.get "validatedParams"
          = JsVal.obj [("id", (toDouble ((digitsValue id.data : Nat) : Int)).toJsVal)] ∧
        (digitsValue id.data ≤ 2 ^ 53 →
          c1.get "validatedParams"
            = JsVal.obj [("id", JsVal.num ((digitsValue id.data : Nat) : Int))])) ∧
    (∀ n : Nat, id = toString n → matchesDigits id = true ∧ digitsValue id.data = n) ∧
    (matchesDigits id = false →
      (validate { params := some idParamSchema } next c).forwarded = none ∧
      ∃ res, (validate { params := some idParamSchema } next c).completion
          = Completion.returned (some res) ∧
        res.status = 400 ∧
        FailureShape res.body "Validation failed" "VALIDATION_ERROR" ∧
        errorDetails res.body = some (JsVal.arr
          [JsVal.obj [("field", JsVal.str "params.id"),
            ("message", JsVal.str "ID must be a number")]])) := by
  obtain ⟨hentries, hctx⟩ := idParam_entries c id hparams
  have hpass : matchesDigits id = true →
      (validate { params := some idParamSchema } next c).forwarded
        = some (c.set "validatedParams"
          (JsVal.obj [("id", (toDouble ((digitsValue id.data : Nat) : Int)).toJsVal)])) := by
    intro hm
    rw [validate_of_no_entries _ next c (by rw [hentries]; simp [hm]), hctx hm]
  have hfail : matchesDigits id = false →
      validate { params := some idParamSchema } next c =
        { ctx := validatedContext { params := some idParamSchema } c, forwarded := none,
          completion := Completion.returned (some
            (validationError (validatedContext { params := some idParamSchema } c)
              (JsVal.arr [JsVal.obj [("field", JsVal.str "params.id"),
                ("message", JsVal.str "ID must be a number")]]))) } := by
    intro hm
    have hne : validationEntries { params := some idParamSchema } c ≠ [] := by
      rw [hentries]; simp [hm]
    rw [validate_of_entries _ next c hne, hentries]
    simp [hm]
  refine ⟨?_, ?_, ?_, ?_, ?_⟩
  · unfold matchesDigits
    cases hd : id.data with
    | nil => simp
    | cons ch tl => simp
  · constructor
    · intro hsome
      cases hm : matchesDigits id
      · rw [hfail hm] at hsome
        simp at hsome
      · rfl
    · intro hm
      rw [hpass hm]
      rfl
  · intro hm
    refine ⟨_, hpass hm, Context.get_set_var _ _ _, ?_⟩
    intro hsmall
    rw [Context.get_set_var, toDouble_of_natAbs_le _ (by simpa using hsmall)]
    rfl
  · intro n hn
    obtain ⟨hne, hall, hval⟩ := natToString_digits n
    subst hn
    refine ⟨?_, hval⟩
    unfold matchesDigits
    have hdig : ∀ ch ∈ (toString n).data, ch.isDigit = true := by
      intro ch hch
      obtain ⟨d, hd, rfl⟩ := hall ch hch
      exact (digitChar_facts d hd).1
    cases hdata : (toString n).data with
    | nil => exact absurd hdata hne
    | cons ch tl =>
      rw [hdata] at hdig
      simpa using hdig
  · intro hm
    rw [hfail hm]
    refine ⟨rfl, _, rfl, ?_⟩
    obtain ⟨hst, hshape, hdet⟩ := error_response
      (validatedContext { params := some idParamSchema } c)
      "Validation failed" "VALIDATION_ERROR" 400
      (JsVal.arr [JsVal.obj [("field", JsVal.str "params.id"),
        ("message", JsVal.str "ID must be a number")]])
    exact ⟨hst, hshape, by simpa [JsVal.truthy] using hdet⟩

theorem validate_idParam_witness :
    (validate { params := some idParamSchema } sampleNext
      { params := [("id", "abc")] }).forwarded = none ∧
    ∃ res, (validate { params := some idParamSchema } sampleNext
        { params := [("id", "abc")] }).completion = Completion.returned (some res) ∧
      res.status = 400 ∧
      FailureShape res.body "Validation failed" "VALIDATION_ERROR" ∧
      errorDetails res.body = some (JsVal.arr
        [JsVal.obj [("field", JsVal.str "params.id"),
          ("message", JsVal.str "ID must be a number")]]) :=
  (validate_idParam sampleNext { params := [("id", "abc")] } "abc" rfl).2.2.2.2 (by decide)

/-! ## Claims about authentication -/

/-- The method `startsWith` holds exactly when the string is the given text followed by more. -/
theorem startsWith_iff (s p : String) : startsWith s p = true ↔ ∃ t : String, s = p ++ t := by
  unfold startsWith
  rw [ List.isPrefixOf_iff_prefix]
  constructor
  · rintro ⟨t, ht⟩
    refine ⟨String.mk t, ?_⟩
    apply String.ext
    rw [String.data_append, ← ht]
  · rintro ⟨t, ht⟩
    refine ⟨t.data, ?_⟩
    rw [ht, String.data_append]

/-- The answer `unauthorized(c, message)`. -/
theorem unauthorized_response (c : Context) (message : String) :
    (unauthorized c message).status = 401 ∧
    FailureShape (unauthorized c message).body message "UNAUTHORIZED" := by
  obtain ⟨hst, hshape, _⟩ := error_response c message "UNAUTHORIZED" 401 JsVal.null
  exact ⟨hst, hshape⟩

/-- C16. On a path that starts with one of the exempt prefixes the auth stage calls the next
stage on the unchanged context, settles as it does, and calls no verifier. On every other
path, when the `Authorization` header is absent or does not start with `Bearer `, it answers
a Failure envelope with status 401 and code UNAUTHORIZED and calls neither the verifier nor
the handler. -/
theorem authJwt_gate (verifyToken : Verifier) (exclude : List String) (next : Next)
    (c : Context) :
    ((∃ p ∈ exclude, startsWith c.path p = true) →
      (authJwt verifyToken exclude next c).forwarded = some c ∧
      (authJwt verifyToken exclude next c).verified = none ∧
      ((authJwt verifyToken exclude next c).ctx,
        (authJwt verifyToken exclude next c).completion) = next c) ∧
    ((∀ p ∈ exclude, startsWith c.path p = false) →
      (c.header "Authorization" = none ∨
        ∃ h, c.header "Authorization" = some h ∧ startsWith h "Bearer " = false) →
      (authJwt verifyToken exclude next c).forwarded = none ∧
      (authJwt verifyToken exclude next c).verified = none ∧
      ∃ res, (authJwt verifyToken exclude next c).completion
          = Completion.returned (some res) ∧
        res.status = 401 ∧
        FailureShape res.body "Missing or invalid authorization header" "UNAUTHORIZED") := by
  constructor
  · intro hex
    have hany : exclude.any (fun p => startsWith c.path p) = true := by
      rw [List.any_eq_true]
      exact hex
    have heq : authJwt verifyToken exclude next c =
        { ctx := (next c).1, completion := (next c).2, forwarded := some c,
          verified := none } := by
      unfold authJwt
      simp only [hany, if_true]
    rw [heq]
    exact ⟨rfl, rfl, rfl⟩
  · intro hnone hheader
    have hany : exclude.any (fun p => startsWith c.path p) = false := by
      rw [List.any_eq_false]
      intro p hp
      rw [hnone p hp]
      simp
    obtain ⟨hst, hshape⟩ := unauthorized_response c "Missing or invalid authorization header"
    have heq : authJwt verifyToken exclude next c =
        { ctx := c, forwarded := none, verified := none,
          completion := Completion.returned
            (some (unauthorized c "Missing or invalid authorization header")) } := by
      unfold authJwt
      simp only [hany, Bool.false_eq_true, if_false]
      rcases hheader with h | ⟨h, hh, hb⟩
      · rw [h]
      · rw [hh]
        simp only [hb, Bool.not_false, Bool.or_true, if_true]
    rw [heq]
    exact ⟨rfl, rfl, _, rfl, hst, hshape⟩

theorem authJwt_gate_witness :
    (authJwt rejectingVerifier ["/health"] sampleNext
      { path := "/api/v1/users", reqHeaders := [("Authorization", "Basic abc")] }).forwarded
      = none :=
  ((authJwt_gate rejectingVerifier ["/health"] sampleNext
    { path := "/api/v1/users", reqHeaders := [("Authorization", "Basic abc")] }).2
    (by decide) (Or.inr ⟨"Basic abc", rfl, by decide⟩)).1

/-- A rejected credential is answered 401 without calling the handler. -/
theorem authJwt_of_rejected (verifyToken : Verifier) (exclude : List String) (next : Next)
    (c : Context) (h : String) (err : JsError)
    (hnone : exclude.any (fun p => startsWith c.path p) = false)
    (hh : c.header "Authorization" = some h) (hne : (h == "") = false)
    (hb : startsWith h "Bearer " = true)
    (hv : verifyToken (sliceFrom h 7) = Except.error err) :
    authJwt verifyToken exclude next c =
      { ctx := c, forwarded := none, verified := some (sliceFrom h 7),
        completion := Completion.returned
          (some (unauthorized c "Invalid or expired token")) } := by
  unfold authJwt
  simp only [hnone, Bool.false_eq_true, if_false, hh, hne, hb, Bool.not_true, Bool.or_false, hv]

/-- After a successful verification, a rejected `next()` is caught by the same `catch` as a
verification failure and answered 401. This is the function called with a `next` that
rejects; in a chain `next()` resolves, see `dispatch_settles`. -/
theorem authJwt_of_handler_failure (verifyToken : Verifier) (exclude : List String)
    (next : Next) (c c3 : Context) (h : String) (fields : List (String × JsVal))
    (err : JsError)
    (hnone : exclude.any (fun p => startsWith c.path p) = false)
    (hh : c.header "Authorization" = some h) (hne : (h == "") = false)
    (hb : startsWith h "Bearer " = true)
    (hv : verifyToken (sliceFrom h 7) = Except.ok (JsVal.obj fields))
    (hnext : next ((c.set "user" (JsVal.obj fields)).set "userId"
        (((JsVal.obj fields).field "sub").getD JsVal.undefined |>.or
          (((JsVal.obj fields).field "id").getD JsVal.undefined)))
      = (c3, Completion.threw err)) :
    (authJwt verifyToken exclude next c).completion
      = Completion.returned (some (unauthorized c3 "Invalid or expired token")) := by
  unfold authJwt
  simp only [hnone, Bool.false_eq_true, if_false, hh, hne, hb, Bool.not_true, Bool.or_false, hv,
    hnext]

/-- After a successful verification the decoded identity and the subject id are stored and
the handler is called; when it settles normally so does the stage. -/
theorem authJwt_of_accepted (verifyToken : Verifier) (exclude : List String)
    (next : Next) (c c3 : Context) (h : String) (fields : List (String × JsVal))
    (r : Option Response)
    (hnone : exclude.any (fun p => startsWith c.path p) = false)
    (hh : c.header "Authorization" = some h) (hne : (h == "") = false)
    (hb : startsWith h "Bearer " = true)
    (hv : verifyToken (sliceFrom h 7) = Except.ok (JsVal.obj fields))
    (hnext : next ((c.set "user" (JsVal.obj fields)).set "userId"
        (((JsVal.obj fields).field "sub").getD JsVal.undefined |>.or
          (((JsVal.obj fields).field "id").getD JsVal.undefined)))
      = (c3, Completion.returned r)) :
    authJwt verifyToken exclude next c =
      { ctx := c3, verified := some (sliceFrom h 7),
        forwarded := some ((c.set "user" (JsVal.obj fields)).set "userId"
          (((JsVal.obj fields).field "sub").getD JsVal.undefined |>.or
            (((JsVal.obj fields).field "id").getD JsVal.undefined))),
        completion := Completion.returned none } := by
  unfold authJwt
  simp only [hnone, Bool.false_eq_true, if_false, hh, hne, hb, Bool.not_true, Bool.or_false, hv,
    hnext]

/-- A handler that raises a failure other than an HTTPException is answered, by the step of
the chain that runs it, with the 500 text of the default `onError` handler; the step resolves,
so no stage before it sees the failure. -/
theorem dispatch_of_handler_failure (handler : Next) (rest : Next) (c c1 : Context)
    (err : JsError) (h : handler c = (c1, Completion.threw err))
    (hcls : err.cls ≠ ErrorClass.httpException) :
    dispatch (handlerStage handler) rest c
      = (c1.install (c1.text "Internal Server Error" 500), Completion.returned none) := by
  rw [dispatch_of_threw (handlerStage handler) rest c c1 err h]
  unfold defaultOnError
  simp only [hcls, if_false]

/-- C17 (the code at the failing input). A request with a bearer credential that the verifier
accepts reaches the handler with the decoded identity and the subject id stored; the handler
raises the NOT_FOUND failure (status 404) of an unknown user id. The step of the chain that
runs the handler catches the failure and answers with the default `onError` handler: `next()`
resolves in the auth stage, which therefore does not answer 401, and in the error boundary
around it, whose `catch` does not run. The response is status 500 with the text
`Internal Server Error`: not 401, but not the 404 NOT_FOUND envelope either. -/
theorem authJwt_handler_failure_reported_as_500 :
    (authJwt acceptingVerifier [] (dispatch (handlerStage notFoundHandler) sampleNext)
      { path := "/api/v1/users/999",
        reqHeaders := [("Authorization", "Bearer good-token")] }).verified
      = some "good-token" ∧
    (∃ c2, (authJwt acceptingVerifier [] (dispatch (handlerStage notFoundHandler) sampleNext)
        { path := "/api/v1/users/999",
          reqHeaders := [("Authorization", "Bearer good-token")] }).forwarded = some c2 ∧
      c2.get "user" = JsVal.obj [("sub", JsVal.num 7)] ∧
      c2.get "userId" = JsVal.num 7) ∧
    (authJwt acceptingVerifier [] (dispatch (handlerStage notFoundHandler) sampleNext)
      { path := "/api/v1/users/999",
        reqHeaders := [("Authorization", "Bearer good-token")] }).completion
      = Completion.returned none ∧
    (∃ out, dispatch (errorHandler sampleEnv)
        (dispatch (authStage acceptingVerifier [])
          (dispatch (handlerStage notFoundHandler) sampleNext))
        { path := "/api/v1/users/999",
          reqHeaders := [("Authorization", "Bearer good-token")] }
        = (out, Completion.returned none) ∧
      (finalResponse out).map (fun res => res.status) = some 500 ∧
      (finalResponse out).map (fun res => res.body)
        = some (JsVal.str "Internal Server Error") ∧
      (finalResponse out).map (fun res => res.body.hasField "error") = some false) :=
  ⟨rfl, ⟨_, rfl, rfl, rfl⟩, rfl, ⟨_, rfl, rfl, rfl, rfl⟩⟩

/-! ## Claims about sorting and page arithmetic -/

theorem data_minus_append (t : String) : ("-" ++ t).data = '-' :: t.data := by
  rw [String.data_append]
  rfl

/-- C21. `parsePagination` derives the sort from the `sort` parameter: without one, or with an
empty one, `sortField = "createdAt"` and `sortOrder = "desc"`; for a parameter `"-" ++ t` the
field is `t` (the parameter without its first character) and the order `desc`; for any other
non-empty parameter `s` the field is `s` and the order `asc`. -/
theorem parsePagination_sort (query : Query) :
    ((query.sort = none ∨ query.sort = some "") →
      (parsePagination query).sortField = "createdAt" ∧
      (parsePagination query).sortOrder = "desc") ∧
    (∀ t : String, query.sort = some ("-" ++ t) →
      (parsePagination query).sortField = t ∧
      (parsePagination query).sortOrder = "desc") ∧
    (∀ s : String, query.sort = some s → s ≠ "" → (¬ ∃ t : String, s = "-" ++ t) →
      (parsePagination query).sortField = s ∧
      (parsePagination query).sortOrder = "asc") := by
  refine ⟨?_, ?_, ?_⟩
  · intro h
    rcases h with h | h
    · simp [parsePagination, h]
    · simp [parsePagination, h]
  · intro t h
    have hne : ("-" ++ t) ≠ "" := by
      intro he
      have := congrArg String.data he
      rw [data_minus_append] at this
      simp at this
    have hsw : startsWith ("-" ++ t) "-" = true := (startsWith_iff _ _).mpr ⟨t, rfl⟩
    have hsl : sliceFrom ("-" ++ t) 1 = t := by
      unfold sliceFrom
      rw [data_minus_append]
      rfl
    simp [parsePagination, h, hne, hsw, hsl]
  · intro s h hne hnot
    have hsw : startsWith s "-" = false := by
      cases hb : startsWith s "-"
      · rfl
      · exact absurd ((startsWith_iff _ _).mp hb) hnot
    simp [parsePagination, h, hne, hsw]

theorem parsePagination_sort_witness :
    (parsePagination { sort := some "name" }).sortField = "name" ∧
    (parsePagination { sort := some "name" }).sortOrder = "asc" :=
  (parsePagination_sort { sort := some "name" }).2.2 "name" rfl (by decide)
    (by
      rintro ⟨t, ht⟩
      have := congrArg String.data ht
      rw [data_minus_append] at this
      simp at this)

/-- Comparing a number with `ceilDiv total limit`, for a positive limit. -/
theorem lt_ceilDiv_iff (total limit z : Int) (hl : 0 < limit) :
    z < ceilDiv total limit ↔ z * limit < total := by
  unfold ceilDiv
  have h := Int.ediv_lt_iff_lt_mul (a := -total) (b := -z) hl
  constructor
  · intro hz
    have h1 : -total / limit < -z := by omega
    have h2 := h.mp h1
    have h3 : -z * limit = -(z * limit) := by ring
    omega
  · intro hz
    have h3 : -z * limit = -(z * limit) := by ring
    have h1 : -total / limit < -z := h.mpr (by omega)
    omega

/-- C28. For `limit ≥ 1` (and every total and page, in particular `total ≥ 0`, `page ≥ 1`) the
flag `hasNext` of `buildPaginationMeta` is true exactly when `page * limit < total`, and with
`offset = (page - 1) * limit` the current page is non-empty (`offset < total`) exactly when
`page ≤ totalPages`; the latter holds in particular for the page, limit and offset that
`parsePagination` computes, rounded as they may be, for every total up to `2^53`. -/
theorem pagination_remaining (total page limit : Int) (hlimit : 1 ≤ limit) :
    ((buildPaginationMeta total page limit).hasNext = true ↔ page * limit < total) ∧
    ((page - 1) * limit < total ↔ page ≤ (buildPaginationMeta total page limit).totalPages) ∧
    (∀ (query : Query) (p l o : Int), total ≤ 2 ^ 53 →
      (parsePagination query).page = JsNum.finite p →
      (parsePagination query).limit = JsNum.finite l →
      (parsePagination query).offset = JsNum.finite o →
      (o < total ↔ p ≤ (buildPaginationMeta total p l).totalPages)) := by
  have key : ∀ (p l : Int), 1 ≤ l →
      ((p - 1) * l < total ↔ p ≤ (buildPaginationMeta total p l).totalPages) := by
    intro p l hl
    show (p - 1) * l < total ↔ p ≤ ceilDiv total l
    rw [← lt_ceilDiv_iff total l (p - 1) (by omega)]
    omega
  refine ⟨?_, key page limit hlimit, ?_⟩
  · show decide (page < ceilDiv total limit) = true ↔ _
    rw [decide_eq_true_iff]
    exact lt_ceilDiv_iff total limit page (by omega)
  · intro query p l o htotal hp hl ho
    obtain ⟨hpage, hlim, hoffset⟩ := parsePagination_fields query
    have hp1 : 1 ≤ p := by
      rcases page_form (parseInt query.page) with ⟨p2, hp2, hp21⟩ | hinf
      · rw [← hpage, hp] at hp2
        rw [JsNum.finite.inj hp2]
        exact hp21
      · rw [← hpage, hp] at hinf
        cases hinf
    have hl1 : 1 ≤ l := by
      obtain ⟨l2, hl2, hl21, _⟩ := limit_form (parseInt query.limit)
      rw [← hlim, hl] at hl2
      rw [JsNum.finite.inj hl2]
      exact hl21
    rw [hp, hl] at hoffset
    rw [ho] at hoffset
    by_cases hprod : (p - 1) * l ≤ 2 ^ 53
    · rw [offset_exact p l hp1 hl1 hprod] at hoffset
      rw [JsNum.finite.inj hoffset]
      exact key p l hl1
    · have hbig : (2 : Int) ^ 53 ≤ (p - 1) * l := by omega
      have ho53 : (2 : Int) ^ 53 ≤ o := by
        rcases (offset_form p l hp1 hl1).2 hbig with h | ⟨o2, h, ho2⟩
        · rw [h] at hoffset
          cases hoffset
        · rw [h] at hoffset
          rw [JsNum.finite.inj hoffset]
          exact ho2
      constructor
      · intro h
        omega
      · intro h
        have := (key p l hl1).mpr h
        omega

theorem pagination_remaining_witness :
    (buildPaginationMeta 21 2 10).hasNext = true ↔ (2 : Int) * 10 < 21 :=
  (pagination_remaining 21 2 10 (by decide)).1

/-! ## Downstream failures seen by the validation stage -/

/-- When no section fails, the stage settles according to how `next()` settled. -/
theorem validate_of_downstream (schemas : Schemas) (next : Next) (c c1 : Context)
    (done : Completion) (hpass : validationEntries schemas c = [])
    (hnext : next (validatedContext schemas c) = (c1, done)) :
    (validate schemas next c).completion =
      (match done with
       | Completion.returned _ => Completion.returned none
       | Completion.threw err =>
         if err.cls = ErrorClass.syntaxError then
           Completion.returned (some (validationError c1
             (JsVal.arr [JsVal.obj
               [("field", JsVal.str "body"), ("message", JsVal.str "Invalid JSON")]])))
         else Completion.threw err) := by
  unfold validate
  simp only [validate_state, hpass, List.length_nil, gt_iff_lt, lt_self_iff_false, if_false,
    hnext]
  cases done with
  | returned res => rfl
  | threw err =>
    by_cases hc : err.cls = ErrorClass.syntaxError
    · simp only [hc, if_true]
    · simp only [hc, if_false]

/-- C27. For a request that passes validation (no section yields an entry) whose downstream
raises `err`: when `err` is a SyntaxError the stage answers status 400 with code
VALIDATION_ERROR and `error.details` equal to the one-element list
`[{ field: "body", message: "Invalid JSON" }]`; when `err` is anything else the stage raises
`err` itself. -/
theorem validate_downstream_failure (schemas : Schemas) (next : Next) (c c1 : Context)
    (err : JsError) (hpass : validationEntries schemas c = [])
    (hthrow : next (validatedContext schemas c) = (c1, Completion.threw err)) :
    (err.cls = ErrorClass.syntaxError →
      ∃ res, (validate schemas next c).completion = Completion.returned (some res) ∧
        res.status = 400 ∧
        FailureShape res.body "Validation failed" "VALIDATION_ERROR" ∧
        errorDetails res.body = some (JsVal.arr [JsVal.obj
          [("field", JsVal.str "body"), ("message", JsVal.str "Invalid JSON")]])) ∧
    (err.cls ≠ ErrorClass.syntaxError →
      (validate schemas next c).completion = Completion.threw err) := by
  have h := validate_of_downstream schemas next c c1 _ hpass hthrow
  constructor
  · intro hc
    simp only [hc, if_true] at h
    refine ⟨_, h, ?_⟩
    obtain ⟨hst, hshape, hdet⟩ := error_response c1 "Validation failed" "VALIDATION_ERROR" 400
      (JsVal.arr [JsVal.obj
        [("field", JsVal.str "body"), ("message", JsVal.str "Invalid JSON")]])
    exact ⟨hst, hshape, by simpa [JsVal.truthy] using hdet⟩
  · intro hc
    simp only [hc, if_false] at h
    exact h

theorem validate_downstream_failure_witness :
    (validate {} notFoundHandler {}).completion
      = Completion.threw
          { message := "User not found", status := some 404, code := some "NOT_FOUND" } :=
  (validate_downstream_failure {} notFoundHandler {} {}
    { message := "User not found", status := some 404, code := some "NOT_FOUND" }
    rfl rfl).2 (by decide)

/-! ## The client key of the rate limiter -/

/-- The text before the first comma: for a header `a ++ "," ++ b` where `a` has no comma the
first element is `a`, and a header without a comma is its own first element. -/
theorem firstCommaField_spec (a b : String) (ha : ∀ ch ∈ a.data, ch ≠ ',') :
    firstCommaField (a ++ "," ++ b) = a ∧ firstCommaField a = a := by
  have htake : ∀ (l r : List Char), (∀ ch ∈ l, ch ≠ ',') →
      (l ++ ',' :: r).takeWhile (fun ch => ch != ',') = l := by
    intro l r hl
    induction l with
    | nil => simp [List.takeWhile]
    | cons x xs ih =>
      have hx : x ≠ ',' := hl x (List.mem_cons_self _ _)
      simp only [List.cons_append, List.takeWhile_cons, bne_iff_ne, ne_eq, hx,
        not_false_eq_true, if_true, List.cons.injEq, true_and]
      exact ih (fun ch hch => hl ch (List.mem_cons_of_mem _ hch))
  have hall : ∀ (l : List Char), (∀ ch ∈ l, ch ≠ ',') →
      l.takeWhile (fun ch => ch != ',') = l := by
    intro l hl
    induction l with
    | nil => rfl
    | cons x xs ih =>
      have hx : x ≠ ',' := hl x (List.mem_cons_self _ _)
      simp only [List.takeWhile_cons, bne_iff_ne, ne_eq, hx, not_false_eq_true, if_true,
        List.cons.injEq, true_and]
      exact ih (fun ch hch => hl ch (List.mem_cons_of_mem _ hch))
  constructor
  · unfold firstCommaField
    have hd : (a ++ "," ++ b).data = a.data ++ ',' :: b.data := by
      simp [String.data_append]
    rw [hd, htake _ _ ha]
  · unfold firstCommaField
    rw [hall _ ha]

/-- What `trim` returns: for a string made of white space, a core that neither starts nor ends
with white space, and white space again, the core. -/
theorem jsTrim_spec (pre mid post : List Char)
    (hpre : ∀ ch ∈ pre, isJsWhitespace ch = true)
    (hpost : ∀ ch ∈ post, isJsWhitespace ch = true)
    (hhead : ∀ ch ∈ mid.head?, isJsWhitespace ch = false)
    (hlast : ∀ ch ∈ mid.getLast?, isJsWhitespace ch = false) :
    jsTrim (String.mk (pre ++ mid ++ post)) = String.mk mid := by
  have hdrop : ∀ (ws rest : List Char), (∀ ch ∈ ws, isJsWhitespace ch = true) →
      (∀ ch ∈ rest.head?, isJsWhitespace ch = false) →
      (ws ++ rest).dropWhile isJsWhitespace = rest := by
    intro ws rest hws hrest
    induction ws with
    | nil =>
      cases rest with
      | nil => rfl
      | cons x xs =>
        have hx : isJsWhitespace x = false := hrest x (by simp)
        simp [List.dropWhile, hx]
    | cons w ws ih =>
      have hw : isJsWhitespace w = true := hws w (List.mem_cons_self _ _)
      simp only [List.cons_append, List.dropWhile_cons, hw, if_true]
      exact ih (fun ch hch => hws ch (List.mem_cons_of_mem _ hch))
  unfold jsTrim
  simp only []
  cases mid with
  | nil =>
    have h0 : (pre ++ [] ++ post).dropWhile isJsWhitespace = [] := by
      have := hdrop (pre ++ post) [] (by
        intro ch hch
        rcases List.mem_append.mp hch with h | h
        · exact hpre ch h
        · exact hpost ch h) (by simp)
      simpa using this
    rw [h0]
    rfl
  | cons x xs =>
    have h1 : (pre ++ x :: xs ++ post).dropWhile isJsWhitespace = x :: xs ++ post := by
      rw [List.append_assoc]
      exact hdrop pre (x :: xs ++ post) hpre (by
        intro ch hch
        have : ch = x := by simpa using hch.symm
        subst this
        exact hhead ch (by simp))
    rw [h1, List.reverse_append]
    have h2 : (post.reverse ++ (x :: xs).reverse).dropWhile isJsWhitespace
        = (x :: xs).reverse := by
      apply hdrop
      · intro ch hch
        exact hpost ch (List.mem_reverse.mp hch)
      · intro ch hch
        rw [List.head?_reverse] at hch
        exact hlast ch hch
    rw [h2, List.reverse_reverse]

/-- C25. The client key of the rate limiter: the first comma-separated element of
`X-Forwarded-For`, trimmed, when the header is present and that trimmed element is not empty;
otherwise the value of `X-Real-IP` when that header is present and not empty; otherwise the
string `"unknown"`. -/
theorem clientKey_spec (c : Context) :
    (∀ h : String, c.header "X-Forwarded-For" = some h → jsTrim (firstCommaField h) ≠ "" →
      clientKey c = jsTrim (firstCommaField h)) ∧
    ((c.header "X-Forwarded-For" = none ∨
        ∃ h : String, c.header "X-Forwarded-For" = some h ∧ jsTrim (firstCommaField h) = "") →
      (∀ real : String, c.header "X-Real-IP" = some real → real ≠ "" → clientKey c = real) ∧
      ((c.header "X-Real-IP" = none ∨ c.header "X-Real-IP" = some "") →
        clientKey c = "unknown")) := by
  refine ⟨?_, ?_⟩
  · intro h hh hne
    simp [clientKey, hh, hne]
  · intro hx
    have hfall : clientKey c =
        (match c.header "X-Real-IP" with
         | some real => if real != "" then real else "unknown"
         | none => "unknown") := by
      rcases hx with hx | ⟨h, hx, he⟩
      · simp [clientKey, hx]
      · simp [clientKey, hx, he]
    constructor
    · intro real hr hne
      rw [hfall, hr]
      simp [hne]
    · intro hr
      rw [hfall]
      rcases hr with hr | hr
      · rw [hr]
      · rw [hr]
        rfl

theorem clientKey_spec_witness :
    clientKey { reqHeaders := [("X-Forwarded-For", " 10.0.0.1 , 10.0.0.2")] } = "10.0.0.1" :=
  (clientKey_spec { reqHeaders := [("X-Forwarded-For", " 10.0.0.1 , 10.0.0.2")] }).1
    " 10.0.0.1 , 10.0.0.2" (by decide) (by decide)

/-! ## The periodic sweep -/

theorem Store.get_filter_none (s : Store) (keep : String × Entry → Bool) (key : String)
    (h : s.get key = none) : Store.get (s.filter keep) key = none := by
  induction s with
  | nil => rfl
  | cons hd tl ih =>
    obtain ⟨k, v⟩ := hd
    by_cases hk : k = key
    · simp [Store.get, hk] at h
    · simp only [Store.get, hk, if_false] at h
      rw [List.filter_cons]
      split
      · simp only [Store.get, hk, if_false]
        exact ih h
      · exact ih h

theorem Store.get_none_of_not_mem (s : Store) (key : String)
    (h : key ∉ s.map Prod.fst) : s.get key = none := by
  induction s with
  | nil => rfl
  | cons hd tl ih =>
    obtain ⟨k, v⟩ := hd
    simp only [List.map_cons, List.mem_cons, not_or] at h
    simp only [Store.get, Ne.symm h.1, if_false]
    exact ih h.2

/-- Reading a swept store: the entry of the unswept store, unless it had expired. -/
theorem sweep_get (s : Store) (t : Int) (key : String) (hkeys : s.distinctKeys) :
    (sweep s t).get key = (s.get key).filter (fun e => !(decide (e.resetAt < t))) := by
  induction s with
  | nil => rfl
  | cons hd tl ih =>
    obtain ⟨k, v⟩ := hd
    have hk : k ∉ tl.map Prod.fst ∧ Store.distinctKeys tl := by
      simpa [Store.distinctKeys] using hkeys
    have ih1 := ih hk.2
    unfold sweep at ih1 ⊢
    rw [List.filter_cons]
    by_cases hkey : k = key
    · subst hkey
      by_cases hexp : v.resetAt < t
      · simp only [hexp, decide_True, Bool.not_true, Bool.false_eq_true, if_false, Store.get,
          if_true, Option.filter]
        exact Store.get_filter_none _ _ _ (Store.get_none_of_not_mem _ _ hk.1)
      · simp [hexp, Store.get, Option.filter]
    · by_cases hexp : v.resetAt < t
      · simp only [hexp, decide_True, Bool.not_true, Bool.false_eq_true, if_false, Store.get,
          hkey]
        exact ih1
      · simp only [hexp, decide_False, Bool.not_false, if_true, Store.get, hkey, if_false]
        exact ih1

theorem sweep_distinctKeys (s : Store) (t : Int) (hkeys : s.distinctKeys) :
    (sweep s t).distinctKeys := by
  unfold Store.distinctKeys sweep at *
  exact List.Nodup.sublist (List.Sublist.map _ (List.filter_sublist _)) hkeys

theorem sweptFrom_sweep (s : Store) (t : Int) (hkeys : s.distinctKeys) :
    sweptFrom t s (sweep s t) := by
  intro key
  rw [sweep_get s t key hkeys]
  cases hg : s.get key with
  | none => exact Or.inl rfl
  | some e =>
    by_cases hexp : e.resetAt < t
    · exact Or.inr ⟨by simp [Option.filter, hexp], e, rfl, hexp⟩
    · exact Or.inl (by simp [Option.filter, hexp])

theorem sweptFrom_set (t : Int) (full swept : Store) (key : String) (e : Entry)
    (h : sweptFrom t full swept) : sweptFrom t (full.set key e) (swept.set key e) := by
  intro other
  by_cases ho : other = key
  · subst ho
    exact Or.inl (by rw [Store.get_set_key, Store.get_set_key])
  · rw [Store.get_set_other_key _ _ _ _ ho, Store.get_set_other_key _ _ _ _ ho]
    exact h other

/-- A check at a time not before the sweep has the same outcome on the swept and on the unswept
store, and leaves the two stores related as before. -/
theorem rateLimit_sweptFrom (env : Env) (options : RateLimitOptions) (t now : Int)
    (next : Next) (full swept : Store) (c : Context)
    (hrel : sweptFrom t full swept) (hnow : t ≤ now) :
    (rateLimit env options now next swept c).outcome
      = (rateLimit env options now next full c).outcome ∧
    sweptFrom t (rateLimit env options now next full c).store
      (rateLimit env options now next swept c).store := by
  by_cases hmax : options.resolveMax env = 0
  · have h1 : ∀ st : Store, rateLimit env options now next st c =
        { store := st, ctx := (next c).1, forwarded := some c, completion := (next c).2 } := by
      intro st
      unfold rateLimit
      simp only [hmax, if_true]
    rw [h1 swept, h1 full]
    exact ⟨rfl, hrel⟩
  · have hnew : ∀ st st2 : Store,
        (st.get (clientKey c) = none ∨ ∃ e, st.get (clientKey c) = some e ∧ e.resetAt < now) →
        (st2.get (clientKey c) = none ∨ ∃ e, st2.get (clientKey c) = some e ∧ e.resetAt < now) →
        sweptFrom t st st2 →
        (rateLimit env options now next st2 c).outcome
          = (rateLimit env options now next st c).outcome ∧
        sweptFrom t (rateLimit env options now next st c).store
          (rateLimit env options now next st2 c).store := by
      intro st st2 h1 h2 hr
      rw [rateLimit_newWindow env options now next st c hmax h1,
        rateLimit_newWindow env options now next st2 c hmax h2]
      exact ⟨rfl, sweptFrom_set _ _ _ _ _ hr⟩
    rcases hrel (clientKey c) with heq | ⟨hnone, e, hsome, hlt⟩
    · cases hg : full.get (clientKey c) with
      | none =>
        exact hnew full swept (Or.inl hg) (Or.inl (by rw [heq, hg])) hrel
      | some e =>
        have hs : swept.get (clientKey c) = some e := by rw [heq, hg]
        by_cases hexp : e.resetAt < now
        · exact hnew full swept (Or.inr ⟨e, hg, hexp⟩) (Or.inr ⟨e, hs, hexp⟩) hrel
        · by_cases hle : e.count + 1 ≤ options.resolveMax env
          · rw [rateLimit_inWindow_allowed env options now next full c e hmax hg hexp hle,
              rateLimit_inWindow_allowed env options now next swept c e hmax hs hexp hle]
            exact ⟨rfl, sweptFrom_set _ _ _ _ _ hrel⟩
          · rw [rateLimit_inWindow_denied env options now next full c e hmax hg hexp
                (by omega),
              rateLimit_inWindow_denied env options now next swept c e hmax hs hexp (by omega)]
            exact ⟨rfl, sweptFrom_set _ _ _ _ _ hrel⟩
    · exact hnew full swept (Or.inr ⟨e, hsome, by omega⟩) (Or.inl hnone) hrel

/-- Related stores give the same outcomes along a whole run of later checks. -/
theorem serveAll_sweptFrom (env : Env) (options : RateLimitOptions) (t : Int) :
    ∀ (reqs : List Request) (full swept : Store), sweptFrom t full swept →
      (∀ r ∈ reqs, t ≤ r.now) →
      (serveAll env options swept reqs).map (fun p => p.2.outcome)
        = (serveAll env options full reqs).map (fun p => p.2.outcome) := by
  intro reqs
  induction reqs with
  | nil => intro _ _ _ _; rfl
  | cons r rest ih =>
    intro full swept hrel hlater
    obtain ⟨hout, hrel1⟩ := rateLimit_sweptFrom env options t r.now r.next full swept r.ctx
      hrel (hlater r (List.mem_cons_self _ _))
    simp only [serveAll, List.map_cons, hout, List.cons.injEq, true_and]
    exact ih _ _ hrel1 (fun q hq => hlater q (List.mem_cons_of_mem _ hq))

/-- C26. On a store that is a `Map` (no key twice), the sweep at time `t` removes exactly the
entries with `resetAt < t` and keeps every other entry as it was (the swept store holds the
pairs of the store with `resetAt ≥ t`, and reading a key yields the entry of the store unless
it had expired); and every sequence of checks served afterwards at times `≥ t` has, check by
check, the same outcome (response headers, call of `next()`, response) on the swept store as
on the store that was not swept. -/
theorem sweep_transparent (env : Env) (options : RateLimitOptions) (store : Store) (t : Int)
    (reqs : List Request) (hkeys : store.distinctKeys) (hlater : ∀ r ∈ reqs, t ≤ r.now) :
    (∀ key e, (key, e) ∈ sweep store t ↔ ((key, e) ∈ store ∧ ¬ e.resetAt < t)) ∧
    (∀ key, (sweep store t).get key
        = (store.get key).filter (fun e => !(decide (e.resetAt < t)))) ∧
    (sweep store t).distinctKeys ∧
    (serveAll env options (sweep store t) reqs).map (fun p => p.2.outcome)
      = (serveAll env options store reqs).map (fun p => p.2.outcome) := by
  refine ⟨?_, fun key => sweep_get store t key hkeys, sweep_distinctKeys store t hkeys,
    serveAll_sweptFrom env options t reqs store (sweep store t)
      (sweptFrom_sweep store t hkeys) hlater⟩
  intro key e
  simp [sweep]

theorem sweep_transparent_witness :
    (serveAll sampleEnv sampleOptions (sweep sampleStore 10)
        [sampleForwardedRequest 20, sampleRequest 30]).map (fun p => p.2.outcome)
      = (serveAll sampleEnv sampleOptions sampleStore
        [sampleForwardedRequest 20, sampleRequest 30]).map (fun p => p.2.outcome) :=
  (sweep_transparent sampleEnv sampleOptions sampleStore 10
    [sampleForwardedRequest 20, sampleRequest 30]
    (by simp [Store.distinctKeys, sampleStore])
    (by
      intro r hr
      simp only [List.mem_cons, List.mem_singleton, List.not_mem_nil, or_false] at hr
      rcases hr with hr | hr <;> subst hr <;> decide)).2.2.2

/-! ## The user service -/

theorem getById_of_missing {σ : Type} (repository : Repository σ) (db : σ) (id : Int)
    (h : (repository.findById db id).truthy = false) :
    UserService.getById repository db id =
      { db := db, calls := [RepoCall.findById id], result := Except.error notFoundError } := by
  unfold UserService.getById
  simp only [h, Bool.not_false, if_true]

theorem getById_of_found {σ : Type} (repository : Repository σ) (db : σ) (id : Int)
    (h : (repository.findById db id).truthy = true) :
    UserService.getById repository db id =
      { db := db, calls := [RepoCall.findById id],
        result := Except.ok (repository.findById db id) } := by
  unfold UserService.getById
  simp only [h, Bool.not_true, Bool.false_eq_true, if_false]

/-- The method `update` on an existing id, by the outcome of the email check. -/
theorem update_of_found {σ : Type} (repository : Repository σ) (hash : JsVal → String)
    (db : σ) (id : Int) (data : List (String × JsVal))
    (hfound : (repository.findById db id).truthy = true) :
    ((prop data "email").truthy = false →
      UserService.update repository hash db id data =
        { db := (repository.update db id (JsVal.obj
            (if (prop data "password").truthy then
              JsVal.assign "password" (JsVal.str (hash (prop data "password"))) data
             else data))).1,
          calls := [RepoCall.findById id, RepoCall.update id (JsVal.obj
            (if (prop data "password").truthy then
              JsVal.assign "password" (JsVal.str (hash (prop data "password"))) data
             else data))],
          result := Except.ok (repository.update db id (JsVal.obj
            (if (prop data "password").truthy then
              JsVal.assign "password" (JsVal.str (hash (prop data "password"))) data
             else data))).2 }) ∧
    ((prop data "email").truthy = true →
      ((repository.findByEmail db (prop data "email")).truthy
        && strictNeNum ((repository.findByEmail db (prop data "email")).field "id") id) = true →
      UserService.update repository hash db id data =
        { db := db,
          calls := [RepoCall.findById id, RepoCall.findByEmail (prop data "email")],
          result := Except.error duplicateEmailError }) ∧
    ((prop data "email").truthy = true →
      ((repository.findByEmail db (prop data "email")).truthy
        && strictNeNum ((repository.findByEmail db (prop data "email")).field "id") id) = false →
      UserService.update repository hash db id data =
        { db := (repository.update db id (JsVal.obj
            (if (prop data "password").truthy then
              JsVal.assign "password" (JsVal.str (hash (prop data "password"))) data
             else data))).1,
          calls := [RepoCall.findById id, RepoCall.findByEmail (prop data "email"),
            RepoCall.update id (JsVal.obj
              (if (prop data "password").truthy then
                JsVal.assign "password" (JsVal.str (hash (prop data "password"))) data
               else data))],
          result := Except.ok (repository.update db id (JsVal.obj
            (if (prop data "password").truthy then
              JsVal.assign "password" (JsVal.str (hash (prop data "password"))) data
             else data))).2 }) := by
  refine ⟨?_, ?_, ?_⟩
  · intro he
    unfold UserService.update
    rw [getById_of_found repository db id hfound]
    simp [he]
  · intro he hc
    unfold UserService.update
    rw [getById_of_found repository db id hfound]
    simp only [he, if_true, hc, List.singleton_append]
  · intro he hc
    unfold UserService.update
    rw [getById_of_found repository db id hfound]
    simp [he, hc]

/-- C22. `UserService.create` raises the failure with message "Email already registered", code
DUPLICATE_EMAIL and status 409 if and only if `findByEmail(data.email)` yields a user; it then
has called `findByEmail` only and the database is as before. Otherwise it calls `findByEmail`
and then `create` once, with the object `data` in which `password` holds the hash of
`data.password` and every other property is as in `data`, and it returns what `create`
resolved to, in the state `create` left. -/
theorem userService_create {σ : Type} (repository : Repository σ) (hash : JsVal → String)
    (db : σ) (data : List (String × JsVal)) :
    ((UserService.create repository hash db data).result
        = Except.error { message := "Email already registered",
                         code := some "DUPLICATE_EMAIL", status := some 409 } ↔
      (repository.findByEmail db (prop data "email")).truthy = true) ∧
    ((repository.findByEmail db (prop data "email")).truthy = true →
      (UserService.create repository hash db data).calls
        = [RepoCall.findByEmail (prop data "email")] ∧
      (UserService.create repository hash db data).db = db) ∧
    ((repository.findByEmail db (prop data "email")).truthy = false →
      (UserService.create repository hash db data).calls
        = [RepoCall.findByEmail (prop data "email"),
           RepoCall.create (JsVal.obj
             (JsVal.assign "password" (JsVal.str (hash (prop data "password"))) data))] ∧
      (UserService.create repository hash db data).result
        = Except.ok (repository.create db (JsVal.obj
            (JsVal.assign "password" (JsVal.str (hash (prop data "password"))) data))).2 ∧
      (UserService.create repository hash db data).db
        = (repository.create db (JsVal.obj
            (JsVal.assign "password" (JsVal.str (hash (prop data "password"))) data))).1 ∧
      JsVal.lookup "password"
          (JsVal.assign "password" (JsVal.str (hash (prop data "password"))) data)
        = some (JsVal.str (hash (prop data "password"))) ∧
      (∀ k : String, k ≠ "password" →
        JsVal.lookup k (JsVal.assign "password" (JsVal.str (hash (prop data "password"))) data)
          = JsVal.lookup k data)) := by
  cases hex : (repository.findByEmail db (prop data "email")).truthy with
  | true =>
    have hrun : UserService.create repository hash db data =
        { db := db, calls := [RepoCall.findByEmail (prop data "email")],
          result := Except.error duplicateEmailError } := by
      unfold UserService.create
      simp only [hex, if_true]
    rw [hrun]
    refine ⟨⟨fun _ => rfl, fun _ => rfl⟩, fun _ => ⟨rfl, rfl⟩, ?_⟩
    intro h
    exact absurd h (by decide)
  | false =>
    have hrun : UserService.create repository hash db data =
        { db := (repository.create db (JsVal.obj
            (JsVal.assign "password" (JsVal.str (hash (prop data "password"))) data))).1,
          calls := [RepoCall.findByEmail (prop data "email"),
            RepoCall.create (JsVal.obj
              (JsVal.assign "password" (JsVal.str (hash (prop data "password"))) data))],
          result := Except.ok (repository.create db (JsVal.obj
            (JsVal.assign "password" (JsVal.str (hash (prop data "password"))) data))).2 } := by
      unfold UserService.create
      simp only [hex, Bool.false_eq_true, if_false]
    rw [hrun]
    refine ⟨⟨?_, ?_⟩, ?_, ?_⟩
    · intro h
      cases h
    · intro h
      exact absurd h (by decide)
    · intro h
      exact absurd h (by decide)
    · intro _
      exact ⟨rfl, rfl, rfl, lookup_assign_key _ _ _,
        fun k hk => lookup_assign_other_key _ _ _ _ hk⟩

theorem userService_create_witness :
    (UserService.create memoryRepository sampleHash sampleRows
        [("name", JsVal.str "Jane"), ("email", JsVal.str "jane@x.com"),
         ("password", JsVal.str "secret1")]).result
      = Except.error { message := "Email already registered",
                       code := some "DUPLICATE_EMAIL", status := some 409 } :=
  (userService_create memoryRepository sampleHash sampleRows
    [("name", JsVal.str "Jane"), ("email", JsVal.str "jane@x.com"),
     ("password", JsVal.str "secret1")]).1.mpr rfl

/-- C23. For an id under which `findById` yields a user, `UserService.update` raises the
failure DUPLICATE_EMAIL (status 409) if and only if `data.email` is truthy and
`findByEmail(data.email)` yields a user whose `id` is not `id`. When the user found under that
email has the id `id` itself, no such failure is raised and the repository is asked to update.
On the 409 path the calls made are `findById` and `findByEmail` only and the database is as
before. When `data.password` is falsy and no 409 is raised, the last call is `update(id, data)`
with `data` as received, and the result and the state are those of that call. -/
theorem userService_update_email {σ : Type} (repository : Repository σ)
    (hash : JsVal → String) (db : σ) (id : Int) (data : List (String × JsVal))
    (hfound : (repository.findById db id).truthy = true) :
    ((UserService.update repository hash db id data).result
        = Except.error { message := "Email already registered",
                         code := some "DUPLICATE_EMAIL", status := some 409 } ↔
      ((prop data "email").truthy = true ∧
        (repository.findByEmail db (prop data "email")).truthy = true ∧
        strictNeNum ((repository.findByEmail db (prop data "email")).field "id") id = true)) ∧
    ((repository.findByEmail db (prop data "email")).field "id" = some (JsVal.num id) →
      (UserService.update repository hash db id data).result
          ≠ Except.error { message := "Email already registered",
                           code := some "DUPLICATE_EMAIL", status := some 409 } ∧
      ∃ sent, (UserService.update repository hash db id data).calls.getLast?
        = some (RepoCall.update id sent)) ∧
    ((UserService.update repository hash db id data).result
        = Except.error { message := "Email already registered",
                         code := some "DUPLICATE_EMAIL", status := some 409 } →
      (UserService.update repository hash db id data).calls
        = [RepoCall.findById id, RepoCall.findByEmail (prop data "email")] ∧
      (UserService.update repository hash db id data).db = db) ∧
    ((UserService.update repository hash db id data).result
        ≠ Except.error { message := "Email already registered",
                         code := some "DUPLICATE_EMAIL", status := some 409 } →
      (prop data "password").truthy = false →
      (UserService.update repository hash db id data).calls.getLast?
        = some (RepoCall.update id (JsVal.obj data)) ∧
      (UserService.update repository hash db id data).result
        = Except.ok (repository.update db id (JsVal.obj data)).2 ∧
      (UserService.update repository hash db id data).db
        = (repository.update db id (JsVal.obj data)).1) := by
  obtain ⟨hnoEmail, hclash, hfree⟩ := update_of_found repository hash db id data hfound
  cases he : (prop data "email").truthy with
  | false =>
    have hrun := hnoEmail he
    rw [hrun]
    refine ⟨⟨fun h => (by cases h), fun h => absurd h.1 (by decide)⟩,
      fun _ => ⟨fun h => (by cases h), _, rfl⟩, fun h => (by cases h), ?_⟩
    intro _ hp
    simp [hp]
  | true =>
    cases hc : ((repository.findByEmail db (prop data "email")).truthy
        && strictNeNum ((repository.findByEmail db (prop data "email")).field "id") id) with
    | true =>
      have hrun := hclash he hc
      rw [hrun]
      have hboth := Bool.and_eq_true_iff.mp hc
      refine ⟨⟨fun _ => ⟨rfl, hboth.1, hboth.2⟩, fun _ => rfl⟩, ?_, fun _ => ⟨rfl, rfl⟩,
        fun h => absurd rfl h⟩
      intro hid
      rw [hid] at hboth
      simp [strictNeNum] at hboth
    | false =>
      have hrun := hfree he hc
      rw [hrun]
      refine ⟨⟨fun h => (by cases h), ?_⟩, fun _ => ⟨fun h => (by cases h), _, rfl⟩,
        fun h => (by cases h), ?_⟩
      · intro h
        rw [h.2.1, h.2.2] at hc
        exact absurd hc (by decide)
      · intro _ hp
        simp [hp]

theorem userService_update_email_witness :
    (UserService.update memoryRepository sampleHash sampleRows 1
        [("email", JsVal.str "john@x.com")]).result
      = Except.error { message := "Email already registered",
                       code := some "DUPLICATE_EMAIL", status := some 409 } :=
  (userService_update_email memoryRepository sampleHash sampleRows 1
    [("email", JsVal.str "john@x.com")] rfl).1.mpr ⟨rfl, rfl, rfl⟩

/-- C24. For an id under which `findById` yields no user, `getById`, `update` and `delete` each
raise the failure with message "User not found", code NOT_FOUND and status 404; `update` and
`delete` have then called `findById` only and the database is as before. For an id under which
`findById` yields a user, `getById` returns that user, and `delete` calls `findById` and then
the repository's `delete` with that id, returns `true` and leaves the state of that call. -/
theorem userService_notFound {σ : Type} (repository : Repository σ) (hash : JsVal → String)
    (db : σ) (id : Int) (data : List (String × JsVal)) :
    ((repository.findById db id).truthy = false →
      (UserService.getById repository db id).result
        = Except.error { message := "User not found",
                         code := some "NOT_FOUND", status := some 404 } ∧
      (UserService.update repository hash db id data).result
        = Except.error { message := "User not found",
                         code := some "NOT_FOUND", status := some 404 } ∧
      (UserService.update repository hash db id data).calls = [RepoCall.findById id] ∧
      (UserService.update repository hash db id data).db = db ∧
      (UserService.delete repository db id).result
        = Except.error { message := "User not found",
                         code := some "NOT_FOUND", status := some 404 } ∧
      (UserService.delete repository db id).calls = [RepoCall.findById id] ∧
      (UserService.delete repository db id).db = db) ∧
    ((repository.findById db id).truthy = true →
      (UserService.getById repository db id).result
        = Except.ok (repository.findById db id) ∧
      (UserService.getById repository db id).db = db ∧
      (UserService.delete repository db id).calls
        = [RepoCall.findById id, RepoCall.delete id] ∧
      (UserService.delete repository db id).result = Except.ok (JsVal.bool true) ∧
      (UserService.delete repository db id).db = (repository.delete db id).1) := by
  constructor
  · intro h
    have hg := getById_of_missing repository db id h
    have hu : UserService.update repository hash db id data =
        { db := db, calls := [RepoCall.findById id], result := Except.error notFoundError } := by
      unfold UserService.update
      rw [hg]
    have hd : UserService.delete repository db id =
        { db := db, calls := [RepoCall.findById id], result := Except.error notFoundError } := by
      unfold UserService.delete
      rw [hg]
    rw [hg, hu, hd]
    exact ⟨rfl, rfl, rfl, rfl, rfl, rfl, rfl⟩
  · intro h
    have hg := getById_of_found repository db id h
    have hd : UserService.delete repository db id =
        { db := (repository.delete db id).1,
          calls := [RepoCall.findById id, RepoCall.delete id],
          result := Except.ok (JsVal.bool true) } := by
      unfold UserService.delete
      rw [hg]
      rfl
    rw [hg, hd]
    exact ⟨rfl, rfl, rfl, rfl, rfl⟩

theorem userService_notFound_witness :
    (UserService.delete memoryRepository sampleRows 999).result
      = Except.error { message := "User not found",
                       code := some "NOT_FOUND", status := some 404 } :=
  ((userService_notFound memoryRepository sampleHash sampleRows 999 []).1 rfl).2.2.2.2.1

end HonoBoilerplate
